import Mathlib

/-!
# Verification of `KDTreeCPU` (src/Accel/KDTreeCPU.cpp)

A shallow embedding of the CPU kd-tree builder and of its ray traversal.

Modelling conventions.

* `float` is `Flt`: an exact rational, `+INFINITY`, `-INFINITY` or NaN. The
  comparisons and the arithmetic follow IEEE-754 on the special values and are
  exact on finite values (rounding, overflow and the sign of zero are not
  modelled).
* `int` is an unbounded integer; counts are natural numbers.
* A pointer together with its element count (`verts`/`num_verts`,
  `tris`/`num_tris`) is a list. A read outside the list, a read through a
  null node pointer and a float-to-int cast of a non-finite value are undefined
  behaviour in C++; here they are the fault `Fault.undefinedBehaviour`.
* The recursion of `constructTreeMedianSpaceSplit` is not bounded in the
  source, so the model takes a fuel argument and reports `Fault.outOfFuel`
  when the fuel is used up.
* `KDTreeNode` models a `KDTreeNode*`: `null` or a node with two child pointers.
* The header constants `NUM_TRIS_PER_NODE` and
  `USE_TIGHT_FITTING_BOUNDING_BOXES` and the primitives of `Intersections.h`
  are parameters (`Config`, `Intersections`).
-/

namespace Accel

/-! ## Scalars -/

/-- A `float`: exact finite value, the two infinities, or NaN. -/
inductive Flt where
  | fin (q : ℚ)
  | pinf
  | ninf
  | nan
  deriving DecidableEq

namespace Flt

/-- The C++ comparison `a < b` on floats. -/
def lt : Flt → Flt → Bool
  | fin a, fin b => decide (a < b)
  | ninf, fin _ => true
  | ninf, pinf => true
  | fin _, pinf => true
  | _, _ => false

/-- The C++ comparison `a > b` on floats. -/
def gt (a b : Flt) : Bool := lt b a

/-- The C++ comparison `a >= b` on floats. -/
def ge : Flt → Flt → Bool
  | fin a, fin b => decide (b ≤ a)
  | fin _, ninf => true
  | pinf, fin _ => true
  | pinf, pinf => true
  | pinf, ninf => true
  | ninf, ninf => true
  | _, _ => false

/-- The C++ comparison `a <= b` on floats. -/
def le (a b : Flt) : Bool := ge b a

/-- Unary minus. -/
def neg : Flt → Flt
  | fin a => fin (-a)
  | pinf => ninf
  | ninf => pinf
  | nan => nan

/-- Float addition. -/
def add : Flt → Flt → Flt
  | fin a, fin b => fin (a + b)
  | fin _, pinf => pinf
  | fin _, ninf => ninf
  | pinf, fin _ => pinf
  | pinf, pinf => pinf
  | ninf, fin _ => ninf
  | ninf, ninf => ninf
  | _, _ => nan

/-- Float subtraction. -/
def sub (a b : Flt) : Flt := add a (neg b)

/-- Float multiplication. -/
def mul : Flt → Flt → Flt
  | fin a, fin b => fin (a * b)
  | fin a, pinf => if 0 < a then pinf else if a < 0 then ninf else nan
  | fin a, ninf => if 0 < a then ninf else if a < 0 then pinf else nan
  | pinf, fin b => if 0 < b then pinf else if b < 0 then ninf else nan
  | ninf, fin b => if 0 < b then ninf else if b < 0 then pinf else nan
  | pinf, pinf => pinf
  | ninf, ninf => pinf
  | pinf, ninf => ninf
  | ninf, pinf => ninf
  | _, _ => nan

/-- Division by the constant `2.0f`. -/
def div2 : Flt → Flt
  | fin a => fin (a / 2)
  | pinf => pinf
  | ninf => ninf
  | nan => nan

/-- A float holding a finite value. -/
def isFinite : Flt → Bool
  | fin _ => true
  | _ => false

end Flt

/-- Faults of the model: the fuel of the unbounded recursion ran out, or the
C++ program has undefined behaviour at this point. -/
inductive Fault where
  | outOfFuel
  | undefinedBehaviour
  deriving DecidableEq

deriving instance DecidableEq for Except

/-- The cast `( int )f`: truncation toward zero; undefined for a non-finite
value. -/
def Flt.toInt : Flt → Except Fault Int
  | .fin q => .ok (q.num.tdiv q.den)
  | _ => .error .undefinedBehaviour

/-- The read `p[i]` of an array holding the elements of `l`. -/
def readAt {α : Type} (l : List α) (i : Int) : Except Fault α :=
  if 0 ≤ i then
    match l[i.toNat]? with
    | some a => .ok a
    | none => .error .undefinedBehaviour
  else .error .undefinedBehaviour

/-- The loop `for ( int i = start; i < start + n; ++i ) body`, threading the
variables the body updates. -/
def forLoopFrom {σ : Type} (body : Nat → σ → Except Fault σ) :
    Nat → Nat → σ → Except Fault σ
  | 0, _, s => .ok s
  | n + 1, i, s =>
    match body i s with
    | .ok s1 => forLoopFrom body n (i + 1) s1
    | .error e => .error e

/-- The loop `for ( int i = 0; i < n; ++i ) body`. -/
def forLoop {σ : Type} (n : Nat) (body : Nat → σ → Except Fault σ) (init : σ) :
    Except Fault σ :=
  forLoopFrom body n 0 init

/-! ## Data model -/

/-- The type `glm::vec3`. -/
structure vec3 where
  x : Flt
  y : Flt
  z : Flt
  deriving DecidableEq

/-- The component `v[i]` of a `glm::vec3`, for `i` one of 0, 1, 2. -/
def vec3.comp (v : vec3) : Nat → Flt
  | 0 => v.x
  | 1 => v.y
  | _ => v.z

/-- All three components hold finite values. -/
def vec3.isFinite (v : vec3) : Bool :=
  v.x.isFinite && v.y.isFinite && v.z.isFinite

/-- The sum `a + b` of two vectors. -/
def vec3.add (a b : vec3) : vec3 :=
  ⟨Flt.add a.x b.x, Flt.add a.y b.y, Flt.add a.z b.z⟩

/-- The product `t * v` of a scalar and a vector. -/
def vec3.smul (t : Flt) (v : vec3) : vec3 :=
  ⟨Flt.mul t v.x, Flt.mul t v.y, Flt.mul t v.z⟩

/-- The struct `boundingBox`. -/
structure boundingBox where
  min : vec3
  max : vec3
  deriving DecidableEq

/-- The enum `SplitAxis`. -/
inductive SplitAxis where
  | X_AXIS
  | Y_AXIS
  | Z_AXIS
  deriving DecidableEq

/-- The coordinate of a vector along an axis. -/
def vec3.along (v : vec3) : SplitAxis → Flt
  | .X_AXIS => v.x
  | .Y_AXIS => v.y
  | .Z_AXIS => v.z

/-- A `KDTreeNode*`: the null pointer, or a node with its bounding box, its
triangle count, its triangle index buffer and its two child pointers. -/
inductive KDTreeNode where
  | null
  | node (bbox : boundingBox) (num_tris : Nat) (tri_indices : List Int)
      (left right : KDTreeNode)
  deriving DecidableEq

/-- The test `!p` of a node pointer. -/
def KDTreeNode.isNull : KDTreeNode → Bool
  | .null => true
  | .node .. => false

/-- Build-time constants of the header. -/
structure Config where
  NUM_TRIS_PER_NODE : Nat
  USE_TIGHT_FITTING_BOUNDING_BOXES : Bool
  /-- Value of each element of a buffer made by `new glm::vec3[n]`. -/
  newVec3 : vec3

/-- The primitives of `Intersections.h`. `aabbIntersect` gives the hit flag
(its outputs `t_near`, `t_far` are not used by the tree); `triIntersect` gives
the hit flag and the values left in `tmp_t` and `tmp_normal`. -/
structure Intersections where
  aabbIntersect : boundingBox → vec3 → vec3 → Bool
  triIntersect : vec3 → vec3 → vec3 → vec3 → vec3 → Bool × Flt × vec3

/-! ## Getters and geometry queries -/

/-- The function `KDTreeCPU::getLongestBoundingBoxSide`. -/
def getLongestBoundingBoxSide (min max : vec3) : SplitAxis :=
  let xlength := Flt.sub max.x min.x
  let ylength := Flt.sub max.y min.y
  let zlength := Flt.sub max.z min.z
  if Flt.gt xlength ylength && Flt.gt xlength zlength then .X_AXIS
  else if Flt.gt ylength zlength then .Y_AXIS else .Z_AXIS

/-- The three vertices `verts[( int )tri[k]]` of the triangle `tris[tri_index]`. -/
def triVerts (tris verts : List vec3) (tri_index : Int) :
    Except Fault (vec3 × vec3 × vec3) := do
  let tri ← readAt tris tri_index
  let i0 ← Flt.toInt tri.x
  let v0 ← readAt verts i0
  let i1 ← Flt.toInt tri.y
  let v1 ← readAt verts i1
  let i2 ← Flt.toInt tri.z
  let v2 ← readAt verts i2
  pure (v0, v1, v2)

/-- The selection `( a < b && a < c ) ? a : ( b < c ? b : c )`. -/
def min3 (a b c : Flt) : Flt :=
  if Flt.lt a b && Flt.lt a c then a else if Flt.lt b c then b else c

/-- The selection `( a > b && a > c ) ? a : ( b > c ? b : c )`. -/
def max3 (a b c : Flt) : Flt :=
  if Flt.gt a b && Flt.gt a c then a else if Flt.gt b c then b else c

/-- The function `KDTreeCPU::getMinTriValue`. -/
def getMinTriValue (tris verts : List vec3) (tri_index : Int) (axis : SplitAxis) :
    Except Fault Flt := do
  let (v0, v1, v2) ← triVerts tris verts tri_index
  match axis with
  | .X_AXIS => pure (min3 v0.x v1.x v2.x)
  | .Y_AXIS => pure (min3 v0.y v1.y v2.y)
  | .Z_AXIS => pure (min3 v0.z v1.z v2.z)

/-- The function `KDTreeCPU::getMaxTriValue`. -/
def getMaxTriValue (tris verts : List vec3) (tri_index : Int) (axis : SplitAxis) :
    Except Fault Flt := do
  let (v0, v1, v2) ← triVerts tris verts tri_index
  match axis with
  | .X_AXIS => pure (max3 v0.x v1.x v2.x)
  | .Y_AXIS => pure (max3 v0.y v1.y v2.y)
  | .Z_AXIS => pure (max3 v0.z v1.z v2.z)

/-! ## Bounding boxes -/

/-- One iteration of the loop of `computeTightFittingBoundingBox`: fold the
point `v` into the running `min`/`max`. -/
def foldPoint (b : boundingBox) (v : vec3) : boundingBox :=
  let minx := if Flt.lt v.x b.min.x then v.x else b.min.x
  let miny := if Flt.lt v.y b.min.y then v.y else b.min.y
  let minz := if Flt.lt v.z b.min.z then v.z else b.min.z
  let maxx := if Flt.gt v.x b.max.x then v.x else b.max.x
  let maxy := if Flt.gt v.y b.max.y then v.y else b.max.y
  let maxz := if Flt.gt v.z b.max.z then v.z else b.max.z
  ⟨⟨minx, miny, minz⟩, ⟨maxx, maxy, maxz⟩⟩

/-- The box `min = +INFINITY`, `max = -INFINITY` the fold starts from. -/
def sentinelBox : boundingBox :=
  ⟨⟨.pinf, .pinf, .pinf⟩, ⟨.ninf, .ninf, .ninf⟩⟩

/-- The function `KDTreeCPU::computeTightFittingBoundingBox( int num_verts,
glm::vec3 *verts )`. -/
def computeTightFittingBoundingBox (verts : List vec3) : boundingBox :=
  verts.foldl foldPoint sentinelBox

/-- The function `KDTreeCPU::computeTightFittingBoundingBox( int num_tris,
int *tri_indices )`. Its local buffer `verts` hides the member `verts`, and the
triangle read is `tris[i]`: both are kept as written. -/
def computeTightFittingBoundingBoxTris (cfg : Config) (tris : List vec3)
    (num_tris : Nat) (_tri_indices : List Int) : Except Fault boundingBox := do
  let num_verts := num_tris * 3
  let buf0 : List vec3 := List.replicate num_verts cfg.newVec3
  let buf ← forLoop num_tris (fun i (buf : List vec3) => do
    let tri ← readAt tris (i : Int)
    let verts_index := i * 3
    let i0 ← Flt.toInt tri.x
    let a ← readAt buf i0
    let buf1 := buf.set (verts_index + 0) a
    let i1 ← Flt.toInt tri.y
    let b ← readAt buf1 i1
    let buf2 := buf1.set (verts_index + 1) b
    let i2 ← Flt.toInt tri.z
    let c ← readAt buf2 i2
    pure (buf2.set (verts_index + 2) c)) buf0
  pure (computeTightFittingBoundingBox buf)

/-! ## Construction -/

/-- The members `num_levels` and `num_leaves`, updated during construction. -/
structure Stats where
  num_levels : Nat
  num_leaves : Nat
  deriving DecidableEq

/-- Variables of the loop that populates the temporary buffers: the entries
written so far to `temp_left_tri_indices` and `temp_right_tri_indices`, and the
two counters. -/
structure PopulateState where
  temp_left_tri_indices : List Int
  temp_right_tri_indices : List Int
  left_tri_count : Nat
  right_tri_count : Nat
  deriving DecidableEq

/-- Body of the loop "Populate temporary buffers" of
`constructTreeMedianSpaceSplit`, after the read of `tri_indices[i]`. The three
branches on `longest_side` of the source call the two getters with that same
axis, so they are one call here. -/
def populateStep (tris verts : List vec3) (longest_side : SplitAxis) (median_val : Flt)
    (s : PopulateState) (idx : Int) : Except Fault PopulateState := do
  let min_tri_val ← getMinTriValue tris verts idx longest_side
  let max_tri_val ← getMaxTriValue tris verts idx longest_side
  let s1 : PopulateState :=
    if Flt.lt min_tri_val median_val then
      { s with temp_left_tri_indices := s.temp_left_tri_indices ++ [idx],
               left_tri_count := s.left_tri_count + 1 }
    else
      { s with temp_left_tri_indices := s.temp_left_tri_indices ++ [-1] }
  let s2 : PopulateState :=
    if Flt.ge max_tri_val median_val then
      { s1 with temp_right_tri_indices := s1.temp_right_tri_indices ++ [idx],
                right_tri_count := s1.right_tri_count + 1 }
    else
      { s1 with temp_right_tri_indices := s1.temp_right_tri_indices ++ [-1] }
  pure s2

/-- Body of the loop "Populate temporary buffers" of
`constructTreeMedianSpaceSplit`. -/
def populateBody (tris verts : List vec3) (tri_indices : List Int)
    (longest_side : SplitAxis) (median_val : Flt) (i : Nat) (s : PopulateState) :
    Except Fault PopulateState := do
  let idx ← readAt tri_indices (i : Int)
  populateStep tris verts longest_side median_val s idx

/-- Body of the loop "Populate lists of triangle indices": the state is the
entries written so far to `left_tri_indices` and `right_tri_indices`. -/
def compactBody (temp_left_tri_indices temp_right_tri_indices : List Int) (i : Nat)
    (s : List Int × List Int) : Except Fault (List Int × List Int) := do
  let a ← readAt temp_left_tri_indices (i : Int)
  let left := if a ≠ -1 then s.1 ++ [a] else s.1
  let b ← readAt temp_right_tri_indices (i : Int)
  let right := if b ≠ -1 then s.2 ++ [b] else s.2
  pure (left, right)

/-- The median value and the two loose child boxes computed from `bounds`. -/
def splitBounds (bounds : boundingBox) (longest_side : SplitAxis) :
    Flt × boundingBox × boundingBox :=
  match longest_side with
  | .X_AXIS =>
    let median_val := Flt.add bounds.min.x (Flt.div2 (Flt.sub bounds.max.x bounds.min.x))
    (median_val, { bounds with max := { bounds.max with x := median_val } },
      { bounds with min := { bounds.min with x := median_val } })
  | .Y_AXIS =>
    let median_val := Flt.add bounds.min.y (Flt.div2 (Flt.sub bounds.max.y bounds.min.y))
    (median_val, { bounds with max := { bounds.max with y := median_val } },
      { bounds with min := { bounds.min with y := median_val } })
  | .Z_AXIS =>
    let median_val := Flt.add bounds.min.z (Flt.div2 (Flt.sub bounds.max.z bounds.min.z))
    (median_val, { bounds with max := { bounds.max with z := median_val } },
      { bounds with min := { bounds.min with z := median_val } })

/-- The bounding box stored in a new node: the tight-fitting box when
`USE_TIGHT_FITTING_BOUNDING_BOXES` is set, the passed-in `bounds` otherwise. -/
def nodeBoundingBox (cfg : Config) (tris : List vec3) (num_tris : Nat)
    (tri_indices : List Int) (bounds : boundingBox) : Except Fault boundingBox :=
  if cfg.USE_TIGHT_FITTING_BOUNDING_BOXES then
    computeTightFittingBoundingBoxTris cfg tris num_tris tri_indices
  else pure bounds

/-- The function `KDTreeCPU::constructTreeMedianSpaceSplit`. The first argument
is the fuel of the recursion; `st` holds `num_levels` and `num_leaves`. -/
def constructTreeMedianSpaceSplit (cfg : Config) (tris verts : List vec3) :
    Nat → Nat → List Int → boundingBox → Nat → Stats →
    Except Fault (KDTreeNode × Stats)
  | 0, _, _, _, _, _ => .error .outOfFuel
  | fuel + 1, num_tris, tri_indices, bounds, curr_depth, st => do
    let bbox ← nodeBoundingBox cfg tris num_tris tri_indices bounds
    if num_tris ≤ cfg.NUM_TRIS_PER_NODE then
      let num_levels := if curr_depth > st.num_levels then curr_depth else st.num_levels
      pure (.node bbox num_tris tri_indices .null .null,
        { num_levels := num_levels, num_leaves := st.num_leaves + 1 })
    else
      let longest_side := getLongestBoundingBoxSide bounds.min bounds.max
      let (median_val, left_bbox, right_bbox) := splitBounds bounds longest_side
      let p ← forLoop num_tris
        (populateBody tris verts tri_indices longest_side median_val) ⟨[], [], 0, 0⟩
      let (left_tri_indices, right_tri_indices) ← forLoop num_tris
        (compactBody p.temp_left_tri_indices p.temp_right_tri_indices) ([], [])
      let (left, st1) ← constructTreeMedianSpaceSplit cfg tris verts fuel
        p.left_tri_count left_tri_indices left_bbox (curr_depth + 1) st
      let (right, st2) ← constructTreeMedianSpaceSplit cfg tris verts fuel
        p.right_tri_count right_tri_indices right_bbox (curr_depth + 1) st1
      pure (.node bbox num_tris tri_indices left right, st2)

/-- The object `KDTreeCPU` after construction. -/
structure KDTreeCPU where
  num_levels : Nat
  num_leaves : Nat
  verts : List vec3
  tris : List vec3
  root : KDTreeNode
  deriving DecidableEq

/-- The triangle index list `0, 1, ..., num_tris - 1` of the first level. -/
def rootIndices (num_tris : Nat) : List Int :=
  (List.range num_tris).map Int.ofNat

/-- The constructor `KDTreeCPU::KDTreeCPU`, with the fuel of the recursive
build as first argument. -/
def KDTreeCPU.new (cfg : Config) (fuel : Nat) (tris verts : List vec3) :
    Except Fault KDTreeCPU := do
  let tri_indices := rootIndices tris.length
  let bbox := computeTightFittingBoundingBox verts
  let (root, st) ← constructTreeMedianSpaceSplit cfg tris verts fuel tris.length
    tri_indices bbox 1 ⟨0, 0⟩
  pure { num_levels := st.num_levels, num_leaves := st.num_leaves,
         verts := verts, tris := tris, root := root }

/-- The getter `KDTreeCPU::getRootNode`. -/
def KDTreeCPU.getRootNode (k : KDTreeCPU) : KDTreeNode := k.root

/-- The getter `KDTreeCPU::getNumLevels`. -/
def KDTreeCPU.getNumLevels (k : KDTreeCPU) : Nat := k.num_levels

/-- The getter `KDTreeCPU::getNumLeaves`. -/
def KDTreeCPU.getNumLeaves (k : KDTreeCPU) : Nat := k.num_leaves

/-! ## Traversal -/

/-- Body of the triangle loop of a leaf in the recursive `intersect`, after the
read of `tri_indices[i]`: the state is `intersection_detected`, `t` and
`normal`. -/
def leafVisit (I : Intersections) (tris verts : List vec3) (ray_o ray_dir : vec3)
    (s : Bool × Flt × vec3) (idx : Int) : Except Fault (Bool × Flt × vec3) := do
  let (v0, v1, v2) ← triVerts tris verts idx
  let (intersects_tri, tmp_t, tmp_normal) := I.triIntersect ray_o ray_dir v0 v1 v2
  if intersects_tri then
    if Flt.lt tmp_t s.2.1 then pure (true, tmp_t, tmp_normal)
    else pure (true, s.2.1, s.2.2)
  else pure s

/-- Body of the triangle loop of a leaf in the recursive `intersect`. -/
def leafBody (I : Intersections) (tris verts : List vec3) (tri_indices : List Int)
    (ray_o ray_dir : vec3) (i : Nat) (s : Bool × Flt × vec3) :
    Except Fault (Bool × Flt × vec3) := do
  let idx ← readAt tri_indices (i : Int)
  leafVisit I tris verts ray_o ray_dir s idx

/-- The recursive `KDTreeCPU::intersect`: returns the flag and the values of
the in-out parameters `t` and `normal`. -/
def intersectNode (I : Intersections) (tris verts : List vec3) (ray_o ray_dir : vec3) :
    KDTreeNode → Flt → vec3 → Except Fault (Bool × Flt × vec3)
  | .null, _, _ => .error .undefinedBehaviour
  | .node bbox num_tris tri_indices left right, t, normal =>
    if I.aabbIntersect bbox ray_o ray_dir then
      if left.isNull && right.isNull then
        forLoop num_tris (leafBody I tris verts tri_indices ray_o ray_dir)
          (false, t, normal)
      else
        match (if !left.isNull then intersectNode I tris verts ray_o ray_dir left t normal
          else .ok (false, t, normal)) with
        | .error e => .error e
        | .ok (hit_left, t1, normal1) =>
          match (if !right.isNull then
              intersectNode I tris verts ray_o ray_dir right t1 normal1
            else .ok (false, t1, normal1)) with
          | .error e => .error e
          | .ok (hit_right, t2, normal2) => .ok (hit_left || hit_right, t2, normal2)
    else .ok (false, t, normal)

/-- The public `KDTreeCPU::intersect`: returns the flag and the values of the
out parameters `t`, `hit_point` and `normal`; `hit_point` and `normal` come in
with the caller's values. -/
def KDTreeCPU.intersect (I : Intersections) (k : KDTreeCPU) (ray_o ray_dir : vec3)
    (hit_point normal : vec3) : Except Fault (Bool × Flt × vec3 × vec3) := do
  let t := Flt.pinf
  let (hit, t1, normal1) ← intersectNode I k.tris k.verts ray_o ray_dir k.root t normal
  if hit then pure (hit, t1, vec3.add ray_o (vec3.smul t1 ray_dir), normal1)
  else pure (hit, t1, hit_point, normal1)

/-! ## Specification-side notions -/

/-- Extent `max - min` of a box along an axis, as `getLongestBoundingBoxSide`
computes it. -/
def extent (min max : vec3) (axis : SplitAxis) : Flt :=
  Flt.sub (max.along axis) (min.along axis)

/-- Componentwise `a <= b`. -/
def vec3.le (a b : vec3) : Bool :=
  Flt.le a.x b.x && Flt.le a.y b.y && Flt.le a.z b.z

/-- A vector with finite components. -/
def vec3.ofRat (a b c : ℚ) : vec3 := ⟨.fin a, .fin b, .fin c⟩

/-- Both corners of a box have finite components. -/
def boundingBox.isFinite (b : boundingBox) : Bool :=
  b.min.isFinite && b.max.isFinite

/-- The point `p` lies in the closed box: `min <= p <= max` componentwise. -/
def boundingBox.contains (b : boundingBox) (p : vec3) : Bool :=
  vec3.le b.min p && vec3.le p b.max

/-- A float stored in a triangle record casts to an index into `verts`. -/
def validVertexIndex (verts : List vec3) (f : Flt) : Bool :=
  match Flt.toInt f with
  | .ok i => decide (0 ≤ i ∧ i < (verts.length : Int))
  | .error _ => false

/-- A well-formed mesh: every triangle holds three vertex indices in range,
and every vertex position has finite coordinates. -/
def wellFormedMesh (tris verts : List vec3) : Bool :=
  tris.all (fun tri => validVertexIndex verts tri.x && validVertexIndex verts tri.y &&
    validVertexIndex verts tri.z) && verts.all vec3.isFinite

/-- The partition test of the build for the left set: the projected minimum of
the triangle is `< median_val`. -/
def goesLeft (tris verts : List vec3) (axis : SplitAxis) (median_val : Flt) (idx : Int) :
    Bool :=
  match getMinTriValue tris verts idx axis with
  | .ok a => Flt.lt a median_val
  | .error _ => false

/-- The partition test of the build for the right set: the projected maximum
of the triangle is `>= median_val`. -/
def goesRight (tris verts : List vec3) (axis : SplitAxis) (median_val : Flt) (idx : Int) :
    Bool :=
  match getMaxTriValue tris verts idx axis with
  | .ok a => Flt.ge a median_val
  | .error _ => false

/-- The field `bbox` of a node. -/
def KDTreeNode.bbox : KDTreeNode → boundingBox
  | .null => sentinelBox
  | .node bbox _ _ _ _ => bbox

/-- The field `num_tris` of a node. -/
def KDTreeNode.num_tris : KDTreeNode → Nat
  | .null => 0
  | .node _ n _ _ _ => n

/-- The field `tri_indices` of a node. -/
def KDTreeNode.tri_indices : KDTreeNode → List Int
  | .null => []
  | .node _ _ l _ _ => l

/-- The field `left` of a node. -/
def KDTreeNode.left : KDTreeNode → KDTreeNode
  | .null => .null
  | .node _ _ _ l _ => l

/-- The field `right` of a node. -/
def KDTreeNode.right : KDTreeNode → KDTreeNode
  | .null => .null
  | .node _ _ _ _ r => r

/-- A leaf: a node with no children. -/
def KDTreeNode.isLeaf : KDTreeNode → Bool
  | .null => false
  | .node _ _ _ l r => l.isNull && r.isNull

/-- All nodes of the tree below a pointer, the root first. -/
def KDTreeNode.nodes : KDTreeNode → List KDTreeNode
  | .null => []
  | .node bbox n l left right => .node bbox n l left right :: (left.nodes ++ right.nodes)

/-- All leaves of the tree below a pointer. -/
def KDTreeNode.leaves (t : KDTreeNode) : List KDTreeNode :=
  t.nodes.filter KDTreeNode.isLeaf

/-- The relation between the arguments of `constructTreeMedianSpaceSplit`
(an index list whose length is `num_tris`, and the bounds) and the tree a
successful call returns. -/
inductive Built (cfg : Config) (tris verts : List vec3) :
    List Int → boundingBox → KDTreeNode → Prop
  | leaf (l : List Int) (b bbox : boundingBox) :
      l.length ≤ cfg.NUM_TRIS_PER_NODE →
      nodeBoundingBox cfg tris l.length l b = .ok bbox →
      Built cfg tris verts l b (.node bbox l.length l .null .null)
  | split (l : List Int) (b bbox : boundingBox) (left right : KDTreeNode) :
      ¬ l.length ≤ cfg.NUM_TRIS_PER_NODE →
      nodeBoundingBox cfg tris l.length l b = .ok bbox →
      (∀ idx ∈ l, ∃ vs, triVerts tris verts idx = .ok vs) →
      Built cfg tris verts
        (l.filter (goesLeft tris verts (getLongestBoundingBoxSide b.min b.max)
          (splitBounds b (getLongestBoundingBoxSide b.min b.max)).1))
        (splitBounds b (getLongestBoundingBoxSide b.min b.max)).2.1 left →
      Built cfg tris verts
        (l.filter (goesRight tris verts (getLongestBoundingBoxSide b.min b.max)
          (splitBounds b (getLongestBoundingBoxSide b.min b.max)).1))
        (splitBounds b (getLongestBoundingBoxSide b.min b.max)).2.2 right →
      Built cfg tris verts l b (.node bbox l.length l left right)

/-- The triangle primitive applied to the triangle `tris[idx]`: the hit flag
and the values of `tmp_t` and `tmp_normal`. -/
def triTest (I : Intersections) (tris verts : List vec3) (ray_o ray_dir : vec3) (idx : Int) :
    Except Fault (Bool × Flt × vec3) := do
  let (v0, v1, v2) ← triVerts tris verts idx
  pure (I.triIntersect ray_o ray_dir v0 v1 v2)

/-- The update of `intersection_detected`, `t` and `normal` by one triangle
test with result `r`: replace `t` and `normal` if the hit is strictly closer. -/
def leafStep (s r : Bool × Flt × vec3) : Bool × Flt × vec3 :=
  if r.1 then
    if Flt.lt r.2.1 s.2.1 then (true, r.2.1, r.2.2) else (true, s.2.1, s.2.2)
  else s

/-- Some triangle of the index list is reported hit by the triangle primitive. -/
def anyHit (I : Intersections) (tris verts : List vec3) (ray_o ray_dir : vec3)
    (l : List Int) : Bool :=
  l.any (fun idx =>
    match triTest I tris verts ray_o ray_dir idx with
    | .ok r => r.1
    | .error _ => false)

/-- An index list with the later occurrences of every index removed. -/
def dropLaterDuplicates : List Int → List Int
  | [] => []
  | x :: xs => x :: (dropLaterDuplicates xs).filter (fun y => y ≠ x)

/-- The point `ray_o + t * ray_dir` of a ray. -/
def hitPoint (ray_o ray_dir : vec3) (t : Flt) : vec3 :=
  vec3.add ray_o (vec3.smul t ray_dir)

/-- The point `p` lies in the axis-aligned extent of the triangle `tris[idx]`:
on every axis it is between `getMinTriValue` and `getMaxTriValue`. -/
def inTriExtent (tris verts : List vec3) (idx : Int) (p : vec3) : Bool :=
  [SplitAxis.X_AXIS, SplitAxis.Y_AXIS, SplitAxis.Z_AXIS].all (fun axis =>
    match getMinTriValue tris verts idx axis, getMaxTriValue tris verts idx axis with
    | .ok a, .ok b => Flt.le a (p.along axis) && Flt.le (p.along axis) b
    | _, _ => false)

/-- The hit distances the triangle primitive reports over all triangles of
the mesh, in index order. -/
def hitDistances (I : Intersections) (tris verts : List vec3) (ray_o ray_dir : vec3) :
    List Flt :=
  (rootIndices tris.length).filterMap (fun idx =>
    match triTest I tris verts ray_o ray_dir idx with
    | .ok r => if r.1 then some r.2.1 else none
    | .error _ => none)

/-- Keep the smaller of the best distance so far and a new distance. -/
def closer (best u : Flt) : Flt :=
  if Flt.lt u best then u else best

/-- Brute force: test every triangle of the mesh directly with the triangle
primitive; the flag says whether some triangle is hit, the distance is the
smallest hit distance (`+INFINITY` when there is none). -/
def bruteForce (I : Intersections) (tris verts : List vec3) (ray_o ray_dir : vec3) :
    Bool × Flt :=
  (!(hitDistances I tris verts ray_o ray_dir).isEmpty,
    (hitDistances I tris verts ray_o ray_dir).foldl closer .pinf)

/-! ## Example inputs -/

/-- Example mesh, vertices: three triangles in the plane `z = 0`; A spans
x in [0,1], y in [0,1]; B spans x in [0,1], y in [3,4]; C spans x in [9,10],
y in [0,4]. -/
def exampleVerts : List vec3 :=
  [vec3.ofRat 0 0 0, vec3.ofRat 1 0 0, vec3.ofRat 0 1 0,
   vec3.ofRat 0 3 0, vec3.ofRat 1 3 0, vec3.ofRat 0 4 0,
   vec3.ofRat 9 0 0, vec3.ofRat 10 0 0, vec3.ofRat 9 4 0]

/-- Example mesh, triangles A, B, C. -/
def exampleTris : List vec3 :=
  [vec3.ofRat 0 1 2, vec3.ofRat 3 4 5, vec3.ofRat 6 7 8]

/-- Configuration with `NUM_TRIS_PER_NODE = 1` and loose bounding boxes. -/
def exampleConfig : Config := ⟨1, false, vec3.ofRat 0 0 0⟩

/-- Mesh of two triangles whose vertices all coincide at the point (1,2,3). -/
def coincidentVerts : List vec3 := [vec3.ofRat 1 2 3]

/-- Two triangles over the single vertex of `coincidentVerts`. -/
def coincidentTris : List vec3 := [vec3.ofRat 0 0 0, vec3.ofRat 0 0 0]

/-- The hit point of the example ray on triangle A. -/
def examplePoint : vec3 := vec3.ofRat (1 / 4) (1 / 4) 0

/-- Example ray origin, above triangle A. -/
def exampleOrigin : vec3 := vec3.ofRat (1 / 4) (1 / 4) 5

/-- Example ray direction, straight down the Z axis. -/
def exampleDir : vec3 := vec3.ofRat 0 0 (-1)

/-- Example primitives for the example ray: the triangle primitive reports a
hit, at distance 5 with normal (0,0,1), on triangle A only; the box primitive
reports a hit on the boxes that hold the hit point. -/
def examplePrimitives : Intersections where
  aabbIntersect := fun box _ _ => box.contains examplePoint
  triIntersect := fun _ _ v0 v1 v2 =>
    if v0 = vec3.ofRat 0 0 0 ∧ v1 = vec3.ofRat 1 0 0 ∧ v2 = vec3.ofRat 0 1 0 then
      (true, .fin 5, vec3.ofRat 0 0 1)
    else (false, .pinf, vec3.ofRat 0 0 0)

/-- The greatest depth of a leaf of the tree below a pointer, when the node at
the pointer has depth `d`; 0 for the null pointer. -/
def KDTreeNode.maxLeafDepth : KDTreeNode → Nat → Nat
  | .null, _ => 0
  | .node _ _ _ left right, d =>
    if left.isNull && right.isNull then d
    else max (left.maxLeafDepth (d + 1)) (right.maxLeafDepth (d + 1))

/-- The vertices `verts[( int )tris[idx][k]]` of the triangles of an index
list, in order. -/
def assignedVertices (tris verts : List vec3) : List Int → List vec3
  | [] => []
  | idx :: rest =>
    (match triVerts tris verts idx with
      | .ok (v0, v1, v2) => [v0, v1, v2]
      | .error _ => []) ++ assignedVertices tris verts rest

/-- The tight-fitting box of a node as the specification words it: the
componentwise minimum and maximum over the mesh vertices of the triangles
`tris[tri_indices[i]]` assigned to the node. -/
def specTightBox (tris verts : List vec3) (tri_indices : List Int) : boundingBox :=
  computeTightFittingBoundingBox (assignedVertices tris verts tri_indices)

/-- Configuration with `NUM_TRIS_PER_NODE = 1`, tight bounding boxes, and
zero-initialised fresh `glm::vec3` buffers. -/
def tightExampleConfig : Config := ⟨1, true, vec3.ofRat 0 0 0⟩

/-- The nodes of the tree below a pointer, each with the `bounds` argument of
the call of `constructTreeMedianSpaceSplit` that built it: the root with `b`,
the left and right child with the two boxes `left_bbox` and `right_bbox` the
call computes from its own bounds. -/
def KDTreeNode.withBounds : KDTreeNode → boundingBox → List (KDTreeNode × boundingBox)
  | .null, _ => []
  | .node bbox n l left right, b =>
    (.node bbox n l left right, b) ::
      (left.withBounds (splitBounds b (getLongestBoundingBoxSide b.min b.max)).2.1 ++
        right.withBounds (splitBounds b (getLongestBoundingBoxSide b.min b.max)).2.2)

/-- The hit distances the triangle primitive reports over the triangles of an
index list, in list order. -/
def leafHitDistances (I : Intersections) (tris verts : List vec3) (ray_o ray_dir : vec3)
    (l : List Int) : List Flt :=
  l.filterMap (fun idx =>
    match triTest I tris verts ray_o ray_dir idx with
    | .ok r => if r.1 then some r.2.1 else none
    | .error _ => none)

/-- The axis-aligned extent of the triangle `tris[idx]` overlaps the box on
every axis: `getMinTriValue <= box.max` and `getMaxTriValue >= box.min`. -/
def triOverlapsBox (tris verts : List vec3) (idx : Int) (b : boundingBox) : Bool :=
  [SplitAxis.X_AXIS, SplitAxis.Y_AXIS, SplitAxis.Z_AXIS].all (fun axis =>
    match getMinTriValue tris verts idx axis, getMaxTriValue tris verts idx axis with
    | .ok a, .ok c => Flt.le a (b.max.along axis) && Flt.ge c (b.min.along axis)
    | _, _ => false)

/-! ## Basic facts about the model -/

theorem bind_ok_iff {α β : Type} (x : Except Fault α) (f : α → Except Fault β) (b : β) :
    (x >>= f) = .ok b ↔ ∃ a, x = .ok a ∧ f a = .ok b := by
  cases x with
  | error e => simp [bind, Except.bind]
  | ok a => simp [bind, Except.bind]

theorem ok_bind {α β : Type} (a : α) (f : α → Except Fault β) :
    ((Except.ok a : Except Fault α) >>= f) = f a := rfl

theorem error_bind {α β : Type} (e : Fault) (f : α → Except Fault β) :
    ((Except.error e : Except Fault α) >>= f) = .error e := rfl

theorem readAt_ok_iff {α : Type} (l : List α) (i : Int) (a : α) :
    readAt l i = .ok a ↔ 0 ≤ i ∧ l[i.toNat]? = some a := by
  unfold readAt
  by_cases hi : 0 ≤ i
  · rw [if_pos hi]
    cases h : l[i.toNat]? with
    | none => simp [hi]
    | some b => simp [hi]
  · simp [hi]

theorem readAt_mem {α : Type} {l : List α} {i : Int} {a : α} (h : readAt l i = .ok a) :
    a ∈ l := by
  rw [readAt_ok_iff] at h
  obtain ⟨hlt, rfl⟩ := List.getElem?_eq_some_iff.mp h.2
  exact List.getElem_mem _

theorem readAt_natCast {α : Type} (l : List α) (i : Nat) (h : i < l.length) :
    readAt l (i : Int) = .ok (l.get ⟨i, h⟩) := by
  rw [readAt_ok_iff]
  refine ⟨Int.ofNat_nonneg i, ?_⟩
  simp [List.getElem?_eq_getElem h]

theorem readAt_append_length {α : Type} (pre l : List α) (x : α) :
    readAt (pre ++ x :: l) (pre.length : Int) = .ok x := by
  rw [readAt_ok_iff]
  refine ⟨Int.ofNat_nonneg _, ?_⟩
  simp only [Int.toNat_ofNat]
  rw [List.getElem?_append_right (le_refl _)]
  simp

/-- A counting loop whose body starts by reading element `i` of a list runs
over the elements of the list in order. -/
theorem forLoopFrom_eq_foldlM {α σ : Type} (all : List α)
    (body : Nat → σ → Except Fault σ) (f : σ → α → Except Fault σ)
    (hbody : ∀ i s, body i s = (readAt all (i : Int) >>= fun a => f s a)) :
    ∀ (l pre : List α) (s : σ), all = pre ++ l →
      forLoopFrom body l.length pre.length s = l.foldlM f s := by
  intro l
  induction l with
  | nil => intro pre s _; rfl
  | cons x l ih =>
    intro pre s hall
    have hread : body pre.length s = f s x := by
      rw [hbody, hall, readAt_append_length]; rfl
    rw [List.length_cons, forLoopFrom, hread, List.foldlM_cons]
    cases hf : f s x with
    | error e => rfl
    | ok s1 =>
      have := ih (pre ++ [x]) s1 (by simp [hall])
      simp only [List.length_append, List.length_singleton] at this
      exact this

theorem forLoop_eq_foldlM {α σ : Type} (l : List α)
    (body : Nat → σ → Except Fault σ) (f : σ → α → Except Fault σ)
    (hbody : ∀ i s, body i s = (readAt l (i : Int) >>= fun a => f s a)) (s : σ) :
    forLoop l.length body s = l.foldlM f s :=
  forLoopFrom_eq_foldlM l body f hbody l [] s rfl

/-! ## Order facts on floats -/

theorem Flt.isFinite_iff_fin (a : Flt) : a.isFinite = true ↔ ∃ q, a = .fin q := by
  cases a <;> simp [Flt.isFinite]

theorem vec3.isFinite_iff_ofRat (v : vec3) :
    v.isFinite = true ↔ ∃ a b c, v = vec3.ofRat a b c := by
  obtain ⟨x, y, z⟩ := v
  simp only [vec3.isFinite, Bool.and_eq_true, Flt.isFinite_iff_fin, vec3.ofRat, vec3.mk.injEq]
  constructor
  · rintro ⟨⟨⟨a, rfl⟩, ⟨b, rfl⟩⟩, ⟨c, rfl⟩⟩
    exact ⟨a, b, c, rfl, rfl, rfl⟩
  · rintro ⟨a, b, c, rfl, rfl, rfl⟩
    exact ⟨⟨⟨a, rfl⟩, ⟨b, rfl⟩⟩, ⟨c, rfl⟩⟩

theorem Flt.lt_irrefl (a : Flt) : Flt.lt a a = false := by
  cases a <;> simp [Flt.lt]

theorem Flt.lt_trans {a b c : Flt} (h1 : Flt.lt a b = true) (h2 : Flt.lt b c = true) :
    Flt.lt a c = true := by
  cases a <;> cases b <;> cases c <;> simp [Flt.lt] at * <;> linarith

theorem Flt.le_lt_trans {a b c : Flt} (h1 : Flt.le a b = true) (h2 : Flt.lt b c = true) :
    Flt.lt a c = true := by
  cases a <;> cases b <;> cases c <;> simp [Flt.lt, Flt.le, Flt.ge] at * <;> linarith

theorem Flt.ge_trans {a b c : Flt} (h1 : Flt.ge a b = true) (h2 : Flt.ge b c = true) :
    Flt.ge a c = true := by
  cases a <;> cases b <;> cases c <;> simp [Flt.ge] at * <;> linarith

theorem Flt.le_of_lt {a b : Flt} (h : Flt.lt a b = true) : Flt.le a b = true := by
  cases a <;> cases b <;> simp [Flt.lt, Flt.le, Flt.ge] at * <;> linarith

theorem Flt.ge_of_not_lt_fin {a : Flt} {q : ℚ} (ha : Flt.le a a = true)
    (h : Flt.lt a (.fin q) = false) : Flt.ge a (.fin q) = true := by
  cases a <;> simp [Flt.lt, Flt.le, Flt.ge] at * <;> linarith

theorem Flt.le_refl_of_le_left {a b : Flt} (h : Flt.le a b = true) : Flt.le a a = true := by
  cases a <;> cases b <;> simp [Flt.le, Flt.ge] at *

theorem Flt.le_refl_of_le_right {a b : Flt} (h : Flt.le a b = true) : Flt.le b b = true := by
  cases a <;> cases b <;> simp [Flt.le, Flt.ge] at *

theorem Flt.eq_of_not_lt {a b : Flt} (ha : a.isFinite = true) (hb : b.isFinite = true)
    (h1 : Flt.lt a b = false) (h2 : Flt.lt b a = false) : a = b := by
  cases a <;> cases b <;> simp [Flt.lt, Flt.isFinite] at *
  linarith

theorem Flt.lt_pinf_of_isFinite {a : Flt} (ha : a.isFinite = true) :
    Flt.lt a .pinf = true := by
  cases a <;> simp [Flt.lt, Flt.isFinite] at *

theorem Flt.isFinite_of_between {a p b : Flt} (ha : a.isFinite = true)
    (hb : b.isFinite = true) (h1 : Flt.le a p = true) (h2 : Flt.le p b = true) :
    p.isFinite = true := by
  cases a <;> cases b <;> cases p <;> simp [Flt.le, Flt.ge, Flt.isFinite] at *

/-! ## The box of a vertex list -/

theorem foldPoint_sentinel {v : vec3} (hv : v.isFinite = true) :
    foldPoint sentinelBox v = ⟨v, v⟩ := by
  obtain ⟨a, b, c, rfl⟩ := (vec3.isFinite_iff_ofRat v).mp hv
  simp [foldPoint, sentinelBox, vec3.ofRat, Flt.lt, Flt.gt]

theorem Flt.min_step {v m : Flt} (hv : v.isFinite = true) (hm : m.isFinite = true) :
    (if Flt.lt v m then v else m).isFinite = true ∧
      Flt.le (if Flt.lt v m then v else m) v = true ∧
      ∀ w : Flt, Flt.le m w = true → Flt.le (if Flt.lt v m then v else m) w = true := by
  obtain ⟨a, rfl⟩ := (Flt.isFinite_iff_fin v).mp hv
  obtain ⟨b, rfl⟩ := (Flt.isFinite_iff_fin m).mp hm
  by_cases h : a < b
  · simp only [Flt.lt, h, decide_True, if_true]
    refine ⟨rfl, by simp [Flt.le, Flt.ge], fun w hw => ?_⟩
    cases w <;> simp [Flt.le, Flt.ge] at * <;> linarith
  · simp only [Flt.lt, h, decide_False]
    refine ⟨rfl, by simp [Flt.le, Flt.ge]; linarith, fun w hw => hw⟩

theorem Flt.max_step {v m : Flt} (hv : v.isFinite = true) (hm : m.isFinite = true) :
    (if Flt.gt v m then v else m).isFinite = true ∧
      Flt.le v (if Flt.gt v m then v else m) = true ∧
      ∀ w : Flt, Flt.le w m = true → Flt.le w (if Flt.gt v m then v else m) = true := by
  obtain ⟨a, rfl⟩ := (Flt.isFinite_iff_fin v).mp hv
  obtain ⟨b, rfl⟩ := (Flt.isFinite_iff_fin m).mp hm
  by_cases h : b < a
  · simp only [Flt.gt, Flt.lt, h, decide_True, if_true]
    refine ⟨rfl, by simp [Flt.le, Flt.ge], fun w hw => ?_⟩
    cases w <;> simp [Flt.le, Flt.ge] at * <;> linarith
  · simp only [Flt.gt, Flt.lt, h, decide_False]
    refine ⟨rfl, by simp [Flt.le, Flt.ge]; linarith, fun w hw => hw⟩

theorem foldPoint_finite {b : boundingBox} {v : vec3} (hb : b.isFinite = true)
    (hv : v.isFinite = true) :
    (foldPoint b v).isFinite = true ∧ (foldPoint b v).contains v = true ∧
      ∀ w : vec3, b.contains w = true → (foldPoint b v).contains w = true := by
  obtain ⟨⟨a0, b0, c0⟩, ⟨a1, b1, c1⟩⟩ := b
  obtain ⟨x, y, z⟩ := v
  simp only [boundingBox.isFinite, vec3.isFinite, Bool.and_eq_true] at hb hv
  obtain ⟨⟨⟨ha0, hb0⟩, hc0⟩, ⟨ha1, hb1⟩, hc1⟩ := hb
  obtain ⟨⟨hx, hy⟩, hz⟩ := hv
  obtain ⟨fx0, lx0, wx0⟩ := Flt.min_step hx ha0
  obtain ⟨fy0, ly0, wy0⟩ := Flt.min_step hy hb0
  obtain ⟨fz0, lz0, wz0⟩ := Flt.min_step hz hc0
  obtain ⟨fx1, lx1, wx1⟩ := Flt.max_step hx ha1
  obtain ⟨fy1, ly1, wy1⟩ := Flt.max_step hy hb1
  obtain ⟨fz1, lz1, wz1⟩ := Flt.max_step hz hc1
  simp only [foldPoint, boundingBox.isFinite, boundingBox.contains, vec3.isFinite, vec3.le,
    Bool.and_eq_true]
  refine ⟨⟨⟨⟨fx0, fy0⟩, fz0⟩, ⟨fx1, fy1⟩, fz1⟩, ⟨⟨⟨lx0, ly0⟩, lz0⟩, ⟨lx1, ly1⟩, lz1⟩, ?_⟩
  rintro ⟨wx, wy, wz⟩ ⟨⟨⟨h1, h2⟩, h3⟩, ⟨h4, h5⟩, h6⟩
  exact ⟨⟨⟨wx0 _ h1, wy0 _ h2⟩, wz0 _ h3⟩, ⟨wx1 _ h4, wy1 _ h5⟩, wz1 _ h6⟩

theorem foldl_foldPoint_finite :
    ∀ (vs : List vec3) (b : boundingBox), b.isFinite = true →
      (∀ v ∈ vs, v.isFinite = true) →
      (vs.foldl foldPoint b).isFinite = true ∧
      (∀ w : vec3, b.contains w = true → (vs.foldl foldPoint b).contains w = true) ∧
      ∀ v ∈ vs, (vs.foldl foldPoint b).contains v = true := by
  intro vs
  induction vs with
  | nil => intro b hb _; exact ⟨hb, fun w hw => hw, fun v hv => absurd hv (List.not_mem_nil v)⟩
  | cons x vs ih =>
    intro b hb hfin
    have hx := hfin x (List.mem_cons_self _ _)
    obtain ⟨h1, h2, h3⟩ := foldPoint_finite hb hx
    obtain ⟨i1, i2, i3⟩ := ih (foldPoint b x) h1
      (fun v hv => hfin v (List.mem_cons_of_mem _ hv))
    refine ⟨i1, fun w hw => i2 w (h3 w hw), fun v hv => ?_⟩
    rcases List.mem_cons.mp hv with rfl | hmem
    · exact i2 _ h2
    · exact i3 v hmem

/-- The box of a non-empty list of finite points is finite and contains every
point of the list. -/
theorem computeTightFittingBoundingBox_contains {verts : List vec3} (hne : verts ≠ [])
    (hfin : ∀ v ∈ verts, v.isFinite = true) :
    (computeTightFittingBoundingBox verts).isFinite = true ∧
      ∀ v ∈ verts, (computeTightFittingBoundingBox verts).contains v = true := by
  cases verts with
  | nil => exact absurd rfl hne
  | cons x vs =>
    have hx := hfin x (List.mem_cons_self _ _)
    have hbox : (⟨x, x⟩ : boundingBox).isFinite = true := by
      simp [boundingBox.isFinite, hx]
    have hxx : (⟨x, x⟩ : boundingBox).contains x = true := by
      obtain ⟨a, b, c, rfl⟩ := (vec3.isFinite_iff_ofRat x).mp hx
      simp [boundingBox.contains, vec3.le, vec3.ofRat, Flt.le, Flt.ge]
    obtain ⟨i1, i2, i3⟩ := foldl_foldPoint_finite vs ⟨x, x⟩ hbox
      (fun v hv => hfin v (List.mem_cons_of_mem _ hv))
    simp only [computeTightFittingBoundingBox, List.foldl_cons, foldPoint_sentinel hx]
    refine ⟨i1, fun v hv => ?_⟩
    rcases List.mem_cons.mp hv with rfl | hmem
    · exact i2 _ hxx
    · exact i3 v hmem

/-! ## The partition loops -/

theorem getMinTriValue_ok {tris verts : List vec3} {idx : Int} {axis : SplitAxis} {a : Flt}
    (h : getMinTriValue tris verts idx axis = .ok a) :
    ∃ vs, triVerts tris verts idx = .ok vs := by
  unfold getMinTriValue at h
  rw [bind_ok_iff] at h
  obtain ⟨vs, hvs, _⟩ := h
  exact ⟨vs, hvs⟩

theorem triVerts_index_nonneg {tris verts : List vec3} {idx : Int} {vs : vec3 × vec3 × vec3}
    (h : triVerts tris verts idx = .ok vs) : 0 ≤ idx ∧ idx.toNat < tris.length := by
  unfold triVerts at h
  rw [bind_ok_iff] at h
  obtain ⟨tri, htri, _⟩ := h
  rw [readAt_ok_iff] at htri
  exact ⟨htri.1, (List.getElem?_eq_some_iff.mp htri.2).1⟩

theorem populateStep_ok {tris verts : List vec3} {axis : SplitAxis} {m : Flt}
    {s s1 : PopulateState} {idx : Int}
    (h : populateStep tris verts axis m s idx = .ok s1) :
    (∃ vs, triVerts tris verts idx = .ok vs) ∧
    s1.temp_left_tri_indices =
      s.temp_left_tri_indices ++ [if goesLeft tris verts axis m idx then idx else -1] ∧
    s1.temp_right_tri_indices =
      s.temp_right_tri_indices ++ [if goesRight tris verts axis m idx then idx else -1] ∧
    s1.left_tri_count =
      s.left_tri_count + (if goesLeft tris verts axis m idx then 1 else 0) ∧
    s1.right_tri_count =
      s.right_tri_count + (if goesRight tris verts axis m idx then 1 else 0) := by
  unfold populateStep at h
  rw [bind_ok_iff] at h
  obtain ⟨a, ha, h⟩ := h
  rw [bind_ok_iff] at h
  obtain ⟨b, hb, h⟩ := h
  have hs : s1 = _ := (Except.ok.inj h).symm
  refine ⟨getMinTriValue_ok ha, ?_⟩
  simp only [goesLeft, goesRight, ha, hb]
  subst hs
  by_cases h1 : Flt.lt a m = true <;> by_cases h2 : Flt.ge b m = true <;> simp [h1, h2]

theorem populate_foldlM_spec {tris verts : List vec3} {axis : SplitAxis} {m : Flt} :
    ∀ (l : List Int) (s p : PopulateState),
      l.foldlM (populateStep tris verts axis m) s = .ok p →
      (∀ idx ∈ l, ∃ vs, triVerts tris verts idx = .ok vs) ∧
      p.temp_left_tri_indices = s.temp_left_tri_indices ++
        l.map (fun idx => if goesLeft tris verts axis m idx then idx else -1) ∧
      p.temp_right_tri_indices = s.temp_right_tri_indices ++
        l.map (fun idx => if goesRight tris verts axis m idx then idx else -1) ∧
      p.left_tri_count = s.left_tri_count +
        (l.filter (goesLeft tris verts axis m)).length ∧
      p.right_tri_count = s.right_tri_count +
        (l.filter (goesRight tris verts axis m)).length := by
  intro l
  induction l with
  | nil =>
    intro s p h
    have hp : s = p := Except.ok.inj h
    subst hp
    simp
  | cons x l ih =>
    intro s p h
    rw [List.foldlM_cons, bind_ok_iff] at h
    obtain ⟨s1, hs1, h⟩ := h
    obtain ⟨hv, hl, hr, hlc, hrc⟩ := populateStep_ok hs1
    obtain ⟨ihv, ihl, ihr, ihlc, ihrc⟩ := ih s1 p h
    refine ⟨?_, ?_, ?_, ?_, ?_⟩
    · intro idx hidx
      rcases List.mem_cons.mp hidx with rfl | hmem
      · exact hv
      · exact ihv idx hmem
    · rw [ihl, hl]; simp
    · rw [ihr, hr]; simp
    · rw [ihlc, hlc, List.filter_cons]
      by_cases hg : goesLeft tris verts axis m x = true
      · simp [hg]; omega
      · simp [hg]
    · rw [ihrc, hrc, List.filter_cons]
      by_cases hg : goesRight tris verts axis m x = true
      · simp [hg]; omega
      · simp [hg]

theorem compact_forLoopFrom_spec :
    ∀ (tl tr pl pr L R : List Int), pl.length = pr.length → tl.length = tr.length →
      forLoopFrom (compactBody (pl ++ tl) (pr ++ tr)) tl.length pl.length (L, R) =
        .ok (L ++ tl.filter (fun a => a ≠ -1), R ++ tr.filter (fun a => a ≠ -1)) := by
  intro tl
  induction tl with
  | nil =>
    intro tr pl pr L R _ hlen
    have : tr = [] := List.length_eq_zero.mp hlen.symm
    subst this
    simp [forLoopFrom]
  | cons a tl ih =>
    intro tr pl pr L R hp hlen
    cases tr with
    | nil => simp at hlen
    | cons b tr =>
      have hlen1 : tl.length = tr.length := by simpa using hlen
      have hbody : compactBody (pl ++ a :: tl) (pr ++ b :: tr) pl.length (L, R) =
          .ok (if a ≠ -1 then L ++ [a] else L, if b ≠ -1 then R ++ [b] else R) := by
        unfold compactBody
        rw [readAt_append_length, ok_bind, hp, readAt_append_length, ok_bind]
        rfl
      rw [List.length_cons, forLoopFrom, hbody]
      have := ih tr (pl ++ [a]) (pr ++ [b]) (if a ≠ -1 then L ++ [a] else L)
        (if b ≠ -1 then R ++ [b] else R) (by simp [hp]) hlen1
      simp only [List.length_append, List.length_singleton, List.append_assoc,
        List.singleton_append] at this
      simp only [this, List.filter_cons]
      by_cases ha : a = -1 <;> by_cases hb : b = -1 <;> simp [ha, hb]

/-- The two loops of the partition, on an index list of length `num_tris`:
the children get the sub-lists selected by `goesLeft` and `goesRight`, the two
counters are the lengths of those lists, and every index was a valid triangle
index. -/
theorem partition_spec {tris verts : List vec3} {axis : SplitAxis} {m : Flt}
    {l L R : List Int} {p : PopulateState}
    (hp : forLoop l.length (populateBody tris verts l axis m) ⟨[], [], 0, 0⟩ = .ok p)
    (hc : forLoop l.length
      (compactBody p.temp_left_tri_indices p.temp_right_tri_indices) ([], []) = .ok (L, R)) :
    (∀ idx ∈ l, ∃ vs, triVerts tris verts idx = .ok vs) ∧
    L = l.filter (goesLeft tris verts axis m) ∧
    R = l.filter (goesRight tris verts axis m) ∧
    p.left_tri_count = L.length ∧ p.right_tri_count = R.length := by
  rw [forLoop_eq_foldlM l (populateBody tris verts l axis m)
    (populateStep tris verts axis m) (fun _ _ => rfl)] at hp
  obtain ⟨hv, hl, hr, hlc, hrc⟩ := populate_foldlM_spec l _ p hp
  simp only [List.nil_append, Nat.zero_add] at hl hr hlc hrc
  have hne : ∀ idx ∈ l, idx ≠ -1 := by
    intro idx hidx h1
    obtain ⟨vs, hvs⟩ := hv idx hidx
    have := (triVerts_index_nonneg hvs).1
    omega
  have hcomp := compact_forLoopFrom_spec p.temp_left_tri_indices p.temp_right_tri_indices
    [] [] [] [] rfl (by rw [hl, hr]; simp)
  have hlen : p.temp_left_tri_indices.length = l.length := by rw [hl]; simp
  simp only [List.nil_append, List.length_nil, hlen] at hcomp
  unfold forLoop at hc
  rw [hcomp] at hc
  have hLR := Except.ok.inj hc
  simp only [Prod.mk.injEq] at hLR
  have hfl : ∀ (g : Int → Bool), (l.map (fun idx => if g idx then idx else -1)).filter
      (fun a => a ≠ -1) = l.filter g := by
    intro g
    rw [List.filter_map]
    clear hp hv hl hr hlc hrc hcomp hlen hc hLR
    induction l with
    | nil => rfl
    | cons x l ih =>
      have hx : x ≠ -1 := hne x (List.mem_cons_self _ _)
      have ih1 := ih (fun idx hidx => hne idx (List.mem_cons_of_mem _ hidx))
      simp only [List.filter_cons, Function.comp]
      by_cases hg : g x = true
      · simp [hg, hx]
        simpa [Function.comp] using ih1
      · simp [hg]
        simpa [Function.comp] using ih1
  have hL : L = l.filter (goesLeft tris verts axis m) := by
    rw [← hLR.1, hl, hfl]
  have hR : R = l.filter (goesRight tris verts axis m) := by
    rw [← hLR.2, hr, hfl]
  exact ⟨hv, hL, hR, by rw [hlc, hL], by rw [hrc, hR]⟩

/-! ## Unfolding one call of the build -/

/-- What a successful call of `constructTreeMedianSpaceSplit` did: it made a
leaf, or it ran the two partition loops and built both children. -/
theorem construct_succ_inv {cfg : Config} {tris verts : List vec3} {fuel n : Nat}
    {l : List Int} {b : boundingBox} {d : Nat} {st st2 : Stats} {nd : KDTreeNode}
    (h : constructTreeMedianSpaceSplit cfg tris verts (fuel + 1) n l b d st = .ok (nd, st2)) :
    ∃ bbox, nodeBoundingBox cfg tris n l b = .ok bbox ∧
      ((n ≤ cfg.NUM_TRIS_PER_NODE ∧ nd = .node bbox n l .null .null ∧
          st2 = ⟨if d > st.num_levels then d else st.num_levels, st.num_leaves + 1⟩) ∨
        (¬ n ≤ cfg.NUM_TRIS_PER_NODE ∧ ∃ p L R left right st1,
          forLoop n (populateBody tris verts l (getLongestBoundingBoxSide b.min b.max)
            (splitBounds b (getLongestBoundingBoxSide b.min b.max)).1) ⟨[], [], 0, 0⟩ = .ok p ∧
          forLoop n (compactBody p.temp_left_tri_indices p.temp_right_tri_indices) ([], [])
            = .ok (L, R) ∧
          constructTreeMedianSpaceSplit cfg tris verts fuel p.left_tri_count L
            (splitBounds b (getLongestBoundingBoxSide b.min b.max)).2.1 (d + 1) st
            = .ok (left, st1) ∧
          constructTreeMedianSpaceSplit cfg tris verts fuel p.right_tri_count R
            (splitBounds b (getLongestBoundingBoxSide b.min b.max)).2.2 (d + 1) st1
            = .ok (right, st2) ∧
          nd = .node bbox n l left right)) := by
  rw [constructTreeMedianSpaceSplit, bind_ok_iff] at h
  obtain ⟨bbox, hb, h⟩ := h
  refine ⟨bbox, hb, ?_⟩
  by_cases hK : n ≤ cfg.NUM_TRIS_PER_NODE
  · rw [if_pos hK] at h
    have h1 := Except.ok.inj h
    simp only [Prod.mk.injEq] at h1
    exact Or.inl ⟨hK, h1.1.symm, h1.2.symm⟩
  · rw [if_neg hK] at h
    refine Or.inr ⟨hK, ?_⟩
    rw [bind_ok_iff] at h
    obtain ⟨p, hp, h⟩ := h
    rw [bind_ok_iff] at h
    obtain ⟨⟨L, R⟩, hc, h⟩ := h
    dsimp only at h
    rw [bind_ok_iff] at h
    obtain ⟨⟨left, st1⟩, hl, h⟩ := h
    dsimp only at h
    rw [bind_ok_iff] at h
    obtain ⟨⟨right, st3⟩, hr, h⟩ := h
    have h1 := Except.ok.inj h
    simp only [Prod.mk.injEq] at h1
    obtain ⟨h1, rfl⟩ := h1
    exact ⟨p, L, R, left, right, st1, hp, hc, hl, hr, h1.symm⟩

theorem construct_ok_not_null {cfg : Config} {tris verts : List vec3} {fuel n : Nat}
    {l : List Int} {b : boundingBox} {d : Nat} {st st2 : Stats} {nd : KDTreeNode}
    (h : constructTreeMedianSpaceSplit cfg tris verts fuel n l b d st = .ok (nd, st2)) :
    nd.isNull = false ∧ nd.num_tris = n ∧ nd.tri_indices = l := by
  cases fuel with
  | zero => simp [constructTreeMedianSpaceSplit] at h
  | succ fuel =>
    obtain ⟨bbox, _, ⟨_, rfl, _⟩ | ⟨_, p, L, R, left, right, st1, _, _, _, _, rfl⟩⟩ :=
      construct_succ_inv h <;> exact ⟨rfl, rfl, rfl⟩

/-- A successful build on an index list of length `num_tris` returns a tree in
the relation `Built`. -/
theorem built_of_construct {cfg : Config} {tris verts : List vec3} :
    ∀ (fuel : Nat) (l : List Int) (b : boundingBox) (d : Nat) (st st2 : Stats)
      (nd : KDTreeNode),
      constructTreeMedianSpaceSplit cfg tris verts fuel l.length l b d st = .ok (nd, st2) →
      Built cfg tris verts l b nd := by
  intro fuel
  induction fuel with
  | zero => intro l b d st st2 nd h; simp [constructTreeMedianSpaceSplit] at h
  | succ fuel ih =>
    intro l b d st st2 nd h
    obtain ⟨bbox, hb, ⟨hK, rfl, _⟩ | ⟨hK, p, L, R, left, right, st1, hp, hc, hl, hr, rfl⟩⟩ :=
      construct_succ_inv h
    · exact Built.leaf l b bbox hK hb
    · obtain ⟨hv, hL, hR, hlc, hrc⟩ := partition_spec hp hc
      rw [hlc] at hl
      rw [hrc] at hr
      subst hL hR
      exact Built.split l b bbox left right hK hb hv (ih _ _ _ _ _ _ hl) (ih _ _ _ _ _ _ hr)

/-! ## Well-formed meshes -/

theorem triVerts_mem {tris verts : List vec3} {idx : Int} {v0 v1 v2 : vec3}
    (h : triVerts tris verts idx = .ok (v0, v1, v2)) :
    v0 ∈ verts ∧ v1 ∈ verts ∧ v2 ∈ verts := by
  unfold triVerts at h
  simp only [bind_ok_iff] at h
  obtain ⟨tri, _, i0, _, w0, h0, i1, _, w1, h1, i2, _, w2, h2, h⟩ := h
  have h3 := Except.ok.inj h
  simp only [Prod.mk.injEq] at h3
  obtain ⟨rfl, rfl, rfl⟩ := h3
  exact ⟨readAt_mem h0, readAt_mem h1, readAt_mem h2⟩

theorem readAt_of_validVertexIndex {verts : List vec3} {f : Flt}
    (h : validVertexIndex verts f = true) :
    ∃ i v, Flt.toInt f = .ok i ∧ readAt verts i = .ok v := by
  unfold validVertexIndex at h
  cases hf : Flt.toInt f with
  | error e => rw [hf] at h; simp at h
  | ok i =>
    rw [hf] at h
    simp only [decide_eq_true_eq] at h
    have hlt : i.toNat < verts.length := by omega
    refine ⟨i, verts.get ⟨i.toNat, hlt⟩, rfl, ?_⟩
    rw [readAt_ok_iff]
    exact ⟨h.1, by simp [List.getElem?_eq_getElem hlt]⟩

theorem wellFormedMesh_verts_finite {tris verts : List vec3}
    (h : wellFormedMesh tris verts = true) : ∀ v ∈ verts, v.isFinite = true := by
  simp only [wellFormedMesh, Bool.and_eq_true, List.all_eq_true] at h
  exact h.2

theorem wellFormedMesh_triVerts {tris verts : List vec3}
    (h : wellFormedMesh tris verts = true) (i : Nat) (hi : i < tris.length) :
    ∃ vs, triVerts tris verts (i : Int) = .ok vs := by
  simp only [wellFormedMesh, Bool.and_eq_true, List.all_eq_true] at h
  have ht := h.1 (tris.get ⟨i, hi⟩) (List.get_mem _ _ _)
  obtain ⟨i0, v0, hi0, hv0⟩ := readAt_of_validVertexIndex ht.1.1
  obtain ⟨i1, v1, hi1, hv1⟩ := readAt_of_validVertexIndex ht.1.2
  obtain ⟨i2, v2, hi2, hv2⟩ := readAt_of_validVertexIndex ht.2
  refine ⟨(v0, v1, v2), ?_⟩
  unfold triVerts
  rw [readAt_natCast tris i hi, ok_bind, hi0, ok_bind, hv0, ok_bind, hi1, ok_bind, hv1, ok_bind,
    hi2, ok_bind, hv2, ok_bind]
  rfl

theorem wellFormedMesh_verts_ne_nil {tris verts : List vec3}
    (h : wellFormedMesh tris verts = true) (hne : tris ≠ []) : verts ≠ [] := by
  have hpos : 0 < tris.length := List.length_pos.mpr hne
  obtain ⟨⟨v0, v1, v2⟩, hvs⟩ := wellFormedMesh_triVerts h 0 hpos
  intro hnil
  have := (triVerts_mem hvs).1
  rw [hnil] at this
  exact absurd this (List.not_mem_nil _)

theorem mem_rootIndices {n : Nat} {idx : Int} :
    idx ∈ rootIndices n ↔ ∃ i : Nat, i < n ∧ idx = (i : Int) := by
  unfold rootIndices
  rw [List.mem_map]
  constructor
  · rintro ⟨i, hi, rfl⟩; exact ⟨i, List.mem_range.mp hi, rfl⟩
  · rintro ⟨i, hi, rfl⟩; exact ⟨i, List.mem_range.mpr hi, rfl⟩

theorem length_rootIndices (n : Nat) : (rootIndices n).length = n := by
  unfold rootIndices
  rw [List.length_map, List.length_range]

/-! ## Projected extents and the split -/

theorem getMinTriValue_eq {tris verts : List vec3} {idx : Int} {v0 v1 v2 : vec3}
    (h : triVerts tris verts idx = .ok (v0, v1, v2)) (axis : SplitAxis) :
    getMinTriValue tris verts idx axis
      = .ok (min3 (v0.along axis) (v1.along axis) (v2.along axis)) := by
  cases axis <;> simp [getMinTriValue, h, vec3.along, bind, Except.bind, pure, Except.pure]

theorem getMaxTriValue_eq {tris verts : List vec3} {idx : Int} {v0 v1 v2 : vec3}
    (h : triVerts tris verts idx = .ok (v0, v1, v2)) (axis : SplitAxis) :
    getMaxTriValue tris verts idx axis
      = .ok (max3 (v0.along axis) (v1.along axis) (v2.along axis)) := by
  cases axis <;> simp [getMaxTriValue, h, vec3.along, bind, Except.bind, pure, Except.pure]

theorem vec3.along_isFinite {v : vec3} (h : v.isFinite = true) (axis : SplitAxis) :
    (v.along axis).isFinite = true := by
  simp only [vec3.isFinite, Bool.and_eq_true] at h
  cases axis
  · exact h.1.1
  · exact h.1.2
  · exact h.2

theorem min3_lt_or_max3_ge {a b c m : Flt} (ha : a.isFinite = true) (hb : b.isFinite = true)
    (hc : c.isFinite = true) (hm : m.isFinite = true) :
    Flt.lt (min3 a b c) m = true ∨ Flt.ge (max3 a b c) m = true := by
  obtain ⟨a, rfl⟩ := (Flt.isFinite_iff_fin a).mp ha
  obtain ⟨b, rfl⟩ := (Flt.isFinite_iff_fin b).mp hb
  obtain ⟨c, rfl⟩ := (Flt.isFinite_iff_fin c).mp hc
  obtain ⟨m, rfl⟩ := (Flt.isFinite_iff_fin m).mp hm
  simp only [min3, max3, Flt.gt, Flt.lt, Bool.and_eq_true, decide_eq_true_eq]
  split_ifs <;> simp only [Flt.lt, Flt.ge, decide_eq_true_eq] <;>
    (by_contra hcon; push_neg at hcon; linarith [hcon.1, hcon.2])

/-- On a mesh with finite vertices and a finite median, every triangle is sent
to the left set or to the right set. -/
theorem goesLeft_or_goesRight {tris verts : List vec3} {idx : Int}
    {vs : vec3 × vec3 × vec3} (hvs : triVerts tris verts idx = .ok vs)
    (hfin : ∀ v ∈ verts, v.isFinite = true) (axis : SplitAxis) {m : Flt}
    (hm : m.isFinite = true) :
    goesLeft tris verts axis m idx = true ∨ goesRight tris verts axis m idx = true := by
  obtain ⟨v0, v1, v2⟩ := vs
  obtain ⟨h0, h1, h2⟩ := triVerts_mem hvs
  simp only [goesLeft, goesRight, getMinTriValue_eq hvs, getMaxTriValue_eq hvs]
  exact min3_lt_or_max3_ge (vec3.along_isFinite (hfin _ h0) axis)
    (vec3.along_isFinite (hfin _ h1) axis) (vec3.along_isFinite (hfin _ h2) axis) hm

theorem splitBounds_isFinite {b : boundingBox} (hb : b.isFinite = true) (axis : SplitAxis) :
    (splitBounds b axis).1.isFinite = true ∧ (splitBounds b axis).2.1.isFinite = true ∧
      (splitBounds b axis).2.2.isFinite = true := by
  obtain ⟨bmin, bmax⟩ := b
  simp only [boundingBox.isFinite, Bool.and_eq_true] at hb
  obtain ⟨a0, b0, c0, rfl⟩ := (vec3.isFinite_iff_ofRat bmin).mp hb.1
  obtain ⟨a1, b1, c1, rfl⟩ := (vec3.isFinite_iff_ofRat bmax).mp hb.2
  cases axis <;>
    simp [splitBounds, vec3.ofRat, Flt.add, Flt.sub, Flt.neg, Flt.div2, Flt.isFinite,
      boundingBox.isFinite, vec3.isFinite]

/-! ## Running one call of the build forward -/

theorem populateStep_eq {tris verts : List vec3} {axis : SplitAxis} {m : Flt}
    {s : PopulateState} {idx : Int} {vs : vec3 × vec3 × vec3}
    (h : triVerts tris verts idx = .ok vs) :
    ∃ s1, populateStep tris verts axis m s idx = .ok s1 := by
  obtain ⟨v0, v1, v2⟩ := vs
  unfold populateStep
  rw [getMinTriValue_eq h, ok_bind, getMaxTriValue_eq h, ok_bind]
  exact ⟨_, rfl⟩

theorem populate_foldlM_ok {tris verts : List vec3} {axis : SplitAxis} {m : Flt} :
    ∀ (l : List Int) (s : PopulateState),
      (∀ idx ∈ l, ∃ vs, triVerts tris verts idx = .ok vs) →
      ∃ p, l.foldlM (populateStep tris verts axis m) s = .ok p := by
  intro l
  induction l with
  | nil => intro s _; exact ⟨s, rfl⟩
  | cons x l ih =>
    intro s hv
    obtain ⟨vs, hvs⟩ := hv x (List.mem_cons_self _ _)
    obtain ⟨s1, hs1⟩ := @populateStep_eq tris verts axis m s x vs hvs
    obtain ⟨p, hp⟩ := ih s1 (fun idx hidx => hv idx (List.mem_cons_of_mem _ hidx))
    exact ⟨p, by rw [List.foldlM_cons, hs1, ok_bind, hp]⟩

/-- One call of the build on an index list of valid triangle indices, with a
node box that is computed without fault: a leaf when the count is at most
`NUM_TRIS_PER_NODE`, else the node over the builds of the two filtered
lists. -/
theorem construct_succ_eq {cfg : Config} {tris verts : List vec3} (fuel : Nat)
    (l : List Int) (b bbox : boundingBox) (d : Nat) (st : Stats)
    (hb : nodeBoundingBox cfg tris l.length l b = .ok bbox)
    (hv : ∀ idx ∈ l, ∃ vs, triVerts tris verts idx = .ok vs) :
    constructTreeMedianSpaceSplit cfg tris verts (fuel + 1) l.length l b d st =
      if l.length ≤ cfg.NUM_TRIS_PER_NODE then
        .ok (.node bbox l.length l .null .null,
          ⟨if d > st.num_levels then d else st.num_levels, st.num_leaves + 1⟩)
      else
        (constructTreeMedianSpaceSplit cfg tris verts fuel
          (l.filter (goesLeft tris verts (getLongestBoundingBoxSide b.min b.max)
            (splitBounds b (getLongestBoundingBoxSide b.min b.max)).1)).length
          (l.filter (goesLeft tris verts (getLongestBoundingBoxSide b.min b.max)
            (splitBounds b (getLongestBoundingBoxSide b.min b.max)).1))
          (splitBounds b (getLongestBoundingBoxSide b.min b.max)).2.1 (d + 1) st) >>=
        fun r1 =>
          (constructTreeMedianSpaceSplit cfg tris verts fuel
            (l.filter (goesRight tris verts (getLongestBoundingBoxSide b.min b.max)
              (splitBounds b (getLongestBoundingBoxSide b.min b.max)).1)).length
            (l.filter (goesRight tris verts (getLongestBoundingBoxSide b.min b.max)
              (splitBounds b (getLongestBoundingBoxSide b.min b.max)).1))
            (splitBounds b (getLongestBoundingBoxSide b.min b.max)).2.2 (d + 1) r1.2) >>=
          fun r2 => .ok (.node bbox l.length l r1.1 r2.1, r2.2) := by
  rw [constructTreeMedianSpaceSplit, hb, ok_bind]
  by_cases hK : l.length ≤ cfg.NUM_TRIS_PER_NODE
  · rw [if_pos hK, if_pos hK]; rfl
  · rw [if_neg hK, if_neg hK]
    obtain ⟨p, hp⟩ := @populate_foldlM_ok tris verts
      (getLongestBoundingBoxSide b.min b.max)
      (splitBounds b (getLongestBoundingBoxSide b.min b.max)).1 l ⟨[], [], 0, 0⟩ hv
    rw [← forLoop_eq_foldlM l (populateBody tris verts l
      (getLongestBoundingBoxSide b.min b.max)
      (splitBounds b (getLongestBoundingBoxSide b.min b.max)).1) _ (fun _ _ => rfl)] at hp
    have hlen : p.temp_left_tri_indices.length = l.length ∧
        p.temp_right_tri_indices.length = l.length := by
      have hp2 := hp
      rw [forLoop_eq_foldlM l (populateBody tris verts l
        (getLongestBoundingBoxSide b.min b.max)
        (splitBounds b (getLongestBoundingBoxSide b.min b.max)).1) _ (fun _ _ => rfl)] at hp2
      obtain ⟨_, hl, hr, _, _⟩ := populate_foldlM_spec l _ p hp2
      rw [hl, hr]; simp
    have hcomp := compact_forLoopFrom_spec p.temp_left_tri_indices p.temp_right_tri_indices
      [] [] [] [] rfl (by rw [hlen.1, hlen.2])
    simp only [List.nil_append, List.length_nil, hlen.1] at hcomp
    have hc : forLoop l.length
        (compactBody p.temp_left_tri_indices p.temp_right_tri_indices) ([], []) = .ok _ := hcomp
    obtain ⟨_, hL, hR, hlc, hrc⟩ := partition_spec hp hc
    simp only [hp, hc, ok_bind]
    rw [hlc, hrc, ← hL, ← hR]
    rfl

/-! ## Shape of built trees -/

theorem isLeaf_eq_false_of_child {bbox : boundingBox} {n : Nat} {l : List Int}
    {left right : KDTreeNode} (h : left.isNull = false) :
    (KDTreeNode.node bbox n l left right).isLeaf = false := by
  simp [KDTreeNode.isLeaf, h]

/-- C4: in every tree returned by `constructTreeMedianSpaceSplit`, every leaf
(node with no children) has a triangle count of at most `NUM_TRIS_PER_NODE`,
and every node with more than `NUM_TRIS_PER_NODE` triangles has both
children. -/
theorem construct_leaf_count_le {cfg : Config} {tris verts : List vec3} :
    ∀ (fuel n : Nat) (l : List Int) (b : boundingBox) (d : Nat) (st st2 : Stats)
      (root : KDTreeNode),
      constructTreeMedianSpaceSplit cfg tris verts fuel n l b d st = .ok (root, st2) →
      ∀ nd ∈ root.nodes,
        (nd.isLeaf = true → nd.num_tris ≤ cfg.NUM_TRIS_PER_NODE) ∧
        (cfg.NUM_TRIS_PER_NODE < nd.num_tris →
          nd.left.isNull = false ∧ nd.right.isNull = false) := by
  intro fuel
  induction fuel with
  | zero => intro n l b d st st2 root h; simp [constructTreeMedianSpaceSplit] at h
  | succ fuel ih =>
    intro n l b d st st2 root h nd hnd
    obtain ⟨bbox, hb, ⟨hK, rfl, _⟩ | ⟨hK, p, L, R, left, right, st1, hp, hc, hl, hr, rfl⟩⟩ :=
      construct_succ_inv h
    · simp only [KDTreeNode.nodes, List.append_nil, List.mem_singleton] at hnd
      subst hnd
      exact ⟨fun _ => hK, fun hlt => absurd hK (by simpa [KDTreeNode.num_tris] using hlt)⟩
    · simp only [KDTreeNode.nodes, List.mem_cons, List.mem_append] at hnd
      rcases hnd with rfl | hnd | hnd
      · have hln := (construct_ok_not_null hl).1
        have hrn := (construct_ok_not_null hr).1
        refine ⟨fun hleaf => ?_, fun _ => ⟨hln, hrn⟩⟩
        rw [isLeaf_eq_false_of_child hln] at hleaf
        exact absurd hleaf (by simp)
      · exact ih _ _ _ _ _ _ _ hl nd hnd
      · exact ih _ _ _ _ _ _ _ hr nd hnd

/-- Witness for C4: the build of the example mesh with
`NUM_TRIS_PER_NODE = 1` succeeds, and its tree has the property. -/
theorem construct_leaf_count_le_witness :
    ∃ root st2,
      constructTreeMedianSpaceSplit exampleConfig exampleTris exampleVerts 10 3 [0, 1, 2]
        (computeTightFittingBoundingBox exampleVerts) 1 ⟨0, 0⟩ = .ok (root, st2) ∧
      ∀ nd ∈ root.nodes,
        (nd.isLeaf = true → nd.num_tris ≤ exampleConfig.NUM_TRIS_PER_NODE) ∧
        (exampleConfig.NUM_TRIS_PER_NODE < nd.num_tris →
          nd.left.isNull = false ∧ nd.right.isNull = false) := by
  have hok : (constructTreeMedianSpaceSplit exampleConfig exampleTris exampleVerts 10 3
      [0, 1, 2] (computeTightFittingBoundingBox exampleVerts) 1 ⟨0, 0⟩).toBool = true := by
    decide!
  cases hr : constructTreeMedianSpaceSplit exampleConfig exampleTris exampleVerts 10 3
      [0, 1, 2] (computeTightFittingBoundingBox exampleVerts) 1 ⟨0, 0⟩ with
  | error e => rw [hr] at hok; exact absurd hok (by simp [Except.toBool])
  | ok r =>
    exact ⟨r.1, r.2, rfl, construct_leaf_count_le 10 3 [0, 1, 2] _ 1 ⟨0, 0⟩ r.2 r.1 hr⟩

/-! ## The constructor -/

theorem new_ok_inv {cfg : Config} {fuel : Nat} {tris verts : List vec3} {k : KDTreeCPU}
    (h : KDTreeCPU.new cfg fuel tris verts = .ok k) :
    ∃ st, constructTreeMedianSpaceSplit cfg tris verts fuel tris.length
        (rootIndices tris.length) (computeTightFittingBoundingBox verts) 1 ⟨0, 0⟩
        = .ok (k.root, st) ∧
      k.tris = tris ∧ k.verts = verts ∧ k.num_levels = st.num_levels ∧
      k.num_leaves = st.num_leaves := by
  unfold KDTreeCPU.new at h
  rw [bind_ok_iff] at h
  obtain ⟨⟨root, st⟩, hc, h⟩ := h
  have hk := Except.ok.inj h
  subst hk
  exact ⟨st, hc, rfl, rfl, rfl, rfl⟩

theorem built_of_new {cfg : Config} {fuel : Nat} {tris verts : List vec3} {k : KDTreeCPU}
    (h : KDTreeCPU.new cfg fuel tris verts = .ok k) :
    Built cfg tris verts (rootIndices tris.length) (computeTightFittingBoundingBox verts)
      k.root := by
  obtain ⟨st, hc, _⟩ := new_ok_inv h
  have hlen := length_rootIndices tris.length
  have hc2 : constructTreeMedianSpaceSplit cfg tris verts fuel
      (rootIndices tris.length).length (rootIndices tris.length)
      (computeTightFittingBoundingBox verts) 1 ⟨0, 0⟩ = .ok (k.root, st) := by
    rw [hlen]; exact hc
  exact built_of_construct fuel _ _ _ _ _ _ hc2

/-! ## Coverage of the input triangles -/

theorem mem_leaves_left {bbox : boundingBox} {n : Nat} {l : List Int}
    {left right leaf : KDTreeNode} (h : leaf ∈ left.leaves) :
    leaf ∈ (KDTreeNode.node bbox n l left right).leaves := by
  simp only [KDTreeNode.leaves, KDTreeNode.nodes, List.mem_filter, List.mem_cons,
    List.mem_append] at h ⊢
  exact ⟨Or.inr (Or.inl h.1), h.2⟩

theorem mem_leaves_right {bbox : boundingBox} {n : Nat} {l : List Int}
    {left right leaf : KDTreeNode} (h : leaf ∈ right.leaves) :
    leaf ∈ (KDTreeNode.node bbox n l left right).leaves := by
  simp only [KDTreeNode.leaves, KDTreeNode.nodes, List.mem_filter, List.mem_cons,
    List.mem_append] at h ⊢
  exact ⟨Or.inr (Or.inr h.1), h.2⟩

/-- In a tree built from finite bounds over finite vertices, every index of
the list passed to the build is in the list of some leaf. -/
theorem built_covers {cfg : Config} {tris verts : List vec3}
    (hfin : ∀ v ∈ verts, v.isFinite = true) {l : List Int} {b : boundingBox}
    {nd : KDTreeNode} (hB : Built cfg tris verts l b nd) :
    b.isFinite = true → ∀ idx ∈ l, ∃ leaf ∈ nd.leaves, idx ∈ leaf.tri_indices := by
  induction hB with
  | leaf l b bbox hK hb =>
    intro _ idx hidx
    refine ⟨.node bbox l.length l .null .null, ?_, hidx⟩
    simp [KDTreeNode.leaves, KDTreeNode.nodes, KDTreeNode.isLeaf, KDTreeNode.isNull]
  | split l b bbox left right hK hb hv hL hR ihL ihR =>
    intro hbf idx hidx
    obtain ⟨hm, hlf, hrf⟩ := splitBounds_isFinite hbf (getLongestBoundingBoxSide b.min b.max)
    obtain ⟨vs, hvs⟩ := hv idx hidx
    rcases goesLeft_or_goesRight hvs hfin (getLongestBoundingBoxSide b.min b.max) hm
      with hg | hg
    · obtain ⟨leaf, hleaf, hmem⟩ := ihL hlf idx (List.mem_filter.mpr ⟨hidx, hg⟩)
      exact ⟨leaf, mem_leaves_left hleaf, hmem⟩
    · obtain ⟨leaf, hleaf, hmem⟩ := ihR hrf idx (List.mem_filter.mpr ⟨hidx, hg⟩)
      exact ⟨leaf, mem_leaves_right hleaf, hmem⟩

/-- C5: for every tree built by the constructor over a well-formed mesh
(vertex indices in range, vertex coordinates finite) with `n` triangles, every
input index `0, ..., n-1` is in the triangle index list of at least one leaf:
the union of the leaf lists is a superset of the input index set. -/
theorem leaves_cover_input {cfg : Config} {fuel : Nat} {tris verts : List vec3}
    {k : KDTreeCPU} (hwf : wellFormedMesh tris verts = true)
    (hk : KDTreeCPU.new cfg fuel tris verts = .ok k) (i : Nat) (hi : i < tris.length) :
    ∃ leaf ∈ k.root.leaves, (i : Int) ∈ leaf.tri_indices := by
  have hne : tris ≠ [] := by
    intro h; rw [h] at hi; exact absurd hi (Nat.not_lt_zero _)
  have hfin := wellFormedMesh_verts_finite hwf
  have hbox := (computeTightFittingBoundingBox_contains
    (wellFormedMesh_verts_ne_nil hwf hne) hfin).1
  exact built_covers hfin (built_of_new hk) hbox (i : Int)
    (mem_rootIndices.mpr ⟨i, hi, rfl⟩)

/-- Witness for C5: the example mesh is well formed, its build succeeds, and
triangle 1 is in the list of some leaf. -/
theorem leaves_cover_input_witness :
    wellFormedMesh exampleTris exampleVerts = true ∧
    ∃ k, KDTreeCPU.new exampleConfig 10 exampleTris exampleVerts = .ok k ∧
      ∃ leaf ∈ k.root.leaves, ((1 : Nat) : Int) ∈ leaf.tri_indices := by
  refine ⟨by decide!, ?_⟩
  have hok : (KDTreeCPU.new exampleConfig 10 exampleTris exampleVerts).toBool = true := by
    decide!
  cases hr : KDTreeCPU.new exampleConfig 10 exampleTris exampleVerts with
  | error e => rw [hr] at hok; exact absurd hok (by simp [Except.toBool])
  | ok k => exact ⟨k, rfl, leaves_cover_input (by decide!) hr 1 (by decide)⟩

/-! ## Coincident meshes -/

theorem foldl_foldPoint_coincident {p : vec3} :
    ∀ vs : List vec3, (∀ v ∈ vs, v = p) → vs.foldl foldPoint ⟨p, p⟩ = ⟨p, p⟩ := by
  intro vs
  induction vs with
  | nil => intro _; rfl
  | cons x vs ih =>
    intro h
    have hx : x = p := h x (List.mem_cons_self _ _)
    subst hx
    have hstep : foldPoint ⟨x, x⟩ x = ⟨x, x⟩ := by
      simp [foldPoint, Flt.gt, Flt.lt_irrefl]
    rw [List.foldl_cons, hstep]
    exact ih (fun v hv => h v (List.mem_cons_of_mem _ hv))

theorem computeTightFittingBoundingBox_coincident {verts : List vec3} {p : vec3}
    (hne : verts ≠ []) (hfin : p.isFinite = true) (hco : ∀ v ∈ verts, v = p) :
    computeTightFittingBoundingBox verts = ⟨p, p⟩ := by
  cases verts with
  | nil => exact absurd rfl hne
  | cons x vs =>
    have hx : x = p := hco x (List.mem_cons_self _ _)
    subst hx
    simp only [computeTightFittingBoundingBox, List.foldl_cons, foldPoint_sentinel hfin]
    exact foldl_foldPoint_coincident vs (fun v hv => hco v (List.mem_cons_of_mem _ hv))

theorem splitBounds_point {p : vec3} (hfin : p.isFinite = true) :
    getLongestBoundingBoxSide p p = .Z_AXIS ∧
      splitBounds ⟨p, p⟩ .Z_AXIS = (p.z, ⟨p, p⟩, ⟨p, p⟩) := by
  obtain ⟨a, b, c, rfl⟩ := (vec3.isFinite_iff_ofRat p).mp hfin
  constructor
  · simp [getLongestBoundingBoxSide, vec3.ofRat, Flt.sub, Flt.neg, Flt.add, Flt.gt, Flt.lt]
  · simp [splitBounds, vec3.ofRat, Flt.sub, Flt.neg, Flt.add, Flt.div2]

theorem goes_point {tris verts : List vec3} {p : vec3} (hfin : p.isFinite = true)
    {idx : Int} (h : triVerts tris verts idx = .ok (p, p, p)) :
    goesLeft tris verts .Z_AXIS p.z idx = false ∧
      goesRight tris verts .Z_AXIS p.z idx = true := by
  obtain ⟨a, b, c, rfl⟩ := (vec3.isFinite_iff_ofRat p).mp hfin
  simp [goesLeft, goesRight, getMinTriValue_eq h, getMaxTriValue_eq h, vec3.along, vec3.ofRat,
    min3, max3, Flt.gt, Flt.lt, Flt.ge]

/-- With loose boxes, the build of more than `NUM_TRIS_PER_NODE` triangles that
all lie at one point `p`, from the bounds `[p, p]`, uses up every amount of
fuel: the left child gets no triangle, the right child gets the same list and
the same bounds. -/
theorem construct_coincident_outOfFuel {cfg : Config} {tris verts : List vec3} {p : vec3}
    (hloose : cfg.USE_TIGHT_FITTING_BOUNDING_BOXES = false) (hfin : p.isFinite = true)
    (l : List Int) (hl : ∀ idx ∈ l, triVerts tris verts idx = .ok (p, p, p))
    (hK : cfg.NUM_TRIS_PER_NODE < l.length) :
    ∀ (fuel d : Nat) (st : Stats),
      constructTreeMedianSpaceSplit cfg tris verts fuel l.length l ⟨p, p⟩ d st
        = .error .outOfFuel := by
  intro fuel
  induction fuel with
  | zero => intro d st; rfl
  | succ fuel ih =>
    intro d st
    have hb : nodeBoundingBox cfg tris l.length l ⟨p, p⟩ = .ok ⟨p, p⟩ := by
      simp [nodeBoundingBox, hloose, pure, Except.pure]
    rw [construct_succ_eq fuel l ⟨p, p⟩ ⟨p, p⟩ d st hb (fun idx hidx => ⟨_, hl idx hidx⟩),
      if_neg (by omega)]
    obtain ⟨hax, hsb⟩ := splitBounds_point hfin
    simp only [hax, hsb]
    have hL : l.filter (goesLeft tris verts .Z_AXIS p.z) = [] := by
      rw [List.filter_eq_nil_iff]
      intro idx hidx
      simp [(goes_point hfin (hl idx hidx)).1]
    have hR : l.filter (goesRight tris verts .Z_AXIS p.z) = l := by
      rw [List.filter_eq_self]
      intro idx hidx
      exact (goes_point hfin (hl idx hidx)).2
    rw [hL, hR]
    cases fuel with
    | zero => rfl
    | succ f =>
      have hb0 : nodeBoundingBox cfg tris ([] : List Int).length [] ⟨p, p⟩ = .ok ⟨p, p⟩ := by
        simp [nodeBoundingBox, hloose, pure, Except.pure]
      have h1 := @construct_succ_eq cfg tris verts f []
        ⟨p, p⟩ ⟨p, p⟩ (d + 1) st hb0 (fun idx hidx => absurd hidx (List.not_mem_nil idx))
      rw [if_pos (show ([] : List Int).length ≤ cfg.NUM_TRIS_PER_NODE from Nat.zero_le _)] at h1
      simp only [h1, ih, ok_bind]
      rfl

/-- In either box mode, the build of more than `NUM_TRIS_PER_NODE` triangles
that all lie at one point `p`, from the bounds `[p, p]`, returns no tree: a
returned tree would hold the tree of the right child, built from the same
list and the same bounds with less fuel. -/
theorem construct_coincident_no_tree {cfg : Config} {tris verts : List vec3} {p : vec3}
    (hfin : p.isFinite = true)
    (l : List Int) (hl : ∀ idx ∈ l, triVerts tris verts idx = .ok (p, p, p))
    (hK : cfg.NUM_TRIS_PER_NODE < l.length) :
    ∀ (fuel d : Nat) (st : Stats) (r : KDTreeNode × Stats),
      constructTreeMedianSpaceSplit cfg tris verts fuel l.length l ⟨p, p⟩ d st ≠ .ok r := by
  intro fuel
  induction fuel with
  | zero => intro d st r h; simp [constructTreeMedianSpaceSplit] at h
  | succ fuel ih =>
    rintro d st ⟨nd, st2⟩ h
    obtain ⟨bbox, _, ⟨hle, _, _⟩ | ⟨_, q, L, R, left, right, st1, hp, hc, _, hr, _⟩⟩ :=
      construct_succ_inv h
    · omega
    · obtain ⟨_, _, hR, _, hrc⟩ := partition_spec hp hc
      obtain ⟨hax, hsb⟩ := splitBounds_point hfin
      simp only [hax, hsb] at hR hr
      have hRl : R = l := by
        rw [hR, List.filter_eq_self]
        intro idx hidx
        exact (goes_point hfin (hl idx hidx)).2
      rw [hrc, hRl] at hr
      exact ih _ _ _ hr

theorem coincident_triVerts {tris verts : List vec3} {p : vec3}
    (hwf : wellFormedMesh tris verts = true) (hco : ∀ v ∈ verts, v = p) :
    ∀ idx ∈ rootIndices tris.length, triVerts tris verts idx = .ok (p, p, p) := by
  intro idx hidx
  obtain ⟨i, hi, rfl⟩ := mem_rootIndices.mp hidx
  obtain ⟨⟨v0, v1, v2⟩, hvs⟩ := wellFormedMesh_triVerts hwf i hi
  obtain ⟨h0, h1, h2⟩ := triVerts_mem hvs
  rw [hvs, hco v0 h0, hco v1 h1, hco v2 h2]

theorem coincident_point_isFinite {tris verts : List vec3} {p : vec3}
    (hwf : wellFormedMesh tris verts = true) (hco : ∀ v ∈ verts, v = p)
    (hne : tris ≠ []) : p.isFinite = true ∧ verts ≠ [] := by
  have hvne := wellFormedMesh_verts_ne_nil hwf hne
  have hfinv := wellFormedMesh_verts_finite hwf
  refine ⟨?_, hvne⟩
  cases verts with
  | nil => exact absurd rfl hvne
  | cons x vs =>
    have hx := hco x (List.mem_cons_self _ _)
    rw [← hx]; exact hfinv x (List.mem_cons_self _ _)

theorem new_coincident_no_tree {cfg : Config} {tris verts : List vec3} {p : vec3}
    (hwf : wellFormedMesh tris verts = true) (hco : ∀ v ∈ verts, v = p)
    (hK : cfg.NUM_TRIS_PER_NODE < tris.length) (fuel : Nat) :
    ¬ ∃ k, KDTreeCPU.new cfg fuel tris verts = .ok k := by
  have hne : tris ≠ [] := by
    intro h; rw [h] at hK; exact absurd hK (Nat.not_lt_zero _)
  obtain ⟨hfin, hvne⟩ := coincident_point_isFinite hwf hco hne
  have hlen := length_rootIndices tris.length
  rintro ⟨k, hk⟩
  obtain ⟨st, hc, _⟩ := new_ok_inv hk
  have h := @construct_coincident_no_tree cfg tris verts p hfin (rootIndices tris.length)
    (coincident_triVerts hwf hco) (by rw [hlen]; exact hK) fuel 1 ⟨0, 0⟩ (k.root, st)
  rw [hlen, ← computeTightFittingBoundingBox_coincident hvne hfin hco] at h
  exact h hc

theorem new_coincident_outOfFuel {cfg : Config} {tris verts : List vec3} {p : vec3}
    (hloose : cfg.USE_TIGHT_FITTING_BOUNDING_BOXES = false)
    (hwf : wellFormedMesh tris verts = true) (hco : ∀ v ∈ verts, v = p)
    (hK : cfg.NUM_TRIS_PER_NODE < tris.length) (fuel : Nat) :
    KDTreeCPU.new cfg fuel tris verts = .error .outOfFuel := by
  have hne : tris ≠ [] := by
    intro h; rw [h] at hK; exact absurd hK (Nat.not_lt_zero _)
  obtain ⟨hfin, hvne⟩ := coincident_point_isFinite hwf hco hne
  have hlen := length_rootIndices tris.length
  have h := construct_coincident_outOfFuel hloose hfin (rootIndices tris.length)
    (coincident_triVerts hwf hco) (by rw [hlen]; exact hK) fuel 1 ⟨0, 0⟩
  rw [hlen, ← computeTightFittingBoundingBox_coincident hvne hfin hco] at h
  unfold KDTreeCPU.new
  dsimp only
  rw [h]
  rfl

/-- C6 (as stated) fails: the mesh of two triangles whose vertices all lie at
the point (1,2,3) is well formed and has more triangles than
`NUM_TRIS_PER_NODE = 1`, and the constructor returns a tree for no amount of
fuel. -/
theorem coincident_build_no_tree :
    wellFormedMesh coincidentTris coincidentVerts = true ∧
    exampleConfig.NUM_TRIS_PER_NODE < coincidentTris.length ∧
    (∀ v ∈ coincidentVerts, v = vec3.ofRat 1 2 3) ∧
    ¬ ∃ fuel k,
      KDTreeCPU.new exampleConfig fuel coincidentTris coincidentVerts = .ok k := by
  have hco : ∀ v ∈ coincidentVerts, v = vec3.ofRat 1 2 3 := by
    intro v hv
    simpa [coincidentVerts] using hv
  refine ⟨by decide!, by decide, hco, ?_⟩
  rintro ⟨fuel, k, hk⟩
  rw [new_coincident_outOfFuel rfl (by decide!) hco (by decide) fuel] at hk
  exact absurd hk (by simp)

/-- C6 (amended): for every well-formed mesh with more triangles than
`NUM_TRIS_PER_NODE` whose vertices all lie at one point, the build does not
terminate: whatever the fuel, the constructor produces no tree, and with loose
bounding boxes the recursion uses the fuel up (each call sends no triangle
left and all triangles, with unchanged bounds, right). -/
theorem coincident_build_diverges {cfg : Config} {tris verts : List vec3} {p : vec3}
    (hwf : wellFormedMesh tris verts = true) (hco : ∀ v ∈ verts, v = p)
    (hK : cfg.NUM_TRIS_PER_NODE < tris.length) :
    ∀ fuel : Nat, (¬ ∃ k, KDTreeCPU.new cfg fuel tris verts = .ok k) ∧
      (cfg.USE_TIGHT_FITTING_BOUNDING_BOXES = false →
        KDTreeCPU.new cfg fuel tris verts = .error .outOfFuel) :=
  fun fuel => ⟨new_coincident_no_tree hwf hco hK fuel,
    fun hloose => new_coincident_outOfFuel hloose hwf hco hK fuel⟩

/-- Witness for C6 (amended): the two coincident triangles with fuel 5. -/
theorem coincident_build_diverges_witness :
    KDTreeCPU.new exampleConfig 5 coincidentTris coincidentVerts = .error .outOfFuel :=
  (@coincident_build_diverges exampleConfig coincidentTris coincidentVerts
    (vec3.ofRat 1 2 3) (by decide!)
    (by intro v hv; simpa [coincidentVerts] using hv) (by decide) 5).2 rfl

/-! ## Empty index lists -/

theorem built_tri_indices {cfg : Config} {tris verts : List vec3} {l : List Int}
    {b : boundingBox} {nd : KDTreeNode} (hB : Built cfg tris verts l b nd) :
    nd.tri_indices = l ∧ nd.num_tris = l.length ∧ nd.isNull = false := by
  cases hB <;> exact ⟨rfl, rfl, rfl⟩

theorem built_internal_nonempty {cfg : Config} {tris verts : List vec3} {l : List Int}
    {b : boundingBox} {nd : KDTreeNode} (hB : Built cfg tris verts l b nd) :
    ∀ x ∈ nd.nodes, x.isLeaf = false →
      x.tri_indices ≠ [] ∧ cfg.NUM_TRIS_PER_NODE < x.tri_indices.length := by
  induction hB with
  | leaf l b bbox hK hb =>
    intro x hx hleaf
    simp only [KDTreeNode.nodes, List.append_nil, List.mem_singleton] at hx
    subst hx
    simp [KDTreeNode.isLeaf, KDTreeNode.isNull] at hleaf
  | split l b bbox left right hK hb hv hL hR ihL ihR =>
    intro x hx hleaf
    simp only [KDTreeNode.nodes, List.mem_cons, List.mem_append] at hx
    rcases hx with rfl | hx | hx
    · have hlt : cfg.NUM_TRIS_PER_NODE < l.length := Nat.lt_of_not_le hK
      refine ⟨?_, hlt⟩
      intro hnil
      simp only [KDTreeNode.tri_indices] at hnil
      rw [hnil] at hlt
      exact absurd hlt (Nat.not_lt_zero _)
    · exact ihL x hx hleaf
    · exact ihR x hx hleaf

/-- C10 (as stated) fails: the example mesh is non-empty and well formed, its
build with `NUM_TRIS_PER_NODE = 1` succeeds, and the tree has a node whose
triangle index list is empty (the right child of the node holding triangles A
and B, which both lie left of that node's split plane). -/
theorem built_tree_has_empty_node :
    wellFormedMesh exampleTris exampleVerts = true ∧ exampleTris ≠ [] ∧
    ∃ k, KDTreeCPU.new exampleConfig 10 exampleTris exampleVerts = .ok k ∧
      ∃ nd ∈ k.root.nodes, nd.tri_indices = [] := by
  refine ⟨by decide!, by decide!, ?_⟩
  have hb : (match KDTreeCPU.new exampleConfig 10 exampleTris exampleVerts with
      | .ok k => k.root.nodes.any (fun nd => decide (nd.tri_indices = []))
      | .error _ => false) = true := by
    decide!
  cases hr : KDTreeCPU.new exampleConfig 10 exampleTris exampleVerts with
  | error e => rw [hr] at hb; exact absurd hb (by simp)
  | ok k =>
    rw [hr] at hb
    simp only [List.any_eq_true, decide_eq_true_eq] at hb
    exact ⟨k, rfl, hb⟩

/-- C10 (amended): for every tree built from a non-empty mesh, the root node
has a non-empty triangle index list, and so has every internal node (a node
with a child): its list holds more than `NUM_TRIS_PER_NODE` indices. -/
theorem built_internal_nodes_nonempty {cfg : Config} {fuel : Nat} {tris verts : List vec3}
    {k : KDTreeCPU} (hne : tris ≠ [])
    (hk : KDTreeCPU.new cfg fuel tris verts = .ok k) :
    k.root.tri_indices ≠ [] ∧
    ∀ nd ∈ k.root.nodes, nd.isLeaf = false →
      nd.tri_indices ≠ [] ∧ cfg.NUM_TRIS_PER_NODE < nd.tri_indices.length := by
  have hB := built_of_new hk
  refine ⟨?_, built_internal_nonempty hB⟩
  rw [(built_tri_indices hB).1]
  intro hnil
  have hlen := length_rootIndices tris.length
  rw [hnil] at hlen
  exact hne (List.length_eq_zero.mp hlen.symm)

/-- Witness for C10 (amended): the build of the example mesh. -/
theorem built_internal_nodes_nonempty_witness :
    exampleTris ≠ [] ∧
    ∃ k, KDTreeCPU.new exampleConfig 10 exampleTris exampleVerts = .ok k ∧
      k.root.tri_indices ≠ [] ∧
      ∀ nd ∈ k.root.nodes, nd.isLeaf = false →
        nd.tri_indices ≠ [] ∧
          exampleConfig.NUM_TRIS_PER_NODE < nd.tri_indices.length := by
  refine ⟨by decide!, ?_⟩
  have hok : (KDTreeCPU.new exampleConfig 10 exampleTris exampleVerts).toBool = true := by
    decide!
  cases hr : KDTreeCPU.new exampleConfig 10 exampleTris exampleVerts with
  | error e => rw [hr] at hok; exact absurd hok (by simp [Except.toBool])
  | ok k => exact ⟨k, rfl, built_internal_nodes_nonempty (by decide!) hr⟩

/-! ## The triangle loop of a leaf -/

theorem leafVisit_eq (I : Intersections) (tris verts : List vec3) (o d : vec3)
    (s : Bool × Flt × vec3) (idx : Int) :
    leafVisit I tris verts o d s idx =
      (triTest I tris verts o d idx >>= fun r => .ok (leafStep s r)) := by
  unfold leafVisit triTest
  cases triVerts tris verts idx with
  | error e => rfl
  | ok vs =>
    obtain ⟨v0, v1, v2⟩ := vs
    simp only [ok_bind, pure, Except.pure, leafStep]
    split_ifs <;> rfl

theorem leafVisit_ok_iff {I : Intersections} {tris verts : List vec3} {o d : vec3}
    {s s1 : Bool × Flt × vec3} {idx : Int} :
    leafVisit I tris verts o d s idx = .ok s1 ↔
      ∃ r, triTest I tris verts o d idx = .ok r ∧ s1 = leafStep s r := by
  rw [leafVisit_eq, bind_ok_iff]
  constructor
  · rintro ⟨r, hr, h⟩; exact ⟨r, hr, (Except.ok.inj h).symm⟩
  · rintro ⟨r, hr, rfl⟩; exact ⟨r, hr, rfl⟩

theorem leafStep_fst (s r : Bool × Flt × vec3) : (leafStep s r).1 = (s.1 || r.1) := by
  unfold leafStep
  split_ifs with h1 h2 <;> simp [h1]

theorem leafStep_not_lt (s r : Bool × Flt × vec3) (hr : r.1 = true) :
    Flt.lt r.2.1 (leafStep s r).2.1 = false := by
  unfold leafStep
  rw [if_pos hr]
  split_ifs with h2
  · exact Flt.lt_irrefl _
  · simpa using h2

theorem leafStep_snd (s r : Bool × Flt × vec3) :
    (leafStep s r).2 = s.2 ∨
      (r.1 = true ∧ (leafStep s r).2 = r.2 ∧ Flt.lt r.2.1 s.2.1 = true) := by
  unfold leafStep
  split_ifs with h1 h2
  · exact Or.inr ⟨h1, rfl, h2⟩
  · exact Or.inl rfl
  · exact Or.inl rfl

theorem leafStep_absorbed (s r : Bool × Flt × vec3) (h : r.1 = true → Flt.lt r.2.1 s.2.1 = false) :
    leafStep s r = (s.1 || r.1, s.2.1, s.2.2) := by
  unfold leafStep
  by_cases hr : r.1 = true
  · rw [if_pos hr, if_neg (by simp [h hr])]; simp [hr]
  · rw [if_neg hr]; simp [hr]

/-- The triangle loop over a list of indices, from the state `s` to `s1`: the
flag is the incoming flag or a hit in the list; no hit of the list is closer
than the final `t`; and `t`, `normal` are unchanged or are those of a hit of
the list that is strictly closer than the incoming `t`. -/
theorem leafFold_spec {I : Intersections} {tris verts : List vec3} {o d : vec3} :
    ∀ (l : List Int) (s s1 : Bool × Flt × vec3),
      l.foldlM (leafVisit I tris verts o d) s = .ok s1 →
      s1.1 = (s.1 || anyHit I tris verts o d l) ∧
      (∀ x ∈ l, ∃ r, triTest I tris verts o d x = .ok r ∧
        (r.1 = true → Flt.lt r.2.1 s1.2.1 = false)) ∧
      (s1.2 = s.2 ∨ ∃ x ∈ l, ∃ r, triTest I tris verts o d x = .ok r ∧ r.1 = true ∧
        s1.2 = r.2 ∧ Flt.lt r.2.1 s.2.1 = true) := by
  intro l
  induction l with
  | nil =>
    intro s s1 h
    have hs : s = s1 := Except.ok.inj h
    subst hs
    exact ⟨by simp [anyHit], fun x hx => absurd hx (List.not_mem_nil x), Or.inl rfl⟩
  | cons x xs ih =>
    intro s s1 h
    rw [List.foldlM_cons, bind_ok_iff] at h
    obtain ⟨s0, hs0, h⟩ := h
    obtain ⟨r, hr, rfl⟩ := leafVisit_ok_iff.mp hs0
    obtain ⟨i1, i2, i3⟩ := ih _ s1 h
    have mono : ∀ u : Flt, Flt.lt u s1.2.1 = true → Flt.lt u (leafStep s r).2.1 = true := by
      intro u hu
      rcases i3 with h3 | ⟨y, _, r2, _, _, h3, h4⟩
      · rw [h3] at hu; exact hu
      · rw [h3] at hu; exact Flt.lt_trans hu h4
    refine ⟨?_, ?_, ?_⟩
    · rw [i1, leafStep_fst]
      simp [anyHit, hr, Bool.or_assoc]
    · intro y hy
      rcases List.mem_cons.mp hy with rfl | hmem
      · refine ⟨r, hr, fun hhit => ?_⟩
        by_contra hcon
        have hcon2 : Flt.lt r.2.1 s1.2.1 = true := by simpa using hcon
        have := mono _ hcon2
        rw [leafStep_not_lt s r hhit] at this
        exact absurd this (by simp)
      · exact i2 y hmem
    · rcases i3 with h3 | ⟨y, hy, r2, hr2, hhit2, h3, h4⟩
      · rcases leafStep_snd s r with h5 | ⟨hhit, h5, h6⟩
        · exact Or.inl (h3.trans h5)
        · exact Or.inr ⟨x, List.mem_cons_self _ _, r, hr, hhit, h3.trans h5, h6⟩
      · refine Or.inr ⟨y, List.mem_cons_of_mem _ hy, r2, hr2, hhit2, h3, ?_⟩
        rcases leafStep_snd s r with h5 | ⟨hhit, h5, h6⟩
        · rw [h5] at h4; exact h4
        · rw [h5] at h4; exact Flt.lt_trans h4 h6

/-- The triangle loop over indices none of whose hits is closer than the
incoming `t` leaves `t` and `normal` as they are. -/
theorem leafFold_absorbed {I : Intersections} {tris verts : List vec3} {o d : vec3}
    (t : Flt) (nrm : vec3) :
    ∀ (l : List Int) (flag : Bool),
      (∀ x ∈ l, ∃ r, triTest I tris verts o d x = .ok r ∧
        (r.1 = true → Flt.lt r.2.1 t = false)) →
      l.foldlM (leafVisit I tris verts o d) (flag, t, nrm)
        = .ok (flag || anyHit I tris verts o d l, t, nrm) := by
  intro l
  induction l with
  | nil => intro flag _; simp [anyHit, pure, Except.pure]
  | cons x xs ih =>
    intro flag h
    obtain ⟨r, hr, hlt⟩ := h x (List.mem_cons_self _ _)
    rw [List.foldlM_cons, leafVisit_eq, hr, ok_bind, leafStep_absorbed _ r hlt, ok_bind,
      ih _ (fun y hy => h y (List.mem_cons_of_mem _ hy))]
    simp [anyHit, hr, Bool.or_assoc]

/-- The recursive `intersect` on a leaf whose count is the length of its index
list. -/
theorem intersectNode_leaf (I : Intersections) (tris verts : List vec3) (o d : vec3)
    (bbox : boundingBox) (l : List Int) (t : Flt) (nrm : vec3) :
    intersectNode I tris verts o d (.node bbox l.length l .null .null) t nrm =
      if I.aabbIntersect bbox o d then
        l.foldlM (leafVisit I tris verts o d) (false, t, nrm)
      else .ok (false, t, nrm) := by
  rw [intersectNode]
  simp only [KDTreeNode.isNull, Bool.and_self, if_true]
  rw [forLoop_eq_foldlM l (leafBody I tris verts l o d) (leafVisit I tris verts o d)
    (fun _ _ => rfl)]

/-! ## Duplicate visits -/

theorem leafStep_eq_self (s r : Bool × Flt × vec3)
    (h : r.1 = true → s.1 = true ∧ Flt.lt r.2.1 s.2.1 = false) : leafStep s r = s := by
  rw [leafStep_absorbed s r (fun hr => (h hr).2)]
  obtain ⟨flag, t, n⟩ := s
  by_cases hr : r.1 = true
  · have h1 : flag = true := (h hr).1
    simp [h1]
  · simp [hr]

theorem leafStep_absorbs_self (s r : Bool × Flt × vec3) (hr : r.1 = true) :
    (leafStep s r).1 = true ∧ Flt.lt r.2.1 (leafStep s r).2.1 = false :=
  ⟨by rw [leafStep_fst, hr, Bool.or_true], leafStep_not_lt s r hr⟩

theorem leafStep_absorbs_other (s r r2 : Bool × Flt × vec3)
    (h : s.1 = true ∧ Flt.lt r.2.1 s.2.1 = false) :
    (leafStep s r2).1 = true ∧ Flt.lt r.2.1 (leafStep s r2).2.1 = false := by
  refine ⟨by rw [leafStep_fst, h.1, Bool.true_or], ?_⟩
  rcases leafStep_snd s r2 with h5 | ⟨_, h5, h6⟩
  · rw [h5]; exact h.2
  · rw [h5]
    by_contra hcon
    have hcon2 : Flt.lt r.2.1 r2.2.1 = true := by simpa using hcon
    have := Flt.lt_trans hcon2 h6
    rw [h.2] at this
    exact absurd this (by simp)

/-- Once a triangle has been tested, testing it again later in the loop
changes nothing: the loop over a list gives the same result with the further
occurrences of that triangle taken out. -/
theorem leafFold_filter {I : Intersections} {tris verts : List vec3} {o d : vec3}
    (x : Int) (r : Bool × Flt × vec3) (hr : triTest I tris verts o d x = .ok r) :
    ∀ (xs : List Int) (s : Bool × Flt × vec3),
      (r.1 = true → s.1 = true ∧ Flt.lt r.2.1 s.2.1 = false) →
      (xs.filter (fun y => y ≠ x)).foldlM (leafVisit I tris verts o d) s =
        xs.foldlM (leafVisit I tris verts o d) s := by
  intro xs
  induction xs with
  | nil => intro s _; rfl
  | cons y ys ih =>
    intro s hs
    by_cases hy : y = x
    · subst hy
      rw [List.filter_cons, if_neg (by simp), List.foldlM_cons, leafVisit_eq, hr, ok_bind,
        leafStep_eq_self s r hs, ok_bind]
      exact ih s hs
    · rw [List.filter_cons, if_pos (by simpa using hy), List.foldlM_cons, List.foldlM_cons]
      rw [leafVisit_eq]
      cases hy2 : triTest I tris verts o d y with
      | error e => rfl
      | ok r2 =>
        simp only [ok_bind]
        exact ih _ (fun hhit => leafStep_absorbs_other s r r2 (hs hhit))

theorem leafFold_dropLaterDuplicates {I : Intersections} {tris verts : List vec3}
    {o d : vec3} :
    ∀ (l : List Int) (s : Bool × Flt × vec3),
      (dropLaterDuplicates l).foldlM (leafVisit I tris verts o d) s =
        l.foldlM (leafVisit I tris verts o d) s := by
  intro l
  induction l with
  | nil => intro s; rfl
  | cons x xs ih =>
    intro s
    rw [dropLaterDuplicates, List.foldlM_cons, List.foldlM_cons, leafVisit_eq]
    cases hr : triTest I tris verts o d x with
    | error e => rfl
    | ok r =>
      simp only [ok_bind]
      rw [leafFold_filter x r hr _ _ (fun hhit => leafStep_absorbs_self s r hhit)]
      exact ih _

/-- C7: traversal is idempotent under duplicate visits. For every ray and
every incoming `t` and `normal`, the recursive `intersect` on a leaf gives the
same result (flag, `t`, `normal`, or the same fault) as on the leaf with the
later duplicate occurrences of every index removed; and when a visit of a leaf
returns `(flag, t1, normal1)`, a second visit of that leaf starting from `t1`
and `normal1` returns `(flag, t1, normal1)` again. -/
theorem intersect_leaf_idempotent (I : Intersections) (tris verts : List vec3)
    (ray_o ray_dir : vec3) (bbox : boundingBox) (l : List Int) (t : Flt) (normal : vec3) :
    intersectNode I tris verts ray_o ray_dir
        (.node bbox (dropLaterDuplicates l).length (dropLaterDuplicates l) .null .null)
        t normal =
      intersectNode I tris verts ray_o ray_dir (.node bbox l.length l .null .null)
        t normal ∧
    ∀ r : Bool × Flt × vec3,
      intersectNode I tris verts ray_o ray_dir (.node bbox l.length l .null .null) t normal
        = .ok r →
      intersectNode I tris verts ray_o ray_dir (.node bbox l.length l .null .null)
        r.2.1 r.2.2 = .ok r := by
  constructor
  · rw [intersectNode_leaf, intersectNode_leaf, leafFold_dropLaterDuplicates]
  · intro r hr
    rw [intersectNode_leaf] at hr ⊢
    by_cases hbox : I.aabbIntersect bbox ray_o ray_dir = true
    · rw [if_pos hbox] at hr ⊢
      obtain ⟨h1, h2, _⟩ := leafFold_spec l _ r hr
      rw [leafFold_absorbed r.2.1 r.2.2 l false h2]
      obtain ⟨flag, t1, n1⟩ := r
      simp only [Bool.false_or] at h1 ⊢
      rw [h1]
    · rw [if_neg hbox] at hr ⊢
      have := Except.ok.inj hr
      subst this
      rfl

/-- Witness for C7: a leaf listing triangle 0 of the example mesh twice, a box
primitive that always hits and a triangle primitive that always reports a hit
at distance 1; the visit from `t = 7` returns `(true, 1, normal)`, and so does
the second visit. -/
theorem intersect_leaf_idempotent_witness :
    intersectNode ⟨fun _ _ _ => true, fun _ _ _ _ _ => (true, .fin 1, vec3.ofRat 0 0 1)⟩
      exampleTris exampleVerts (vec3.ofRat 0 0 5) (vec3.ofRat 0 0 (-1))
      (.node sentinelBox 2 [0, 0] .null .null) (.fin 1) (vec3.ofRat 0 0 1)
      = .ok (true, .fin 1, vec3.ofRat 0 0 1) :=
  (intersect_leaf_idempotent
    ⟨fun _ _ _ => true, fun _ _ _ _ _ => (true, .fin 1, vec3.ofRat 0 0 1)⟩
    exampleTris exampleVerts (vec3.ofRat 0 0 5) (vec3.ofRat 0 0 (-1)) sentinelBox [0, 0]
    (.fin 7) (vec3.ofRat 9 9 9)).2 (true, .fin 1, vec3.ofRat 0 0 1) (by decide!)

/-! ## Geometry of hit points -/

theorem Flt.le_trans {a b c : Flt} (h1 : Flt.le a b = true) (h2 : Flt.le b c = true) :
    Flt.le a c = true :=
  Flt.ge_trans h2 h1

theorem min3_mem (a b c : Flt) : min3 a b c = a ∨ min3 a b c = b ∨ min3 a b c = c := by
  unfold min3
  split_ifs <;> simp

theorem max3_mem (a b c : Flt) : max3 a b c = a ∨ max3 a b c = b ∨ max3 a b c = c := by
  unfold max3
  split_ifs <;> simp

theorem contains_iff_along (b : boundingBox) (p : vec3) :
    b.contains p = true ↔ ∀ axis : SplitAxis,
      Flt.le (b.min.along axis) (p.along axis) = true ∧
      Flt.le (p.along axis) (b.max.along axis) = true := by
  simp only [boundingBox.contains, vec3.le, Bool.and_eq_true]
  constructor
  · rintro ⟨⟨⟨h1, h2⟩, h3⟩, ⟨h4, h5⟩, h6⟩ axis
    cases axis
    · exact ⟨h1, h4⟩
    · exact ⟨h2, h5⟩
    · exact ⟨h3, h6⟩
  · intro h
    exact ⟨⟨⟨(h .X_AXIS).1, (h .Y_AXIS).1⟩, (h .Z_AXIS).1⟩,
      ⟨(h .X_AXIS).2, (h .Y_AXIS).2⟩, (h .Z_AXIS).2⟩

theorem inTriExtent_axis {tris verts : List vec3} {idx : Int} {p : vec3}
    (h : inTriExtent tris verts idx p = true) (axis : SplitAxis) :
    ∃ a b, getMinTriValue tris verts idx axis = .ok a ∧
      getMaxTriValue tris verts idx axis = .ok b ∧
      Flt.le a (p.along axis) = true ∧ Flt.le (p.along axis) b = true := by
  simp only [inTriExtent, List.all_cons, List.all_nil, Bool.and_true, Bool.and_eq_true] at h
  have hax : (match getMinTriValue tris verts idx axis, getMaxTriValue tris verts idx axis with
      | .ok a, .ok b => Flt.le a (p.along axis) && Flt.le (p.along axis) b
      | _, _ => false) = true := by
    cases axis
    · exact h.1
    · exact h.2.1
    · exact h.2.2
  cases h1 : getMinTriValue tris verts idx axis with
  | error e => rw [h1] at hax; simp at hax
  | ok a =>
    cases h2 : getMaxTriValue tris verts idx axis with
    | error e => rw [h1, h2] at hax; simp at hax
    | ok b =>
      rw [h1, h2] at hax
      simp only [Bool.and_eq_true] at hax
      exact ⟨a, b, rfl, rfl, hax.1, hax.2⟩

/-- A point in the extent of a triangle lies in every box that contains the
vertices of the mesh. -/
theorem contains_of_inTriExtent {tris verts : List vec3} {idx : Int} {p : vec3}
    {b : boundingBox} (hb : ∀ v ∈ verts, b.contains v = true)
    (h : inTriExtent tris verts idx p = true) : b.contains p = true := by
  rw [contains_iff_along]
  intro axis
  obtain ⟨lo, hi, hlo, hhi, h1, h2⟩ := inTriExtent_axis h axis
  obtain ⟨⟨v0, v1, v2⟩, hvs⟩ := getMinTriValue_ok hlo
  rw [getMinTriValue_eq hvs] at hlo
  rw [getMaxTriValue_eq hvs] at hhi
  have hlo2 := Except.ok.inj hlo
  have hhi2 := Except.ok.inj hhi
  obtain ⟨m0, m1, m2⟩ := triVerts_mem hvs
  have c0 := (contains_iff_along b v0).mp (hb v0 m0) axis
  have c1 := (contains_iff_along b v1).mp (hb v1 m1) axis
  have c2 := (contains_iff_along b v2).mp (hb v2 m2) axis
  constructor
  · refine Flt.le_trans ?_ h1
    rw [← hlo2]
    rcases min3_mem (v0.along axis) (v1.along axis) (v2.along axis) with h | h | h <;> rw [h]
    · exact c0.1
    · exact c1.1
    · exact c2.1
  · refine Flt.le_trans h2 ?_
    rw [← hhi2]
    rcases max3_mem (v0.along axis) (v1.along axis) (v2.along axis) with h | h | h <;> rw [h]
    · exact c0.2
    · exact c1.2
    · exact c2.2

theorem Flt.isFinite_of_add_mul {o t d : Flt} (h : (Flt.add o (Flt.mul t d)).isFinite = true) :
    t.isFinite = true := by
  cases t <;> cases d <;> cases o <;> simp [Flt.add, Flt.mul, Flt.isFinite] at h ⊢ <;>
    split_ifs at h

/-- A hit point in a finite box has a finite ray parameter. -/
theorem isFinite_of_hitPoint_contains {o d : vec3} {t : Flt} {b : boundingBox}
    (hb : b.isFinite = true) (h : b.contains (hitPoint o d t) = true) :
    t.isFinite = true := by
  have hx := (contains_iff_along b _).mp h .X_AXIS
  simp only [boundingBox.isFinite, Bool.and_eq_true] at hb
  have hfin := Flt.isFinite_of_between (vec3.along_isFinite hb.1 .X_AXIS)
    (vec3.along_isFinite hb.2 .X_AXIS) hx.1 hx.2
  exact Flt.isFinite_of_add_mul hfin

theorem splitBounds_contains_left {b : boundingBox} {p : vec3} (axis : SplitAxis)
    (hb : b.contains p = true)
    (h : Flt.le (p.along axis) (splitBounds b axis).1 = true) :
    (splitBounds b axis).2.1.contains p = true := by
  simp only [boundingBox.contains, vec3.le, Bool.and_eq_true] at hb ⊢
  cases axis <;> simp only [splitBounds, vec3.along] at h ⊢ <;> tauto

theorem splitBounds_contains_right {b : boundingBox} {p : vec3} (axis : SplitAxis)
    (hb : b.contains p = true)
    (h : Flt.le (splitBounds b axis).1 (p.along axis) = true) :
    (splitBounds b axis).2.2.contains p = true := by
  simp only [boundingBox.contains, vec3.le, Bool.and_eq_true] at hb ⊢
  cases axis <;> simp only [splitBounds, vec3.along] at h ⊢ <;> tauto

/-- A triangle whose extent holds the point `p` follows `p` at a split: to the
left with the left box when `p` is below the median, else to the right with
the right box. -/
theorem split_follows_point {tris verts : List vec3} {idx : Int} {p : vec3}
    {b : boundingBox} (hbf : b.isFinite = true) (hb : b.contains p = true)
    (hp : inTriExtent tris verts idx p = true) (axis : SplitAxis) :
    (goesLeft tris verts axis (splitBounds b axis).1 idx = true ∧
        (splitBounds b axis).2.1.contains p = true) ∨
      (goesRight tris verts axis (splitBounds b axis).1 idx = true ∧
        (splitBounds b axis).2.2.contains p = true) := by
  obtain ⟨lo, hi, hlo, hhi, h1, h2⟩ := inTriExtent_axis hp axis
  obtain ⟨q, hq⟩ := (Flt.isFinite_iff_fin _).mp (splitBounds_isFinite hbf axis).1
  by_cases hlt : Flt.lt (p.along axis) (splitBounds b axis).1 = true
  · left
    refine ⟨?_, splitBounds_contains_left axis hb (Flt.le_of_lt hlt)⟩
    simp only [goesLeft, hlo]
    exact Flt.le_lt_trans h1 hlt
  · right
    have hge : Flt.ge (p.along axis) (splitBounds b axis).1 = true := by
      rw [hq] at hlt ⊢
      exact Flt.ge_of_not_lt_fin (Flt.le_refl_of_le_right h1) (by simpa using hlt)
    refine ⟨?_, splitBounds_contains_right axis hb hge⟩
    simp only [goesRight, hhi]
    exact Flt.ge_trans h2 hge

/-! ## Traversal of a built tree -/

theorem anyHit_iff {I : Intersections} {tris verts : List vec3} {o d : vec3} {l : List Int} :
    anyHit I tris verts o d l = true ↔
      ∃ x ∈ l, ∃ r, triTest I tris verts o d x = .ok r ∧ r.1 = true := by
  simp only [anyHit, List.any_eq_true]
  constructor
  · rintro ⟨x, hx, h⟩
    cases hr : triTest I tris verts o d x with
    | error e => rw [hr] at h; simp at h
    | ok r => rw [hr] at h; exact ⟨x, hx, r, hr, h⟩
  · rintro ⟨x, hx, r, hr, h⟩
    exact ⟨x, hx, by rw [hr]; exact h⟩

theorem triTest_ok_of_triVerts {I : Intersections} {tris verts : List vec3} {o d : vec3}
    {idx : Int} {vs : vec3 × vec3 × vec3} (h : triVerts tris verts idx = .ok vs) :
    ∃ r, triTest I tris verts o d idx = .ok r := by
  obtain ⟨v0, v1, v2⟩ := vs
  exact ⟨I.triIntersect o d v0 v1 v2, by unfold triTest; rw [h]; rfl⟩

theorem triVerts_ok_of_triTest {I : Intersections} {tris verts : List vec3} {o d : vec3}
    {idx : Int} {r : Bool × Flt × vec3} (h : triTest I tris verts o d idx = .ok r) :
    ∃ vs, triVerts tris verts idx = .ok vs := by
  unfold triTest at h
  rw [bind_ok_iff] at h
  obtain ⟨vs, hvs, _⟩ := h
  exact ⟨vs, hvs⟩

theorem leafFold_ok {I : Intersections} {tris verts : List vec3} {o d : vec3} :
    ∀ (l : List Int) (s : Bool × Flt × vec3),
      (∀ idx ∈ l, ∃ vs, triVerts tris verts idx = .ok vs) →
      ∃ s1, l.foldlM (leafVisit I tris verts o d) s = .ok s1 := by
  intro l
  induction l with
  | nil => intro s _; exact ⟨s, rfl⟩
  | cons x xs ih =>
    intro s hv
    obtain ⟨vs, hvs⟩ := hv x (List.mem_cons_self _ _)
    obtain ⟨r, hr⟩ := @triTest_ok_of_triVerts I tris verts o d x vs hvs
    obtain ⟨s1, hs1⟩ := ih (leafStep s r) (fun idx hidx => hv idx (List.mem_cons_of_mem _ hidx))
    exact ⟨s1, by rw [List.foldlM_cons, leafVisit_eq, hr, ok_bind, ok_bind, hs1]⟩

theorem nodeBoundingBox_loose {cfg : Config} {tris : List vec3} {n : Nat} {l : List Int}
    {b bbox : boundingBox} (hloose : cfg.USE_TIGHT_FITTING_BOUNDING_BOXES = false)
    (h : nodeBoundingBox cfg tris n l b = .ok bbox) : bbox = b := by
  simp only [nodeBoundingBox, hloose, Bool.false_eq_true, if_false] at h
  exact (Except.ok.inj h).symm

/-- The recursive `intersect` on a node with both children. -/
theorem intersectNode_internal (I : Intersections) (tris verts : List vec3) (o d : vec3)
    (bbox : boundingBox) (n : Nat) (l : List Int) (left right : KDTreeNode) (t : Flt)
    (nrm : vec3) (hl : left.isNull = false) (hr : right.isNull = false) :
    intersectNode I tris verts o d (.node bbox n l left right) t nrm =
      if I.aabbIntersect bbox o d then
        (intersectNode I tris verts o d left t nrm >>= fun s1 =>
          intersectNode I tris verts o d right s1.2.1 s1.2.2 >>= fun s2 =>
            .ok (s1.1 || s2.1, s2.2.1, s2.2.2))
      else .ok (false, t, nrm) := by
  rw [intersectNode]
  by_cases hbox : I.aabbIntersect bbox o d = true
  · simp only [hbox, if_true, hl, hr, Bool.and_self, Bool.false_eq_true, if_false, Bool.not_false]
    cases h1 : intersectNode I tris verts o d left t nrm with
    | error e => rfl
    | ok s1 =>
      obtain ⟨f1, t1, n1⟩ := s1
      simp only [ok_bind]
      cases h2 : intersectNode I tris verts o d right t1 n1 with
      | error e => rfl
      | ok s2 => rfl
  · simp only [hbox, Bool.false_eq_true, if_false]

/-- The traversal of a tree built with loose boxes from finite bounds, for a
box primitive that reports a hit on every box holding the hit point of a hit
triangle. The visit returns without fault; the flag is set only if a triangle
of the list is hit; `t` and `normal` are unchanged or are those of a hit of the
list strictly closer than the incoming `t`; and every hit of the list whose hit
point lies in the bounds and in the extent of its triangle sets the flag and is
not closer than the final `t`. -/
theorem built_intersect_spec {cfg : Config} {I : Intersections} {tris verts : List vec3}
    {o d : vec3} (hloose : cfg.USE_TIGHT_FITTING_BOUNDING_BOXES = false)
    (HB : ∀ idx r, triTest I tris verts o d idx = .ok r → r.1 = true →
      ∀ box : boundingBox, box.contains (hitPoint o d r.2.1) = true →
        I.aabbIntersect box o d = true)
    {l : List Int} {b : boundingBox} {nd : KDTreeNode} (hB : Built cfg tris verts l b nd) :
    (l ≠ [] → b.isFinite = true) →
    (∀ idx ∈ l, ∃ vs, triVerts tris verts idx = .ok vs) →
    ∀ (t : Flt) (nrm : vec3), ∃ s1,
      intersectNode I tris verts o d nd t nrm = .ok s1 ∧
      (s1.1 = true → anyHit I tris verts o d l = true) ∧
      (s1.2 = (t, nrm) ∨ ∃ x ∈ l, ∃ r, triTest I tris verts o d x = .ok r ∧ r.1 = true ∧
        s1.2 = r.2 ∧ Flt.lt r.2.1 t = true) ∧
      (∀ x ∈ l, ∀ r, triTest I tris verts o d x = .ok r → r.1 = true →
        b.contains (hitPoint o d r.2.1) = true →
        inTriExtent tris verts x (hitPoint o d r.2.1) = true →
        s1.1 = true ∧ Flt.lt r.2.1 s1.2.1 = false) := by
  induction hB with
  | leaf l b bbox hK hb =>
    intro _ hv t nrm
    have hbb := nodeBoundingBox_loose hloose hb
    subst hbb
    rw [intersectNode_leaf]
    by_cases hbox : I.aabbIntersect bbox o d = true
    · rw [if_pos hbox]
      obtain ⟨s1, hs1⟩ := @leafFold_ok I tris verts o d l (false, t, nrm) hv
      obtain ⟨d1, d2, d3⟩ := leafFold_spec l _ s1 hs1
      refine ⟨s1, hs1, ?_, d3, ?_⟩
      · intro h; rw [d1] at h; simpa using h
      · intro x hx r hr hhit _ _
        obtain ⟨r2, hr2, hlt⟩ := d2 x hx
        rw [hr] at hr2
        have hrr := Except.ok.inj hr2
        subst hrr
        refine ⟨?_, hlt hhit⟩
        rw [d1, Bool.false_or]
        exact anyHit_iff.mpr ⟨x, hx, r, hr, hhit⟩
    · rw [if_neg hbox]
      refine ⟨(false, t, nrm), rfl, fun h => absurd h (by simp), Or.inl rfl, ?_⟩
      intro x hx r hr hhit hc _
      exact absurd (HB x r hr hhit bbox hc) hbox
  | split l b bbox left right hK hb hv0 hL hR ihL ihR =>
    intro hbf hv t nrm
    have hbb := nodeBoundingBox_loose hloose hb
    subst hbb
    have hne : l ≠ [] := by
      intro h; rw [h] at hK; exact hK (Nat.zero_le _)
    have hbfin := hbf hne
    obtain ⟨_, hlf, hrf⟩ := splitBounds_isFinite hbfin
      (getLongestBoundingBoxSide bbox.min bbox.max)
    rw [intersectNode_internal _ _ _ _ _ _ _ _ _ _ _ _ (built_tri_indices hL).2.2
      (built_tri_indices hR).2.2]
    by_cases hbox : I.aabbIntersect bbox o d = true
    · rw [if_pos hbox]
      obtain ⟨sL, hsL, l1, l3, l2⟩ := ihL (fun _ => hlf)
        (fun idx hidx => hv idx (List.mem_of_mem_filter hidx)) t nrm
      obtain ⟨sR, hsR, r1, r3, r2⟩ := ihR (fun _ => hrf)
        (fun idx hidx => hv idx (List.mem_of_mem_filter hidx)) sL.2.1 sL.2.2
      have monoR : ∀ u : Flt, Flt.lt u sR.2.1 = true → Flt.lt u sL.2.1 = true := by
        intro u hu
        rcases r3 with h3 | ⟨y, _, r, _, _, h3, h4⟩
        · rw [h3] at hu; exact hu
        · rw [h3] at hu; exact Flt.lt_trans hu h4
      refine ⟨(sL.1 || sR.1, sR.2.1, sR.2.2), by rw [hsL, ok_bind, hsR, ok_bind], ?_, ?_, ?_⟩
      · intro h
        simp only [Bool.or_eq_true] at h
        rcases h with h | h
        · obtain ⟨x, hx, r, hr, hhit⟩ := anyHit_iff.mp (l1 h)
          exact anyHit_iff.mpr ⟨x, List.mem_of_mem_filter hx, r, hr, hhit⟩
        · obtain ⟨x, hx, r, hr, hhit⟩ := anyHit_iff.mp (r1 h)
          exact anyHit_iff.mpr ⟨x, List.mem_of_mem_filter hx, r, hr, hhit⟩
      · rcases r3 with h3 | ⟨y, hy, r, hr, hhit, h3, h4⟩
        · rcases l3 with h5 | ⟨y, hy, r, hr, hhit, h5, h6⟩
          · exact Or.inl (h3.trans h5)
          · exact Or.inr ⟨y, List.mem_of_mem_filter hy, r, hr, hhit, h3.trans h5, h6⟩
        · refine Or.inr ⟨y, List.mem_of_mem_filter hy, r, hr, hhit, h3, ?_⟩
          rcases l3 with h5 | ⟨y2, _, r2, _, _, h5, h6⟩
          · rw [h5] at h4; exact h4
          · rw [h5] at h4; exact Flt.lt_trans h4 h6
      · intro x hx r hr hhit hc hext
        rcases split_follows_point hbfin hc hext (getLongestBoundingBoxSide bbox.min bbox.max)
          with ⟨hg, hcl⟩ | ⟨hg, hcr⟩
        · obtain ⟨hflag, hlt⟩ := l2 x (List.mem_filter.mpr ⟨hx, hg⟩) r hr hhit hcl hext
          refine ⟨by simp [hflag], ?_⟩
          by_contra hcon
          have hcon2 : Flt.lt r.2.1 sR.2.1 = true := by simpa using hcon
          have := monoR _ hcon2
          rw [hlt] at this
          exact absurd this (by simp)
        · obtain ⟨hflag, hlt⟩ := r2 x (List.mem_filter.mpr ⟨hx, hg⟩) r hr hhit hcr hext
          exact ⟨by simp [hflag], hlt⟩
    · rw [if_neg hbox]
      refine ⟨(false, t, nrm), rfl, fun h => absurd h (by simp), Or.inl rfl, ?_⟩
      intro x hx r hr hhit hc _
      exact absurd (HB x r hr hhit bbox hc) hbox

/-! ## Brute force -/

theorem mem_hitDistances {I : Intersections} {tris verts : List vec3} {o d : vec3} {u : Flt} :
    u ∈ hitDistances I tris verts o d ↔
      ∃ x ∈ rootIndices tris.length, ∃ r, triTest I tris verts o d x = .ok r ∧
        r.1 = true ∧ u = r.2.1 := by
  simp only [hitDistances, List.mem_filterMap]
  constructor
  · rintro ⟨x, hx, h⟩
    cases hr : triTest I tris verts o d x with
    | error e => rw [hr] at h; simp at h
    | ok r =>
      rw [hr] at h
      by_cases hhit : r.1 = true
      · simp only [hhit, if_true, Option.some.injEq] at h
        exact ⟨x, hx, r, hr, hhit, h.symm⟩
      · simp [hhit] at h
  · rintro ⟨x, hx, r, hr, hhit, rfl⟩
    exact ⟨x, hx, by rw [hr]; simp [hhit]⟩

/-- The smallest distance of a list, from the start value `a`: it is `a` or an
element of the list strictly below `a`, and no element is below it. -/
theorem foldl_closer_spec :
    ∀ (hits : List Flt) (a : Flt),
      (hits.foldl closer a = a ∨
        (hits.foldl closer a ∈ hits ∧ Flt.lt (hits.foldl closer a) a = true)) ∧
      ∀ u ∈ hits, Flt.lt u (hits.foldl closer a) = false := by
  intro hits
  induction hits with
  | nil => intro a; exact ⟨Or.inl rfl, fun u hu => absurd hu (List.not_mem_nil u)⟩
  | cons x xs ih =>
    intro a
    obtain ⟨i1, i2⟩ := ih (closer a x)
    rw [List.foldl_cons]
    have hstep : closer a x = a ∨ (closer a x = x ∧ Flt.lt x a = true) := by
      unfold closer
      by_cases h : Flt.lt x a = true
      · rw [if_pos h]; exact Or.inr ⟨rfl, h⟩
      · rw [if_neg h]; exact Or.inl rfl
    have hnot : Flt.lt x (closer a x) = false := by
      unfold closer
      by_cases h : Flt.lt x a = true
      · rw [if_pos h]; exact Flt.lt_irrefl x
      · rw [if_neg h]; simpa using h
    have mono : ∀ u : Flt, Flt.lt u (xs.foldl closer (closer a x)) = true →
        Flt.lt u (closer a x) = true := by
      intro u hu
      rcases i1 with h | ⟨_, h⟩
      · rw [h] at hu; exact hu
      · exact Flt.lt_trans hu h
    generalize List.foldl closer (closer a x) xs = M at i1 i2 mono
    refine ⟨?_, ?_⟩
    · rcases i1 with h | ⟨hm, hlt⟩
      · rcases hstep with h2 | ⟨h2, h3⟩
        · exact Or.inl (h.trans h2)
        · refine Or.inr ⟨?_, ?_⟩
          · rw [h, h2]; exact List.mem_cons_self _ _
          · rw [h, h2]; exact h3
      · refine Or.inr ⟨List.mem_cons_of_mem _ hm, ?_⟩
        rcases hstep with h2 | ⟨h2, h3⟩
        · rw [h2] at hlt; exact hlt
        · rw [h2] at hlt; exact Flt.lt_trans hlt h3
    · intro u hu
      rcases List.mem_cons.mp hu with rfl | hmem
      · by_contra hcon
        have := mono _ (by simpa using hcon)
        rw [hnot] at this
        exact absurd this (by simp)
      · exact i2 u hmem

/-! ## Traversal of the tree of the constructor -/

theorem triTest_index {I : Intersections} {tris verts : List vec3} {o d : vec3} {idx : Int}
    {r : Bool × Flt × vec3} (h : triTest I tris verts o d idx = .ok r) :
    ∃ i : Nat, i < tris.length ∧ idx = (i : Int) := by
  obtain ⟨vs, hvs⟩ := triVerts_ok_of_triTest h
  obtain ⟨h0, h1⟩ := triVerts_index_nonneg hvs
  exact ⟨idx.toNat, h1, (Int.toNat_of_nonneg h0).symm⟩

/-- The facts about the public `intersect` on the tree of the constructor from
which consistency with brute force follows. -/
theorem new_intersect_spec {cfg : Config} {I : Intersections} {fuel : Nat}
    {tris verts : List vec3} {k : KDTreeCPU} {o d : vec3} (hit_point normal : vec3)
    (hloose : cfg.USE_TIGHT_FITTING_BOUNDING_BOXES = false)
    (hwf : wellFormedMesh tris verts = true)
    (hk : KDTreeCPU.new cfg fuel tris verts = .ok k)
    (hGeo : ∀ i : Nat, i < tris.length → ∀ r, triTest I tris verts o d (i : Int) = .ok r →
      r.1 = true → inTriExtent tris verts (i : Int) (hitPoint o d r.2.1) = true)
    (hBox : ∀ i : Nat, i < tris.length → ∀ r, triTest I tris verts o d (i : Int) = .ok r →
      r.1 = true → ∀ box : boundingBox, box.contains (hitPoint o d r.2.1) = true →
        I.aabbIntersect box o d = true) :
    ∃ s1 : Bool × Flt × vec3,
      KDTreeCPU.intersect I k o d hit_point normal =
        .ok (s1.1, s1.2.1, if s1.1 then hitPoint o d s1.2.1 else hit_point, s1.2.2) ∧
      (s1.1 = true → anyHit I tris verts o d (rootIndices tris.length) = true) ∧
      (s1.2 = (.pinf, normal) ∨ ∃ x ∈ rootIndices tris.length, ∃ r,
        triTest I tris verts o d x = .ok r ∧ r.1 = true ∧ s1.2 = r.2) ∧
      (∀ x ∈ rootIndices tris.length, ∀ r, triTest I tris verts o d x = .ok r →
        r.1 = true → r.2.1.isFinite = true ∧ s1.1 = true ∧ Flt.lt r.2.1 s1.2.1 = false) := by
  have hB := built_of_new hk
  obtain ⟨st, _, htris, hverts, _⟩ := new_ok_inv hk
  have hfin := wellFormedMesh_verts_finite hwf
  have HB : ∀ idx r, triTest I tris verts o d idx = .ok r → r.1 = true →
      ∀ box : boundingBox, box.contains (hitPoint o d r.2.1) = true →
        I.aabbIntersect box o d = true := by
    intro idx r hr hhit
    obtain ⟨i, hi, rfl⟩ := triTest_index hr
    exact hBox i hi r hr hhit
  have hroot : rootIndices tris.length ≠ [] →
      (computeTightFittingBoundingBox verts).isFinite = true ∧
      ∀ v ∈ verts, (computeTightFittingBoundingBox verts).contains v = true := by
    intro hne
    have htne : tris ≠ [] := by
      intro h
      rw [h] at hne
      exact hne rfl
    exact computeTightFittingBoundingBox_contains (wellFormedMesh_verts_ne_nil hwf htne) hfin
  have hv : ∀ idx ∈ rootIndices tris.length, ∃ vs, triVerts tris verts idx = .ok vs := by
    intro idx hidx
    obtain ⟨i, hi, rfl⟩ := mem_rootIndices.mp hidx
    exact wellFormedMesh_triVerts hwf i hi
  obtain ⟨s1, hs1, t1, t3, t2⟩ := built_intersect_spec hloose HB hB
    (fun hne => (hroot hne).1) hv .pinf normal
  refine ⟨s1, ?_, t1, ?_, ?_⟩
  · unfold KDTreeCPU.intersect
    dsimp only
    rw [htris, hverts, hs1]
    obtain ⟨flag, t, n⟩ := s1
    cases flag <;> rfl
  · rcases t3 with h | ⟨x, hx, r, hr, hhit, h, _⟩
    · exact Or.inl h
    · exact Or.inr ⟨x, hx, r, hr, hhit, h⟩
  · intro x hx r hr hhit
    obtain ⟨i, hi, rfl⟩ := mem_rootIndices.mp hx
    have hext := hGeo i hi r hr hhit
    have hne : rootIndices tris.length ≠ [] := List.ne_nil_of_mem hx
    have hc := contains_of_inTriExtent (hroot hne).2 hext
    exact ⟨isFinite_of_hitPoint_contains (hroot hne).1 hc, t2 _ hx r hr hhit hc hext⟩

/-- C1: consistency with brute force. For every well-formed mesh (vertex
indices in range, vertex coordinates finite) on which the build with loose
bounding boxes terminates, and for every ray, the public `intersect` returns
(without fault) the same hit flag and the same distance `t` as testing every
triangle directly and keeping the smallest hit distance.
Hypotheses on the primitives: a triangle hit at distance `t` has the point
`origin + t * direction` in that triangle's axis-aligned extent, and the box
primitive reports a hit for every box that contains such a point. -/
theorem intersect_eq_bruteForce {cfg : Config} {I : Intersections} {fuel : Nat}
    {tris verts : List vec3} {k : KDTreeCPU} {ray_o ray_dir : vec3}
    (hit_point normal : vec3)
    (hloose : cfg.USE_TIGHT_FITTING_BOUNDING_BOXES = false)
    (hwf : wellFormedMesh tris verts = true)
    (hk : KDTreeCPU.new cfg fuel tris verts = .ok k)
    (hGeo : ∀ i : Nat, i < tris.length → ∀ r,
      triTest I tris verts ray_o ray_dir (i : Int) = .ok r → r.1 = true →
      inTriExtent tris verts (i : Int) (hitPoint ray_o ray_dir r.2.1) = true)
    (hBox : ∀ i : Nat, i < tris.length → ∀ r,
      triTest I tris verts ray_o ray_dir (i : Int) = .ok r → r.1 = true →
      ∀ box : boundingBox, box.contains (hitPoint ray_o ray_dir r.2.1) = true →
        I.aabbIntersect box ray_o ray_dir = true) :
    ∃ hit t hp nrm,
      KDTreeCPU.intersect I k ray_o ray_dir hit_point normal = .ok (hit, t, hp, nrm) ∧
      bruteForce I tris verts ray_o ray_dir = (hit, t) := by
  obtain ⟨s1, hs1, t1, t3, t2⟩ :=
    new_intersect_spec hit_point normal hloose hwf hk hGeo hBox
  refine ⟨s1.1, s1.2.1, _, s1.2.2, hs1, ?_⟩
  obtain ⟨m1, m2⟩ := foldl_closer_spec (hitDistances I tris verts ray_o ray_dir) .pinf
  unfold bruteForce
  by_cases hany : anyHit I tris verts ray_o ray_dir (rootIndices tris.length) = true
  · obtain ⟨x0, hx0, r0, hr0, hhit0⟩ := anyHit_iff.mp hany
    obtain ⟨hf0, hflag, hlt0⟩ := t2 x0 hx0 r0 hr0 hhit0
    have hmem0 : r0.2.1 ∈ hitDistances I tris verts ray_o ray_dir :=
      mem_hitDistances.mpr ⟨x0, hx0, r0, hr0, hhit0, rfl⟩
    have hne : (hitDistances I tris verts ray_o ray_dir).isEmpty = false := by
      cases hh : hitDistances I tris verts ray_o ray_dir with
      | nil => rw [hh] at hmem0; exact absurd hmem0 (List.not_mem_nil _)
      | cons a as => rfl
    -- the traversal distance is the distance of a hit
    obtain ⟨x1, hx1, r1, hr1, hhit1, hs⟩ : ∃ x ∈ rootIndices tris.length, ∃ r,
        triTest I tris verts ray_o ray_dir x = .ok r ∧ r.1 = true ∧ s1.2 = r.2 := by
      rcases t3 with h | h
      · rw [h] at hlt0
        rw [Flt.lt_pinf_of_isFinite hf0] at hlt0
        exact absurd hlt0 (by simp)
      · exact h
    obtain ⟨hf1, _, _⟩ := t2 x1 hx1 r1 hr1 hhit1
    -- the brute-force distance is the distance of a hit
    have hM : (hitDistances I tris verts ray_o ray_dir).foldl closer .pinf ∈
        hitDistances I tris verts ray_o ray_dir := by
      rcases m1 with h | ⟨h, _⟩
      · have := m2 _ hmem0
        rw [h, Flt.lt_pinf_of_isFinite hf0] at this
        exact absurd this (by simp)
      · exact h
    obtain ⟨x2, hx2, r2, hr2, hhit2, hM2⟩ := mem_hitDistances.mp hM
    obtain ⟨hf2, _, hlt2⟩ := t2 x2 hx2 r2 hr2 hhit2
    have hmem1 : r1.2.1 ∈ hitDistances I tris verts ray_o ray_dir :=
      mem_hitDistances.mpr ⟨x1, hx1, r1, hr1, hhit1, rfl⟩
    have hlt1 := m2 _ hmem1
    have hst : s1.2.1 = r1.2.1 := by rw [hs]
    have heq : (hitDistances I tris verts ray_o ray_dir).foldl closer .pinf = s1.2.1 := by
      rw [hM2, hst]
      refine Flt.eq_of_not_lt hf2 hf1 ?_ ?_
      · rw [← hst]; exact hlt2
      · rw [← hM2]; exact hlt1
    rw [hne, heq, hflag]
    rfl
  · have hflag : s1.1 = false := by
      by_contra hcon
      exact hany (t1 (by simpa using hcon))
    have hnil : hitDistances I tris verts ray_o ray_dir = [] := by
      cases hh : hitDistances I tris verts ray_o ray_dir with
      | nil => rfl
      | cons a as =>
        have hmem : a ∈ hitDistances I tris verts ray_o ray_dir := by
          rw [hh]; exact List.mem_cons_self _ _
        obtain ⟨x, hx, r, hr, hhit, _⟩ := mem_hitDistances.mp hmem
        exact absurd (anyHit_iff.mpr ⟨x, hx, r, hr, hhit⟩) hany
    have ht : s1.2.1 = .pinf := by
      rcases t3 with h | ⟨x, hx, r, hr, hhit, _⟩
      · rw [h]
      · exact absurd (anyHit_iff.mpr ⟨x, hx, r, hr, hhit⟩) hany
    rw [hnil, hflag, ht]
    rfl

/-- The example primitives satisfy the hypothesis on the triangle primitive
for the example ray and mesh. -/
theorem example_hit_in_extent :
    ∀ i : Nat, i < exampleTris.length → ∀ r,
      triTest examplePrimitives exampleTris exampleVerts exampleOrigin exampleDir (i : Int)
        = .ok r → r.1 = true →
      inTriExtent exampleTris exampleVerts (i : Int)
        (hitPoint exampleOrigin exampleDir r.2.1) = true := by
  intro i hi r hr hhit
  have hi3 : i < 3 := hi
  interval_cases i
  · have h0 : triTest examplePrimitives exampleTris exampleVerts exampleOrigin exampleDir
        ((0 : Nat) : Int) = .ok (true, .fin 5, vec3.ofRat 0 0 1) := by decide!
    rw [h0] at hr
    have := Except.ok.inj hr
    subst this
    decide!
  · have h1 : triTest examplePrimitives exampleTris exampleVerts exampleOrigin exampleDir
        ((1 : Nat) : Int) = .ok (false, .pinf, vec3.ofRat 0 0 0) := by decide!
    rw [h1] at hr
    have := Except.ok.inj hr
    subst this
    exact absurd hhit (by simp)
  · have h2 : triTest examplePrimitives exampleTris exampleVerts exampleOrigin exampleDir
        ((2 : Nat) : Int) = .ok (false, .pinf, vec3.ofRat 0 0 0) := by decide!
    rw [h2] at hr
    have := Except.ok.inj hr
    subst this
    exact absurd hhit (by simp)

/-- The example primitives satisfy the hypothesis on the box primitive for the
example ray and mesh. -/
theorem example_box_hit :
    ∀ i : Nat, i < exampleTris.length → ∀ r,
      triTest examplePrimitives exampleTris exampleVerts exampleOrigin exampleDir (i : Int)
        = .ok r → r.1 = true →
      ∀ box : boundingBox, box.contains (hitPoint exampleOrigin exampleDir r.2.1) = true →
        examplePrimitives.aabbIntersect box exampleOrigin exampleDir = true := by
  intro i hi r hr hhit box hc
  have hi3 : i < 3 := hi
  interval_cases i
  · have h0 : triTest examplePrimitives exampleTris exampleVerts exampleOrigin exampleDir
        ((0 : Nat) : Int) = .ok (true, .fin 5, vec3.ofRat 0 0 1) := by decide!
    rw [h0] at hr
    have := Except.ok.inj hr
    subst this
    have hp : hitPoint exampleOrigin exampleDir (.fin 5) = examplePoint := by decide!
    rw [hp] at hc
    exact hc
  · have h1 : triTest examplePrimitives exampleTris exampleVerts exampleOrigin exampleDir
        ((1 : Nat) : Int) = .ok (false, .pinf, vec3.ofRat 0 0 0) := by decide!
    rw [h1] at hr
    have := Except.ok.inj hr
    subst this
    exact absurd hhit (by simp)
  · have h2 : triTest examplePrimitives exampleTris exampleVerts exampleOrigin exampleDir
        ((2 : Nat) : Int) = .ok (false, .pinf, vec3.ofRat 0 0 0) := by decide!
    rw [h2] at hr
    have := Except.ok.inj hr
    subst this
    exact absurd hhit (by simp)

/-- Witness for C1: the example mesh, primitives and ray; the build succeeds
and the traversal agrees with brute force. -/
theorem intersect_eq_bruteForce_witness :
    ∃ k, KDTreeCPU.new exampleConfig 10 exampleTris exampleVerts = .ok k ∧
      ∃ hit t hp nrm,
        KDTreeCPU.intersect examplePrimitives k exampleOrigin exampleDir
          (vec3.ofRat 7 7 7) (vec3.ofRat 8 8 8) = .ok (hit, t, hp, nrm) ∧
        bruteForce examplePrimitives exampleTris exampleVerts exampleOrigin exampleDir
          = (hit, t) := by
  have hok : (KDTreeCPU.new exampleConfig 10 exampleTris exampleVerts).toBool = true := by
    decide!
  cases hr : KDTreeCPU.new exampleConfig 10 exampleTris exampleVerts with
  | error e => rw [hr] at hok; exact absurd hok (by simp [Except.toBool])
  | ok k =>
    exact ⟨k, rfl, intersect_eq_bruteForce (vec3.ofRat 7 7 7) (vec3.ofRat 8 8 8) rfl
      (by decide!) hr example_hit_in_extent example_box_hit⟩

/-- C2: for every tree built (loose bounding boxes; well-formed mesh: vertex
indices in range, vertex coordinates finite) and every ray that the triangle
primitive reports as hitting exactly one triangle `j` of the mesh, the public `intersect` returns true, sets `t` to that triangle's hit
distance, `normal` to the normal the primitive reports for it, and `hit_point`
to `origin + t * direction` (same hypotheses on the primitives as for C1). -/
theorem intersect_single_hit {cfg : Config} {I : Intersections} {fuel : Nat}
    {tris verts : List vec3} {k : KDTreeCPU} {ray_o ray_dir : vec3}
    (hit_point normal : vec3)
    (hloose : cfg.USE_TIGHT_FITTING_BOUNDING_BOXES = false)
    (hwf : wellFormedMesh tris verts = true)
    (hk : KDTreeCPU.new cfg fuel tris verts = .ok k)
    (hGeo : ∀ i : Nat, i < tris.length → ∀ r,
      triTest I tris verts ray_o ray_dir (i : Int) = .ok r → r.1 = true →
      inTriExtent tris verts (i : Int) (hitPoint ray_o ray_dir r.2.1) = true)
    (hBox : ∀ i : Nat, i < tris.length → ∀ r,
      triTest I tris verts ray_o ray_dir (i : Int) = .ok r → r.1 = true →
      ∀ box : boundingBox, box.contains (hitPoint ray_o ray_dir r.2.1) = true →
        I.aabbIntersect box ray_o ray_dir = true)
    (j : Nat) (hj : j < tris.length) (rj : Bool × Flt × vec3)
    (hrj : triTest I tris verts ray_o ray_dir (j : Int) = .ok rj) (hhit : rj.1 = true)
    (honly : ∀ i : Nat, i < tris.length → i ≠ j → ∀ r,
      triTest I tris verts ray_o ray_dir (i : Int) = .ok r → r.1 = false) :
    KDTreeCPU.intersect I k ray_o ray_dir hit_point normal =
      .ok (true, rj.2.1, hitPoint ray_o ray_dir rj.2.1, rj.2.2) := by
  obtain ⟨s1, hs1, _, t3, t2⟩ :=
    new_intersect_spec hit_point normal hloose hwf hk hGeo hBox
  obtain ⟨hf, hflag, hlt⟩ := t2 (j : Int) (mem_rootIndices.mpr ⟨j, hj, rfl⟩) rj hrj hhit
  have hs : s1.2 = rj.2 := by
    rcases t3 with h | ⟨x, hx, r, hr, hhit2, h⟩
    · rw [h] at hlt
      rw [Flt.lt_pinf_of_isFinite hf] at hlt
      exact absurd hlt (by simp)
    · obtain ⟨i, hi, rfl⟩ := mem_rootIndices.mp hx
      by_cases hij : i = j
      · subst hij
        rw [hrj] at hr
        have := Except.ok.inj hr
        subst this
        exact h
      · have := honly i hi hij r hr
        rw [this] at hhit2
        exact absurd hhit2 (by simp)
  rw [hs1, hflag, if_pos rfl]
  obtain ⟨f1, t1, n1⟩ := s1
  obtain ⟨fj, tj, nj⟩ := rj
  simp only [Prod.mk.injEq] at hs
  obtain ⟨rfl, rfl⟩ := hs
  rfl

/-- Witness for C2: the example ray hits triangle A only; the traversal
returns distance 5, the hit point (1/4, 1/4, 0) and the normal (0,0,1). -/
theorem intersect_single_hit_witness :
    ∃ k, KDTreeCPU.new exampleConfig 10 exampleTris exampleVerts = .ok k ∧
      KDTreeCPU.intersect examplePrimitives k exampleOrigin exampleDir
        (vec3.ofRat 7 7 7) (vec3.ofRat 8 8 8) =
      .ok (true, .fin 5, hitPoint exampleOrigin exampleDir (.fin 5), vec3.ofRat 0 0 1) := by
  have hok : (KDTreeCPU.new exampleConfig 10 exampleTris exampleVerts).toBool = true := by
    decide!
  cases hr : KDTreeCPU.new exampleConfig 10 exampleTris exampleVerts with
  | error e => rw [hr] at hok; exact absurd hok (by simp [Except.toBool])
  | ok k =>
    refine ⟨k, rfl, ?_⟩
    refine intersect_single_hit (vec3.ofRat 7 7 7) (vec3.ofRat 8 8 8) rfl (by decide!) hr
      example_hit_in_extent example_box_hit 0 (by decide) (true, .fin 5, vec3.ofRat 0 0 1)
      (by decide!) rfl ?_
    intro i hi hi0 r hr2
    have hi3 : i < 3 := hi
    interval_cases i
    · exact absurd rfl hi0
    · have h1 : triTest examplePrimitives exampleTris exampleVerts exampleOrigin exampleDir
          ((1 : Nat) : Int) = .ok (false, .pinf, vec3.ofRat 0 0 0) := by decide!
      rw [h1] at hr2
      have := Except.ok.inj hr2
      subst this
      rfl
    · have h2 : triTest examplePrimitives exampleTris exampleVerts exampleOrigin exampleDir
          ((2 : Nat) : Int) = .ok (false, .pinf, vec3.ofRat 0 0 0) := by decide!
      rw [h2] at hr2
      have := Except.ok.inj hr2
      subst this
      rfl

/-! ## Statistics of the build -/

theorem leaves_node_leaf (bbox : boundingBox) (n : Nat) (l : List Int) :
    (KDTreeNode.node bbox n l .null .null).leaves = [.node bbox n l .null .null] := by
  simp [KDTreeNode.leaves, KDTreeNode.nodes, KDTreeNode.isLeaf, KDTreeNode.isNull]

theorem leaves_node_internal (bbox : boundingBox) (n : Nat) (l : List Int)
    {left right : KDTreeNode} (h : left.isNull = false) :
    (KDTreeNode.node bbox n l left right).leaves = left.leaves ++ right.leaves := by
  simp [KDTreeNode.leaves, KDTreeNode.nodes, KDTreeNode.isLeaf, h, List.filter_append]

/-- The counters after a successful call of the build: `num_leaves` grew by
the number of leaves of the returned tree, and `num_levels` is the greater of
its old value and the greatest leaf depth of the returned tree. -/
theorem construct_stats {cfg : Config} {tris verts : List vec3} :
    ∀ (fuel n : Nat) (l : List Int) (b : boundingBox) (d : Nat) (st st2 : Stats)
      (nd : KDTreeNode),
      constructTreeMedianSpaceSplit cfg tris verts fuel n l b d st = .ok (nd, st2) →
      st2.num_leaves = st.num_leaves + nd.leaves.length ∧
      st2.num_levels = max st.num_levels (nd.maxLeafDepth d) := by
  intro fuel
  induction fuel with
  | zero => intro n l b d st st2 nd h; simp [constructTreeMedianSpaceSplit] at h
  | succ fuel ih =>
    intro n l b d st st2 nd h
    obtain ⟨bbox, hb, ⟨hK, rfl, rfl⟩ | ⟨hK, p, L, R, left, right, st1, hp, hc, hl, hr, rfl⟩⟩ :=
      construct_succ_inv h
    · rw [leaves_node_leaf]
      simp only [KDTreeNode.maxLeafDepth, KDTreeNode.isNull, Bool.and_self, if_true,
        List.length_singleton]
      refine ⟨trivial, ?_⟩
      split_ifs with hd
      · omega
      · omega
    · have hln := (construct_ok_not_null hl).1
      obtain ⟨l1, l2⟩ := ih _ _ _ _ _ _ _ hl
      obtain ⟨r1, r2⟩ := ih _ _ _ _ _ _ _ hr
      rw [leaves_node_internal _ _ _ hln]
      simp only [KDTreeNode.maxLeafDepth, hln, Bool.false_and, Bool.false_eq_true, if_false,
        List.length_append]
      refine ⟨by omega, ?_⟩
      rw [r2, l2]
      omega

/-- C11: after the constructor returns, `getNumLeaves` is the number of leaf
nodes of the built tree and `getNumLevels` is the tree height, the greatest
depth of a leaf with the root counted as depth 1; so a single-leaf tree reports
1 level and 1 leaf. -/
theorem new_stats {cfg : Config} {fuel : Nat} {tris verts : List vec3} {k : KDTreeCPU}
    (hk : KDTreeCPU.new cfg fuel tris verts = .ok k) :
    k.getNumLeaves = k.root.leaves.length ∧
    k.getNumLevels = k.root.maxLeafDepth 1 ∧
    (k.root.isLeaf = true → k.getNumLevels = 1 ∧ k.getNumLeaves = 1) := by
  obtain ⟨st, hc, _, _, hlev, hlea⟩ := new_ok_inv hk
  obtain ⟨h1, h2⟩ := construct_stats _ _ _ _ _ _ _ _ hc
  have hA : k.getNumLeaves = k.root.leaves.length := by
    simp only [KDTreeCPU.getNumLeaves, hlea, h1, Nat.zero_add]
  have hB : k.getNumLevels = k.root.maxLeafDepth 1 := by
    simp only [KDTreeCPU.getNumLevels, hlev, h2]
    omega
  refine ⟨hA, hB, fun hleaf => ?_⟩
  rw [hA, hB]
  cases hroot : k.root with
  | null => rw [hroot] at hleaf; simp [KDTreeNode.isLeaf] at hleaf
  | node bbox n l left right =>
    rw [hroot] at hleaf
    simp only [KDTreeNode.isLeaf, Bool.and_eq_true] at hleaf
    have hl : left = .null := by
      cases left with
      | null => rfl
      | node _ _ _ _ _ => simp [KDTreeNode.isNull] at hleaf
    have hr : right = .null := by
      cases right with
      | null => rfl
      | node _ _ _ _ _ => simp [KDTreeNode.isNull] at hleaf
    subst hl hr
    rw [leaves_node_leaf]
    simp [KDTreeNode.maxLeafDepth, KDTreeNode.isNull]

/-- Witness for C11: the build of the example mesh reports 4 leaves and 4
levels, the leaf count and the height of its tree. -/
theorem new_stats_witness :
    ∃ k, KDTreeCPU.new exampleConfig 10 exampleTris exampleVerts = .ok k ∧
      k.getNumLeaves = k.root.leaves.length ∧ k.getNumLevels = k.root.maxLeafDepth 1 ∧
      k.getNumLeaves = 4 ∧ k.getNumLevels = 4 := by
  have hok : (match KDTreeCPU.new exampleConfig 10 exampleTris exampleVerts with
      | .ok k => decide (k.getNumLeaves = 4 ∧ k.getNumLevels = 4)
      | .error _ => false) = true := by
    decide!
  cases hr : KDTreeCPU.new exampleConfig 10 exampleTris exampleVerts with
  | error e => rw [hr] at hok; exact absurd hok (by simp)
  | ok k =>
    rw [hr] at hok
    simp only [decide_eq_true_eq] at hok
    exact ⟨k, rfl, (new_stats hr).1, (new_stats hr).2.1, hok.1, hok.2⟩

/-! ## The tight-fitting box of a point list -/

theorem foldPoint_min_along (b : boundingBox) (v : vec3) (axis : SplitAxis) :
    (foldPoint b v).min.along axis = b.min.along axis ∨
      (foldPoint b v).min.along axis = v.along axis := by
  cases axis <;> simp only [foldPoint, vec3.along] <;> split_ifs <;> simp

theorem foldPoint_max_along (b : boundingBox) (v : vec3) (axis : SplitAxis) :
    (foldPoint b v).max.along axis = b.max.along axis ∨
      (foldPoint b v).max.along axis = v.along axis := by
  cases axis <;> simp only [foldPoint, vec3.along] <;> split_ifs <;> simp

theorem foldl_foldPoint_attained (axis : SplitAxis) :
    ∀ (vs : List vec3) (b : boundingBox),
      ((vs.foldl foldPoint b).min.along axis = b.min.along axis ∨
        ∃ v ∈ vs, (vs.foldl foldPoint b).min.along axis = v.along axis) ∧
      ((vs.foldl foldPoint b).max.along axis = b.max.along axis ∨
        ∃ v ∈ vs, (vs.foldl foldPoint b).max.along axis = v.along axis) := by
  intro vs
  induction vs with
  | nil => intro b; exact ⟨Or.inl rfl, Or.inl rfl⟩
  | cons x vs ih =>
    intro b
    obtain ⟨i1, i2⟩ := ih (foldPoint b x)
    rw [List.foldl_cons]
    constructor
    · rcases i1 with h | ⟨v, hv, h⟩
      · rcases foldPoint_min_along b x axis with h2 | h2
        · exact Or.inl (h.trans h2)
        · exact Or.inr ⟨x, List.mem_cons_self _ _, h.trans h2⟩
      · exact Or.inr ⟨v, List.mem_cons_of_mem _ hv, h⟩
    · rcases i2 with h | ⟨v, hv, h⟩
      · rcases foldPoint_max_along b x axis with h2 | h2
        · exact Or.inl (h.trans h2)
        · exact Or.inr ⟨x, List.mem_cons_self _ _, h.trans h2⟩
      · exact Or.inr ⟨v, List.mem_cons_of_mem _ hv, h⟩

theorem vec3.le_iff_along (a b : vec3) :
    vec3.le a b = true ↔ ∀ axis : SplitAxis, Flt.le (a.along axis) (b.along axis) = true := by
  simp only [vec3.le, Bool.and_eq_true]
  constructor
  · rintro ⟨⟨h1, h2⟩, h3⟩ axis
    cases axis
    · exact h1
    · exact h2
    · exact h3
  · intro h
    exact ⟨⟨h .X_AXIS, h .Y_AXIS⟩, h .Z_AXIS⟩

/-- C12: for a non-empty sequence of points (with finite coordinates),
`computeTightFittingBoundingBox( num_verts, verts )` returns the box of the
componentwise minimum and maximum over all points: every point lies between
`min` and `max`, each component of `min` and of `max` is the component of some
point, and `min <= max` componentwise. For the empty sequence it returns the
inverted sentinel box `min = +INFINITY`, `max = -INFINITY`. -/
theorem computeTightFittingBoundingBox_spec (verts : List vec3) :
    (verts = [] → computeTightFittingBoundingBox verts = sentinelBox) ∧
    (verts ≠ [] → (∀ v ∈ verts, v.isFinite = true) →
      (∀ v ∈ verts, vec3.le (computeTightFittingBoundingBox verts).min v = true ∧
        vec3.le v (computeTightFittingBoundingBox verts).max = true) ∧
      (∀ axis : SplitAxis, ∃ v ∈ verts,
        (computeTightFittingBoundingBox verts).min.along axis = v.along axis) ∧
      (∀ axis : SplitAxis, ∃ v ∈ verts,
        (computeTightFittingBoundingBox verts).max.along axis = v.along axis) ∧
      vec3.le (computeTightFittingBoundingBox verts).min
        (computeTightFittingBoundingBox verts).max = true) := by
  constructor
  · intro h; rw [h]; rfl
  · intro hne hfin
    obtain ⟨_, hc⟩ := computeTightFittingBoundingBox_contains hne hfin
    have hc2 : ∀ v ∈ verts, vec3.le (computeTightFittingBoundingBox verts).min v = true ∧
        vec3.le v (computeTightFittingBoundingBox verts).max = true := by
      intro v hv
      have := hc v hv
      simpa only [boundingBox.contains, Bool.and_eq_true] using this
    have hatt : ∀ axis : SplitAxis,
        (∃ v ∈ verts, (computeTightFittingBoundingBox verts).min.along axis = v.along axis) ∧
        (∃ v ∈ verts, (computeTightFittingBoundingBox verts).max.along axis = v.along axis) := by
      intro axis
      cases verts with
      | nil => exact absurd rfl hne
      | cons x vs =>
        have hx := hfin x (List.mem_cons_self _ _)
        simp only [computeTightFittingBoundingBox, List.foldl_cons, foldPoint_sentinel hx]
        obtain ⟨a1, a2⟩ := foldl_foldPoint_attained axis vs ⟨x, x⟩
        constructor
        · rcases a1 with h | ⟨v, hv, h⟩
          · exact ⟨x, List.mem_cons_self _ _, h⟩
          · exact ⟨v, List.mem_cons_of_mem _ hv, h⟩
        · rcases a2 with h | ⟨v, hv, h⟩
          · exact ⟨x, List.mem_cons_self _ _, h⟩
          · exact ⟨v, List.mem_cons_of_mem _ hv, h⟩
    refine ⟨hc2, fun axis => (hatt axis).1, fun axis => (hatt axis).2, ?_⟩
    cases hv : verts with
    | nil => exact absurd hv hne
    | cons x vs =>
      have hx : x ∈ verts := by rw [hv]; exact List.mem_cons_self _ _
      obtain ⟨h1, h2⟩ := hc2 x hx
      rw [← hv, vec3.le_iff_along]
      intro axis
      exact Flt.le_trans ((vec3.le_iff_along _ _).mp h1 axis) ((vec3.le_iff_along _ _).mp h2 axis)

/-- Witness for C12: the nine vertices of the example mesh; their box goes
from (0,0,0) to (10,4,0). -/
theorem computeTightFittingBoundingBox_spec_witness :
    computeTightFittingBoundingBox exampleVerts = ⟨vec3.ofRat 0 0 0, vec3.ofRat 10 4 0⟩ ∧
    vec3.le (computeTightFittingBoundingBox exampleVerts).min
      (computeTightFittingBoundingBox exampleVerts).max = true :=
  ⟨by decide!,
    ((computeTightFittingBoundingBox_spec exampleVerts).2 (by decide!) (by decide!)).2.2.2⟩

/-! ## The root box -/

theorem built_bbox_loose {cfg : Config} {tris verts : List vec3} {l : List Int}
    {b : boundingBox} {nd : KDTreeNode}
    (hloose : cfg.USE_TIGHT_FITTING_BOUNDING_BOXES = false)
    (hB : Built cfg tris verts l b nd) : nd.bbox = b := by
  cases hB with
  | leaf _ _ bbox hK hb => exact nodeBoundingBox_loose hloose hb
  | split _ _ bbox left right hK hb hv hL hR => exact nodeBoundingBox_loose hloose hb

/-- C13: with loose bounding boxes, for every well-formed mesh (vertex indices
in range, vertex coordinates finite) the bounding box of the root node spans
the vertices of all triangles: each of the three vertices `v` of every
triangle satisfies `root.bbox.min <= v <= root.bbox.max` componentwise. -/
theorem root_bbox_spans_triangles {cfg : Config} {fuel : Nat} {tris verts : List vec3}
    {k : KDTreeCPU} (hloose : cfg.USE_TIGHT_FITTING_BOUNDING_BOXES = false)
    (hwf : wellFormedMesh tris verts = true)
    (hk : KDTreeCPU.new cfg fuel tris verts = .ok k) (i : Nat) (hi : i < tris.length) :
    ∃ v0 v1 v2, triVerts tris verts (i : Int) = .ok (v0, v1, v2) ∧
      (vec3.le k.root.bbox.min v0 = true ∧ vec3.le v0 k.root.bbox.max = true) ∧
      (vec3.le k.root.bbox.min v1 = true ∧ vec3.le v1 k.root.bbox.max = true) ∧
      (vec3.le k.root.bbox.min v2 = true ∧ vec3.le v2 k.root.bbox.max = true) := by
  have hne : tris ≠ [] := by
    intro h; rw [h] at hi; exact absurd hi (Nat.not_lt_zero _)
  obtain ⟨_, hc⟩ := computeTightFittingBoundingBox_contains
    (wellFormedMesh_verts_ne_nil hwf hne) (wellFormedMesh_verts_finite hwf)
  rw [built_bbox_loose hloose (built_of_new hk)]
  obtain ⟨⟨v0, v1, v2⟩, hvs⟩ := wellFormedMesh_triVerts hwf i hi
  obtain ⟨m0, m1, m2⟩ := triVerts_mem hvs
  have key : ∀ v ∈ verts, vec3.le (computeTightFittingBoundingBox verts).min v = true ∧
      vec3.le v (computeTightFittingBoundingBox verts).max = true := by
    intro v hv
    have := hc v hv
    simpa only [boundingBox.contains, Bool.and_eq_true] using this
  exact ⟨v0, v1, v2, hvs, key v0 m0, key v1 m1, key v2 m2⟩

/-- Witness for C13: triangle 2 of the example mesh. -/
theorem root_bbox_spans_triangles_witness :
    ∃ k, KDTreeCPU.new exampleConfig 10 exampleTris exampleVerts = .ok k ∧
      ∃ v0 v1 v2, triVerts exampleTris exampleVerts ((2 : Nat) : Int) = .ok (v0, v1, v2) ∧
        (vec3.le k.root.bbox.min v0 = true ∧ vec3.le v0 k.root.bbox.max = true) ∧
        (vec3.le k.root.bbox.min v1 = true ∧ vec3.le v1 k.root.bbox.max = true) ∧
        (vec3.le k.root.bbox.min v2 = true ∧ vec3.le v2 k.root.bbox.max = true) := by
  have hok : (KDTreeCPU.new exampleConfig 10 exampleTris exampleVerts).toBool = true := by
    decide!
  cases hr : KDTreeCPU.new exampleConfig 10 exampleTris exampleVerts with
  | error e => rw [hr] at hok; exact absurd hok (by simp [Except.toBool])
  | ok k => exact ⟨k, rfl, root_bbox_spans_triangles rfl (by decide!) hr 2 (by decide)⟩

/-! ## The tight-fitting box of a node -/

/-- A property of the loop variables that every iteration keeps holds after
the loop. -/
theorem forLoopFrom_invariant {σ : Type} (P : σ → Prop) (body : Nat → σ → Except Fault σ)
    (hbody : ∀ i s s1, body i s = .ok s1 → P s → P s1) :
    ∀ (n i : Nat) (s s1 : σ), forLoopFrom body n i s = .ok s1 → P s → P s1 := by
  intro n
  induction n with
  | zero =>
    intro i s s1 h hP
    have hs : s = s1 := Except.ok.inj h
    rw [← hs]; exact hP
  | succ n ih =>
    intro i s s1 h hP
    rw [forLoopFrom] at h
    cases hb : body i s with
    | error e => rw [hb] at h; simp at h
    | ok s0 =>
      rw [hb] at h
      exact ih (i + 1) s0 s1 h (hbody i s s0 hb hP)

/-- The box `computeTightFittingBoundingBox( num_tris, tri_indices )` returns
is made of the fresh values of its local buffer only: each component of `min`
and `max` is the sentinel or the component of a fresh `glm::vec3`. No vertex of
the mesh and no entry of `tri_indices` enters it. -/
theorem computeTightFittingBoundingBoxTris_components {cfg : Config} {tris : List vec3}
    {n : Nat} {l : List Int} {bbox : boundingBox}
    (h : computeTightFittingBoundingBoxTris cfg tris n l = .ok bbox) (axis : SplitAxis) :
    (bbox.min.along axis = .pinf ∨ bbox.min.along axis = cfg.newVec3.along axis) ∧
    (bbox.max.along axis = .ninf ∨ bbox.max.along axis = cfg.newVec3.along axis) := by
  unfold computeTightFittingBoundingBoxTris at h
  rw [bind_ok_iff] at h
  obtain ⟨buf, hloop, h⟩ := h
  have hbox : bbox = computeTightFittingBoundingBox buf := (Except.ok.inj h).symm
  have hinv : ∀ v ∈ buf, v = cfg.newVec3 := by
    refine forLoopFrom_invariant (fun b : List vec3 => ∀ v ∈ b, v = cfg.newVec3) _ ?_
      n 0 _ buf hloop (fun v hv => List.eq_of_mem_replicate hv)
    intro i s s1 hb hP
    simp only [bind_ok_iff] at hb
    obtain ⟨tri, _, i0, _, a, ha, i1, _, b, hb1, i2, _, c, hc, hs⟩ := hb
    have hs1 : s1 = _ := (Except.ok.inj hs).symm
    have ha2 : a = cfg.newVec3 := hP a (readAt_mem ha)
    have hP1 : ∀ v ∈ s.set (i * 3 + 0) a, v = cfg.newVec3 := by
      intro v hv
      rcases List.mem_or_eq_of_mem_set hv with h1 | h1
      · exact hP v h1
      · rw [h1]; exact ha2
    have hb2 : b = cfg.newVec3 := hP1 b (readAt_mem hb1)
    have hP2 : ∀ v ∈ (s.set (i * 3 + 0) a).set (i * 3 + 1) b, v = cfg.newVec3 := by
      intro v hv
      rcases List.mem_or_eq_of_mem_set hv with h1 | h1
      · exact hP1 v h1
      · rw [h1]; exact hb2
    have hc2 : c = cfg.newVec3 := hP2 c (readAt_mem hc)
    intro v hv
    rw [hs1] at hv
    rcases List.mem_or_eq_of_mem_set hv with h1 | h1
    · exact hP2 v h1
    · rw [h1]; exact hc2
  obtain ⟨a1, a2⟩ := foldl_foldPoint_attained axis buf sentinelBox
  rw [hbox]
  constructor
  · rcases a1 with h1 | ⟨v, hv, h1⟩
    · left
      rw [computeTightFittingBoundingBox, h1]
      cases axis <;> rfl
    · right
      rw [computeTightFittingBoundingBox, h1, hinv v hv]
  · rcases a2 with h1 | ⟨v, hv, h1⟩
    · left
      rw [computeTightFittingBoundingBox, h1]
      cases axis <;> rfl
    · right
      rw [computeTightFittingBoundingBox, h1, hinv v hv]

/-- C14 fails on the code: with the tight-bounding-box configuration (fresh
buffers zero-initialised) the build of the example mesh stores in the root,
which holds triangles 0, 1, 2, the box from (0,0,0) to (0,0,0), and the tight
box of those triangles goes from (0,0,0) to (10,4,0); it stores in the right
child, which holds triangle 2, the same zero box, and the tight box of triangle
2 goes from (9,0,0) to (10,4,0). -/
theorem tight_box_not_recomputed :
    ∃ k, KDTreeCPU.new tightExampleConfig 10 exampleTris exampleVerts = .ok k ∧
      k.root.tri_indices = [0, 1, 2] ∧
      k.root.bbox = ⟨vec3.ofRat 0 0 0, vec3.ofRat 0 0 0⟩ ∧
      specTightBox exampleTris exampleVerts k.root.tri_indices
        = ⟨vec3.ofRat 0 0 0, vec3.ofRat 10 4 0⟩ ∧
      k.root.right.tri_indices = [2] ∧
      k.root.right.bbox = ⟨vec3.ofRat 0 0 0, vec3.ofRat 0 0 0⟩ ∧
      specTightBox exampleTris exampleVerts k.root.right.tri_indices
        = ⟨vec3.ofRat 9 0 0, vec3.ofRat 10 4 0⟩ := by
  have hb : (match KDTreeCPU.new tightExampleConfig 10 exampleTris exampleVerts with
      | .ok k => decide (k.root.tri_indices = [0, 1, 2] ∧
          k.root.bbox = ⟨vec3.ofRat 0 0 0, vec3.ofRat 0 0 0⟩ ∧
          specTightBox exampleTris exampleVerts k.root.tri_indices
            = ⟨vec3.ofRat 0 0 0, vec3.ofRat 10 4 0⟩ ∧
          k.root.right.tri_indices = [2] ∧
          k.root.right.bbox = ⟨vec3.ofRat 0 0 0, vec3.ofRat 0 0 0⟩ ∧
          specTightBox exampleTris exampleVerts k.root.right.tri_indices
            = ⟨vec3.ofRat 9 0 0, vec3.ofRat 10 4 0⟩)
      | .error _ => false) = true := by
    decide!
  cases hr : KDTreeCPU.new tightExampleConfig 10 exampleTris exampleVerts with
  | error e => rw [hr] at hb; exact absurd hb (by simp)
  | ok k =>
    rw [hr] at hb
    simp only [decide_eq_true_eq] at hb
    exact ⟨k, rfl, hb⟩

/-! ## Projected extent of a triangle -/

theorem min3_le {a b c : Flt} (ha : a.isFinite = true) (hb : b.isFinite = true)
    (hc : c.isFinite = true) :
    Flt.le (min3 a b c) a = true ∧ Flt.le (min3 a b c) b = true ∧
      Flt.le (min3 a b c) c = true := by
  obtain ⟨a, rfl⟩ := (Flt.isFinite_iff_fin a).mp ha
  obtain ⟨b, rfl⟩ := (Flt.isFinite_iff_fin b).mp hb
  obtain ⟨c, rfl⟩ := (Flt.isFinite_iff_fin c).mp hc
  simp only [min3, Flt.lt, Bool.and_eq_true, decide_eq_true_eq]
  split_ifs with h1 h2
  · simp only [Flt.le, Flt.ge, decide_eq_true_eq]
    exact ⟨le_refl _, le_of_lt h1.1, le_of_lt h1.2⟩
  · simp only [Flt.le, Flt.ge, decide_eq_true_eq]
    refine ⟨?_, le_refl _, le_of_lt h2⟩
    by_contra hcon
    exact h1 ⟨by linarith, by linarith⟩
  · simp only [Flt.le, Flt.ge, decide_eq_true_eq]
    refine ⟨?_, by linarith, le_refl _⟩
    by_contra hcon
    exact h1 ⟨by linarith, by linarith⟩

theorem le_max3 {a b c : Flt} (ha : a.isFinite = true) (hb : b.isFinite = true)
    (hc : c.isFinite = true) :
    Flt.le a (max3 a b c) = true ∧ Flt.le b (max3 a b c) = true ∧
      Flt.le c (max3 a b c) = true := by
  obtain ⟨a, rfl⟩ := (Flt.isFinite_iff_fin a).mp ha
  obtain ⟨b, rfl⟩ := (Flt.isFinite_iff_fin b).mp hb
  obtain ⟨c, rfl⟩ := (Flt.isFinite_iff_fin c).mp hc
  simp only [max3, Flt.gt, Flt.lt, Bool.and_eq_true, decide_eq_true_eq]
  split_ifs with h1 h2
  · simp only [Flt.le, Flt.ge, decide_eq_true_eq]
    exact ⟨le_refl _, le_of_lt h1.1, le_of_lt h1.2⟩
  · simp only [Flt.le, Flt.ge, decide_eq_true_eq]
    refine ⟨?_, le_refl _, le_of_lt h2⟩
    by_contra hcon
    exact h1 ⟨by linarith, by linarith⟩
  · simp only [Flt.le, Flt.ge, decide_eq_true_eq]
    refine ⟨?_, by linarith, le_refl _⟩
    by_contra hcon
    exact h1 ⟨by linarith, by linarith⟩

/-- C18: for every triangle with in-range vertex indices (and finite vertex
coordinates) and every axis, `getMinTriValue` returns the minimum and
`getMaxTriValue` the maximum of the three vertices' coordinates along that
axis: the value is below (above) all three coordinates and is one of them, also
when two or three coordinates are equal; hence
`getMinTriValue <= getMaxTriValue`. -/
theorem getMinMaxTriValue_spec {tris verts : List vec3} {idx : Int} {v0 v1 v2 : vec3}
    (hvs : triVerts tris verts idx = .ok (v0, v1, v2))
    (h0 : v0.isFinite = true) (h1 : v1.isFinite = true) (h2 : v2.isFinite = true)
    (axis : SplitAxis) :
    ∃ a c, getMinTriValue tris verts idx axis = .ok a ∧
      getMaxTriValue tris verts idx axis = .ok c ∧
      (Flt.le a (v0.along axis) = true ∧ Flt.le a (v1.along axis) = true ∧
        Flt.le a (v2.along axis) = true) ∧
      (a = v0.along axis ∨ a = v1.along axis ∨ a = v2.along axis) ∧
      (Flt.le (v0.along axis) c = true ∧ Flt.le (v1.along axis) c = true ∧
        Flt.le (v2.along axis) c = true) ∧
      (c = v0.along axis ∨ c = v1.along axis ∨ c = v2.along axis) ∧
      Flt.le a c = true := by
  have f0 := vec3.along_isFinite h0 axis
  have f1 := vec3.along_isFinite h1 axis
  have f2 := vec3.along_isFinite h2 axis
  have hmin := min3_le f0 f1 f2
  have hmax := le_max3 f0 f1 f2
  exact ⟨_, _, getMinTriValue_eq hvs axis, getMaxTriValue_eq hvs axis, hmin, min3_mem _ _ _,
    hmax, max3_mem _ _ _, Flt.le_trans hmin.1 hmax.1⟩

/-- Witness for C18: triangle 2 of the example mesh along X: minimum 9,
maximum 10. -/
theorem getMinMaxTriValue_spec_witness :
    getMinTriValue exampleTris exampleVerts 2 .X_AXIS = .ok (.fin 9) ∧
    getMaxTriValue exampleTris exampleVerts 2 .X_AXIS = .ok (.fin 10) ∧
    ∃ a c, getMinTriValue exampleTris exampleVerts 2 .X_AXIS = .ok a ∧
      getMaxTriValue exampleTris exampleVerts 2 .X_AXIS = .ok c ∧ Flt.le a c = true := by
  refine ⟨by decide!, by decide!, ?_⟩
  obtain ⟨a, c, ha, hc, _, _, _, _, hle⟩ :=
    @getMinMaxTriValue_spec exampleTris exampleVerts 2
      (vec3.ofRat 9 0 0) (vec3.ofRat 10 0 0) (vec3.ofRat 9 4 0)
      (by decide!) (by decide!) (by decide!) (by decide!) .X_AXIS
  exact ⟨a, c, ha, hc, hle⟩

/-! ## The partition at an internal node -/

/-- Every node of a built tree is itself the result of a build, from its own
index list and from the bounds passed down to it. -/
theorem built_withBounds {cfg : Config} {tris verts : List vec3} {l : List Int}
    {b : boundingBox} {nd : KDTreeNode} (hB : Built cfg tris verts l b nd) :
    ∀ p ∈ nd.withBounds b, Built cfg tris verts p.1.tri_indices p.2 p.1 := by
  induction hB with
  | leaf l b bbox hK hb =>
    intro p hp
    simp only [KDTreeNode.withBounds, List.append_nil, List.mem_singleton] at hp
    subst hp
    exact Built.leaf l b bbox hK hb
  | split l b bbox left right hK hb hv hL hR ihL ihR =>
    intro p hp
    simp only [KDTreeNode.withBounds, List.mem_cons, List.mem_append] at hp
    rcases hp with rfl | hp | hp
    · exact Built.split l b bbox left right hK hb hv hL hR
    · exact ihL p hp
    · exact ihR p hp

theorem built_internal_inv {cfg : Config} {tris verts : List vec3} {l : List Int}
    {b : boundingBox} {nd : KDTreeNode} (hB : Built cfg tris verts l b nd)
    (hleaf : nd.isLeaf = false) :
    ¬ l.length ≤ cfg.NUM_TRIS_PER_NODE ∧
    (∀ idx ∈ l, ∃ vs, triVerts tris verts idx = .ok vs) ∧
    Built cfg tris verts
      (l.filter (goesLeft tris verts (getLongestBoundingBoxSide b.min b.max)
        (splitBounds b (getLongestBoundingBoxSide b.min b.max)).1))
      (splitBounds b (getLongestBoundingBoxSide b.min b.max)).2.1 nd.left ∧
    Built cfg tris verts
      (l.filter (goesRight tris verts (getLongestBoundingBoxSide b.min b.max)
        (splitBounds b (getLongestBoundingBoxSide b.min b.max)).1))
      (splitBounds b (getLongestBoundingBoxSide b.min b.max)).2.2 nd.right := by
  cases hB with
  | leaf _ _ bbox hK hb => simp [KDTreeNode.isLeaf, KDTreeNode.isNull] at hleaf
  | split _ _ bbox left right hK hb hv hL hR => exact ⟨hK, hv, hL, hR⟩

theorem min3_max3_strict_side {a b c m : Flt} (ha : a.isFinite = true) (hb : b.isFinite = true)
    (hc : c.isFinite = true) :
    (Flt.lt (max3 a b c) m = true →
      Flt.lt (min3 a b c) m = true ∧ Flt.ge (max3 a b c) m = false) ∧
    (Flt.gt (min3 a b c) m = true →
      Flt.ge (max3 a b c) m = true ∧ Flt.lt (min3 a b c) m = false) := by
  have hle := Flt.le_trans (min3_le ha hb hc).1 (le_max3 ha hb hc).1
  have flo : (min3 a b c).isFinite = true := by
    rcases min3_mem a b c with h | h | h <;> rw [h] <;> assumption
  have fhi : (max3 a b c).isFinite = true := by
    rcases max3_mem a b c with h | h | h <;> rw [h] <;> assumption
  obtain ⟨x, hx⟩ := (Flt.isFinite_iff_fin _).mp flo
  obtain ⟨y, hy⟩ := (Flt.isFinite_iff_fin _).mp fhi
  rw [hx, hy] at hle ⊢
  simp only [Flt.le, Flt.ge, decide_eq_true_eq] at hle
  cases m with
  | fin q =>
    simp only [Flt.lt, Flt.gt, Flt.ge, decide_eq_true_eq, decide_eq_false_iff_not]
    constructor <;> intro h <;> constructor <;> linarith
  | pinf => simp [Flt.lt, Flt.gt, Flt.ge]
  | ninf => simp [Flt.lt, Flt.gt, Flt.ge]
  | nan => simp [Flt.lt, Flt.gt, Flt.ge]

/-- C15: at every internal node of the tree the constructor builds, with `b`
the bounds passed to the call that built the node, `axis` the longest side of
`b` and `m` the median value: the left child's index list is the node's list
filtered (order preserved) to the triangles whose projected minimum is `< m`,
the right child's list is the node's list filtered to the triangles whose
projected maximum is `>= m`; so a triangle of the node is in both children
iff `min < m <= max`, and (vertex coordinates finite) a triangle strictly on
one side of the split plane is in exactly one child. -/
theorem partition_at_internal_nodes {cfg : Config} {fuel : Nat} {tris verts : List vec3}
    {k : KDTreeCPU} (hk : KDTreeCPU.new cfg fuel tris verts = .ok k) :
    ∀ p ∈ k.root.withBounds (computeTightFittingBoundingBox verts), p.1.isLeaf = false →
      p.1.left.tri_indices = p.1.tri_indices.filter
        (goesLeft tris verts (getLongestBoundingBoxSide p.2.min p.2.max)
          (splitBounds p.2 (getLongestBoundingBoxSide p.2.min p.2.max)).1) ∧
      p.1.right.tri_indices = p.1.tri_indices.filter
        (goesRight tris verts (getLongestBoundingBoxSide p.2.min p.2.max)
          (splitBounds p.2 (getLongestBoundingBoxSide p.2.min p.2.max)).1) ∧
      ∀ idx ∈ p.1.tri_indices, ∃ a c,
        getMinTriValue tris verts idx (getLongestBoundingBoxSide p.2.min p.2.max) = .ok a ∧
        getMaxTriValue tris verts idx (getLongestBoundingBoxSide p.2.min p.2.max) = .ok c ∧
        (idx ∈ p.1.left.tri_indices ↔
          Flt.lt a (splitBounds p.2 (getLongestBoundingBoxSide p.2.min p.2.max)).1 = true) ∧
        (idx ∈ p.1.right.tri_indices ↔
          Flt.ge c (splitBounds p.2 (getLongestBoundingBoxSide p.2.min p.2.max)).1 = true) ∧
        ((idx ∈ p.1.left.tri_indices ∧ idx ∈ p.1.right.tri_indices) ↔
          (Flt.lt a (splitBounds p.2 (getLongestBoundingBoxSide p.2.min p.2.max)).1 = true ∧
            Flt.ge c (splitBounds p.2 (getLongestBoundingBoxSide p.2.min p.2.max)).1
              = true)) ∧
        ((∀ v ∈ verts, v.isFinite = true) →
          (Flt.lt c (splitBounds p.2 (getLongestBoundingBoxSide p.2.min p.2.max)).1 = true →
            idx ∈ p.1.left.tri_indices ∧ idx ∉ p.1.right.tri_indices) ∧
          (Flt.gt a (splitBounds p.2 (getLongestBoundingBoxSide p.2.min p.2.max)).1 = true →
            idx ∈ p.1.right.tri_indices ∧ idx ∉ p.1.left.tri_indices)) := by
  intro p hp hleaf
  have hB := built_withBounds (built_of_new hk) p hp
  obtain ⟨_, hv, hL, hR⟩ := built_internal_inv hB hleaf
  have hl := (built_tri_indices hL).1
  have hr := (built_tri_indices hR).1
  refine ⟨hl, hr, ?_⟩
  intro idx hidx
  obtain ⟨⟨v0, v1, v2⟩, hvs⟩ := hv idx hidx
  have hmin := getMinTriValue_eq hvs (getLongestBoundingBoxSide p.2.min p.2.max)
  have hmax := getMaxTriValue_eq hvs (getLongestBoundingBoxSide p.2.min p.2.max)
  have hinL : idx ∈ p.1.left.tri_indices ↔
      Flt.lt (min3 (v0.along (getLongestBoundingBoxSide p.2.min p.2.max))
        (v1.along (getLongestBoundingBoxSide p.2.min p.2.max))
        (v2.along (getLongestBoundingBoxSide p.2.min p.2.max)))
        (splitBounds p.2 (getLongestBoundingBoxSide p.2.min p.2.max)).1 = true := by
    rw [hl, List.mem_filter]
    simp only [goesLeft, hmin, hidx, true_and]
  have hinR : idx ∈ p.1.right.tri_indices ↔
      Flt.ge (max3 (v0.along (getLongestBoundingBoxSide p.2.min p.2.max))
        (v1.along (getLongestBoundingBoxSide p.2.min p.2.max))
        (v2.along (getLongestBoundingBoxSide p.2.min p.2.max)))
        (splitBounds p.2 (getLongestBoundingBoxSide p.2.min p.2.max)).1 = true := by
    rw [hr, List.mem_filter]
    simp only [goesRight, hmax, hidx, true_and]
  refine ⟨_, _, hmin, hmax, hinL, hinR, by rw [hinL, hinR], ?_⟩
  intro hfin
  obtain ⟨m0, m1, m2⟩ := triVerts_mem hvs
  obtain ⟨s1, s2⟩ := @min3_max3_strict_side
    (v0.along (getLongestBoundingBoxSide p.2.min p.2.max))
    (v1.along (getLongestBoundingBoxSide p.2.min p.2.max))
    (v2.along (getLongestBoundingBoxSide p.2.min p.2.max))
    (splitBounds p.2 (getLongestBoundingBoxSide p.2.min p.2.max)).1
    (vec3.along_isFinite (hfin _ m0) _) (vec3.along_isFinite (hfin _ m1) _)
    (vec3.along_isFinite (hfin _ m2) _)
  constructor
  · intro h
    obtain ⟨h1, h2⟩ := s1 h
    exact ⟨hinL.mpr h1, fun hcon => by rw [hinR.mp hcon] at h2; exact absurd h2 (by simp)⟩
  · intro h
    obtain ⟨h1, h2⟩ := s2 h
    exact ⟨hinR.mpr h1, fun hcon => by rw [hinL.mp hcon] at h2; exact absurd h2 (by simp)⟩

/-- Witness for C15: the build of the example mesh; at each of its internal
nodes the children hold the two filtered lists. -/
theorem partition_at_internal_nodes_witness :
    ∃ k, KDTreeCPU.new exampleConfig 10 exampleTris exampleVerts = .ok k ∧
      k.root.left.tri_indices = [0, 1] ∧ k.root.right.tri_indices = [2] ∧
      ∀ p ∈ k.root.withBounds (computeTightFittingBoundingBox exampleVerts),
        p.1.isLeaf = false →
        p.1.left.tri_indices = p.1.tri_indices.filter
          (goesLeft exampleTris exampleVerts (getLongestBoundingBoxSide p.2.min p.2.max)
            (splitBounds p.2 (getLongestBoundingBoxSide p.2.min p.2.max)).1) ∧
        p.1.right.tri_indices = p.1.tri_indices.filter
          (goesRight exampleTris exampleVerts (getLongestBoundingBoxSide p.2.min p.2.max)
            (splitBounds p.2 (getLongestBoundingBoxSide p.2.min p.2.max)).1) := by
  have hb : (match KDTreeCPU.new exampleConfig 10 exampleTris exampleVerts with
      | .ok k => decide (k.root.left.tri_indices = [0, 1] ∧ k.root.right.tri_indices = [2])
      | .error _ => false) = true := by
    decide!
  cases hr : KDTreeCPU.new exampleConfig 10 exampleTris exampleVerts with
  | error e => rw [hr] at hb; exact absurd hb (by simp)
  | ok k =>
    rw [hr] at hb
    simp only [decide_eq_true_eq] at hb
    refine ⟨k, rfl, hb.1, hb.2, fun p hp hleaf => ?_⟩
    obtain ⟨h1, h2, _⟩ := partition_at_internal_nodes hr p hp hleaf
    exact ⟨h1, h2⟩

/-! ## The visit of a leaf -/

theorem leafStep_t (s r : Bool × Flt × vec3) :
    (leafStep s r).2.1 = if r.1 then closer s.2.1 r.2.1 else s.2.1 := by
  unfold leafStep closer
  split_ifs <;> rfl

theorem leafFold_t {I : Intersections} {tris verts : List vec3} {o d : vec3} :
    ∀ (l : List Int) (s s1 : Bool × Flt × vec3),
      l.foldlM (leafVisit I tris verts o d) s = .ok s1 →
      s1.2.1 = (leafHitDistances I tris verts o d l).foldl closer s.2.1 := by
  intro l
  induction l with
  | nil =>
    intro s s1 h
    have hs : s = s1 := Except.ok.inj h
    rw [← hs]; rfl
  | cons x xs ih =>
    intro s s1 h
    rw [List.foldlM_cons, bind_ok_iff] at h
    obtain ⟨s0, hs0, h⟩ := h
    obtain ⟨r, hr, rfl⟩ := leafVisit_ok_iff.mp hs0
    rw [ih _ s1 h, leafStep_t]
    simp only [leafHitDistances, List.filterMap_cons, hr]
    by_cases hhit : r.1 = true
    · simp only [hhit, if_true, List.foldl_cons]
    · simp only [hhit, Bool.false_eq_true, if_false]

/-- C16: for every leaf (valid triangle indices, count equal to the length of
the index list) whose bounding box the ray hits, the recursive `intersect`
returns; it returns true iff the triangle primitive reports a hit for at least
one triangle of the leaf's list, whether or not a hit improved `t`; on return
`t` is the minimum of the incoming `t` and the leaf's hit distances; `t` and
`normal` are as they came in or are those of a hit strictly closer than the
incoming `t`; and they are unchanged when no hit is strictly closer. -/
theorem leaf_intersect_spec (I : Intersections) (tris verts : List vec3)
    (ray_o ray_dir : vec3) (bbox : boundingBox) (l : List Int) (t : Flt) (normal : vec3)
    (hbox : I.aabbIntersect bbox ray_o ray_dir = true)
    (hv : ∀ idx ∈ l, ∃ vs, triVerts tris verts idx = .ok vs) :
    ∃ s1, intersectNode I tris verts ray_o ray_dir (.node bbox l.length l .null .null)
        t normal = .ok s1 ∧
      (s1.1 = true ↔
        ∃ idx ∈ l, ∃ r, triTest I tris verts ray_o ray_dir idx = .ok r ∧ r.1 = true) ∧
      s1.2.1 = (leafHitDistances I tris verts ray_o ray_dir l).foldl closer t ∧
      (s1.2 = (t, normal) ∨
        ∃ idx ∈ l, ∃ r, triTest I tris verts ray_o ray_dir idx = .ok r ∧ r.1 = true ∧
          s1.2 = r.2 ∧ Flt.lt r.2.1 t = true) ∧
      ((∀ idx ∈ l, ∀ r, triTest I tris verts ray_o ray_dir idx = .ok r → r.1 = true →
          Flt.lt r.2.1 t = false) → s1.2 = (t, normal)) := by
  rw [intersectNode_leaf, if_pos hbox]
  obtain ⟨s1, hs1⟩ := @leafFold_ok I tris verts ray_o ray_dir l (false, t, normal) hv
  obtain ⟨d1, _, d3⟩ := leafFold_spec l _ s1 hs1
  refine ⟨s1, hs1, ?_, leafFold_t l _ s1 hs1, d3, ?_⟩
  · rw [d1, Bool.false_or]
    exact anyHit_iff
  · intro hno
    rcases d3 with h | ⟨idx, hidx, r, hr, hhit, _, hlt⟩
    · exact h
    · rw [hno idx hidx r hr hhit] at hlt
      exact absurd hlt (by simp)

/-- Witness for C16: the leaf holding triangle 0 of the example mesh, the
example ray and primitives, a box holding the hit point; from `t = 7` the
visit returns `(true, 5, (0,0,1))`. -/
theorem leaf_intersect_spec_witness :
    intersectNode examplePrimitives exampleTris exampleVerts exampleOrigin exampleDir
      (.node (computeTightFittingBoundingBox exampleVerts) 1 [0] .null .null)
      (.fin 7) (vec3.ofRat 8 8 8) = .ok (true, .fin 5, vec3.ofRat 0 0 1) ∧
    ∃ s1, intersectNode examplePrimitives exampleTris exampleVerts exampleOrigin exampleDir
        (.node (computeTightFittingBoundingBox exampleVerts) 1 [0] .null .null)
        (.fin 7) (vec3.ofRat 8 8 8) = .ok s1 ∧
      s1.2.1 = (leafHitDistances examplePrimitives exampleTris exampleVerts exampleOrigin
        exampleDir [0]).foldl closer (.fin 7) := by
  refine ⟨by decide!, ?_⟩
  obtain ⟨s1, h1, _, h3, _⟩ := leaf_intersect_spec examplePrimitives exampleTris exampleVerts
    exampleOrigin exampleDir (computeTightFittingBoundingBox exampleVerts) [0] (.fin 7)
    (vec3.ofRat 8 8 8) (by decide!)
    (by
      intro idx hidx
      have h0 : idx = 0 := by simpa using hidx
      subst h0
      exact ⟨(vec3.ofRat 0 0 0, vec3.ofRat 1 0 0, vec3.ofRat 0 1 0), by decide!⟩)
  exact ⟨s1, h1, h3⟩

/-! ## The bounds of the children -/

theorem splitBounds_spec (b : boundingBox) (axis : SplitAxis) :
    (splitBounds b axis).1 =
      Flt.add (b.min.along axis) (Flt.div2 (Flt.sub (b.max.along axis) (b.min.along axis))) ∧
    (splitBounds b axis).2.1.min = b.min ∧
    (splitBounds b axis).2.1.max.along axis = (splitBounds b axis).1 ∧
    (∀ ax : SplitAxis, ax ≠ axis →
      (splitBounds b axis).2.1.max.along ax = b.max.along ax) ∧
    (splitBounds b axis).2.2.max = b.max ∧
    (splitBounds b axis).2.2.min.along axis = (splitBounds b axis).1 ∧
    (∀ ax : SplitAxis, ax ≠ axis →
      (splitBounds b axis).2.2.min.along ax = b.min.along ax) := by
  cases axis <;>
    refine ⟨rfl, rfl, rfl, fun ax hax => ?_, rfl, rfl, fun ax hax => ?_⟩ <;>
    cases ax <;> first | rfl | exact absurd rfl hax

theorem construct_bbox_loose {cfg : Config} {tris verts : List vec3} {fuel n : Nat}
    {l : List Int} {b : boundingBox} {d : Nat} {st st2 : Stats} {nd : KDTreeNode}
    (hloose : cfg.USE_TIGHT_FITTING_BOUNDING_BOXES = false)
    (h : constructTreeMedianSpaceSplit cfg tris verts fuel n l b d st = .ok (nd, st2)) :
    nd.bbox = b := by
  cases fuel with
  | zero => simp [constructTreeMedianSpaceSplit] at h
  | succ fuel =>
    obtain ⟨bbox, hb, ⟨_, rfl, _⟩ | ⟨_, p, L, R, left, right, st1, _, _, _, _, rfl⟩⟩ :=
      construct_succ_inv h <;> exact nodeBoundingBox_loose hloose hb

/-- C17: at every split in `constructTreeMedianSpaceSplit` (a successful call
with more than `NUM_TRIS_PER_NODE` triangles), with `axis` the longest side of
the passed-in bounds: the median value is `min + (max - min)/2` of the bounds
along `axis`; the left child is built from the bounds with only `max[axis]`
replaced by the median, the right child from the bounds with only `min[axis]`
replaced by the median, the other five components of each child box being
those of the parent; both children are built with depth `curr_depth + 1`; and
with loose boxes these bounds are the boxes stored in the children. -/
theorem split_child_bounds {cfg : Config} {tris verts : List vec3} {fuel n : Nat}
    {l : List Int} {b : boundingBox} {d : Nat} {st st2 : Stats} {nd : KDTreeNode}
    (h : constructTreeMedianSpaceSplit cfg tris verts (fuel + 1) n l b d st = .ok (nd, st2))
    (hK : cfg.NUM_TRIS_PER_NODE < n) :
    ∃ (m : Flt) (lb rb : boundingBox) (nL nR : Nat) (L R : List Int) (st1 : Stats),
      m = Flt.add (b.min.along (getLongestBoundingBoxSide b.min b.max))
        (Flt.div2 (Flt.sub (b.max.along (getLongestBoundingBoxSide b.min b.max))
          (b.min.along (getLongestBoundingBoxSide b.min b.max)))) ∧
      lb.min = b.min ∧
      lb.max.along (getLongestBoundingBoxSide b.min b.max) = m ∧
      (∀ ax : SplitAxis, ax ≠ getLongestBoundingBoxSide b.min b.max →
        lb.max.along ax = b.max.along ax) ∧
      rb.max = b.max ∧
      rb.min.along (getLongestBoundingBoxSide b.min b.max) = m ∧
      (∀ ax : SplitAxis, ax ≠ getLongestBoundingBoxSide b.min b.max →
        rb.min.along ax = b.min.along ax) ∧
      constructTreeMedianSpaceSplit cfg tris verts fuel nL L lb (d + 1) st
        = .ok (nd.left, st1) ∧
      constructTreeMedianSpaceSplit cfg tris verts fuel nR R rb (d + 1) st1
        = .ok (nd.right, st2) ∧
      (cfg.USE_TIGHT_FITTING_BOUNDING_BOXES = false →
        nd.bbox = b ∧ nd.left.bbox = lb ∧ nd.right.bbox = rb) := by
  obtain ⟨bbox, hb, ⟨hle, _, _⟩ | ⟨_, p, L, R, left, right, st1, _, _, hl, hr, rfl⟩⟩ :=
    construct_succ_inv h
  · omega
  · obtain ⟨s1, s2, s3, s4, s5, s6, s7⟩ :=
      splitBounds_spec b (getLongestBoundingBoxSide b.min b.max)
    refine ⟨(splitBounds b (getLongestBoundingBoxSide b.min b.max)).1,
      (splitBounds b (getLongestBoundingBoxSide b.min b.max)).2.1,
      (splitBounds b (getLongestBoundingBoxSide b.min b.max)).2.2,
      p.left_tri_count, p.right_tri_count, L, R, st1, s1, s2, s3, s4, s5, s6, s7, hl, hr, ?_⟩
    intro hloose
    exact ⟨nodeBoundingBox_loose hloose hb, construct_bbox_loose hloose hl,
      construct_bbox_loose hloose hr⟩

/-- Witness for C17: the root call of the build of the example mesh, bounds
(0,0,0) to (10,4,0): the split is along X at the median 5. -/
theorem split_child_bounds_witness :
    ∃ nd st2, constructTreeMedianSpaceSplit exampleConfig exampleTris exampleVerts (9 + 1) 3
        [0, 1, 2] (computeTightFittingBoundingBox exampleVerts) 1 ⟨0, 0⟩ = .ok (nd, st2) ∧
      nd.left.bbox = ⟨vec3.ofRat 0 0 0, vec3.ofRat 5 4 0⟩ ∧
      nd.right.bbox = ⟨vec3.ofRat 5 0 0, vec3.ofRat 10 4 0⟩ ∧
      ∃ (lb rb : boundingBox), nd.left.bbox = lb ∧ nd.right.bbox = rb ∧
        lb.min = (computeTightFittingBoundingBox exampleVerts).min ∧
        rb.max = (computeTightFittingBoundingBox exampleVerts).max := by
  have hb : (match constructTreeMedianSpaceSplit exampleConfig exampleTris exampleVerts
      (9 + 1) 3 [0, 1, 2] (computeTightFittingBoundingBox exampleVerts) 1 ⟨0, 0⟩ with
      | .ok r => decide (r.1.left.bbox = ⟨vec3.ofRat 0 0 0, vec3.ofRat 5 4 0⟩ ∧
          r.1.right.bbox = ⟨vec3.ofRat 5 0 0, vec3.ofRat 10 4 0⟩)
      | .error _ => false) = true := by
    decide!
  cases hr : constructTreeMedianSpaceSplit exampleConfig exampleTris exampleVerts
      (9 + 1) 3 [0, 1, 2] (computeTightFittingBoundingBox exampleVerts) 1 ⟨0, 0⟩ with
  | error e => rw [hr] at hb; exact absurd hb (by simp)
  | ok r =>
    rw [hr] at hb
    simp only [decide_eq_true_eq] at hb
    obtain ⟨nd, st2⟩ := r
    obtain ⟨m, lb, rb, nL, nR, L, R, st1, _, h2, _, _, h5, _, _, _, _, hl⟩ :=
      split_child_bounds hr (by decide)
    obtain ⟨_, hl1, hl2⟩ := hl rfl
    exact ⟨nd, st2, rfl, hb.1, hb.2, lb, rb, hl1, hl2, h2, h5⟩

/-! ## Index lists stay in range -/

theorem built_nodes_sublist {cfg : Config} {tris verts : List vec3} {l : List Int}
    {b : boundingBox} {nd : KDTreeNode} (hB : Built cfg tris verts l b nd) :
    ∀ x ∈ nd.nodes, x.num_tris = x.tri_indices.length ∧ ∀ idx ∈ x.tri_indices, idx ∈ l := by
  induction hB with
  | leaf l b bbox hK hb =>
    intro x hx
    simp only [KDTreeNode.nodes, List.append_nil, List.mem_singleton] at hx
    subst hx
    exact ⟨rfl, fun idx hidx => hidx⟩
  | split l b bbox left right hK hb hv hL hR ihL ihR =>
    intro x hx
    simp only [KDTreeNode.nodes, List.mem_cons, List.mem_append] at hx
    rcases hx with rfl | hx | hx
    · exact ⟨rfl, fun idx hidx => hidx⟩
    · exact ⟨(ihL x hx).1, fun idx hidx => List.mem_of_mem_filter ((ihL x hx).2 idx hidx)⟩
    · exact ⟨(ihR x hx).1, fun idx hidx => List.mem_of_mem_filter ((ihR x hx).2 idx hidx)⟩

/-- The traversal of a built tree whose indices are valid triangle indices
returns without fault, for every ray, primitives and incoming values. -/
theorem built_intersect_ok {cfg : Config} {tris verts : List vec3} (I : Intersections)
    (o d : vec3) {l : List Int} {b : boundingBox} {nd : KDTreeNode}
    (hB : Built cfg tris verts l b nd) :
    (∀ idx ∈ l, ∃ vs, triVerts tris verts idx = .ok vs) →
    ∀ (t : Flt) (nrm : vec3), ∃ s, intersectNode I tris verts o d nd t nrm = .ok s := by
  induction hB with
  | leaf l b bbox hK hb =>
    intro hv t nrm
    rw [intersectNode_leaf]
    by_cases hbox : I.aabbIntersect bbox o d = true
    · rw [if_pos hbox]
      exact @leafFold_ok I tris verts o d l (false, t, nrm) hv
    · rw [if_neg hbox]
      exact ⟨_, rfl⟩
  | split l b bbox left right hK hb hv0 hL hR ihL ihR =>
    intro hv t nrm
    rw [intersectNode_internal _ _ _ _ _ _ _ _ _ _ _ _ (built_tri_indices hL).2.2
      (built_tri_indices hR).2.2]
    by_cases hbox : I.aabbIntersect bbox o d = true
    · rw [if_pos hbox]
      obtain ⟨sL, hsL⟩ := ihL (fun idx hidx => hv idx (List.mem_of_mem_filter hidx)) t nrm
      obtain ⟨sR, hsR⟩ := ihR (fun idx hidx => hv idx (List.mem_of_mem_filter hidx))
        sL.2.1 sL.2.2
      exact ⟨_, by rw [hsL, ok_bind, hsR, ok_bind]⟩
    · rw [if_neg hbox]
      exact ⟨_, rfl⟩

/-- C19: for a mesh with `n` triangles, in the tree the constructor builds the
root list is `0, ..., n-1`, and every node has a count equal to the length of
its index list (the compaction wrote exactly `left_tri_count` and
`right_tri_count` entries) and holds only indices in `[0, n)`: none is the
sentinel `-1` and every read `tris[...]` is in bounds; on a well-formed mesh
the traversal then returns without an out-of-bounds read. -/
theorem indices_in_range {cfg : Config} {fuel : Nat} {tris verts : List vec3}
    {k : KDTreeCPU} (hk : KDTreeCPU.new cfg fuel tris verts = .ok k) :
    k.root.tri_indices = rootIndices tris.length ∧
    (∀ nd ∈ k.root.nodes, nd.num_tris = nd.tri_indices.length ∧
      ∀ idx ∈ nd.tri_indices, 0 ≤ idx ∧ idx < (tris.length : Int) ∧ idx ≠ -1 ∧
        ∃ tri, readAt tris idx = .ok tri) ∧
    (wellFormedMesh tris verts = true →
      ∀ (I : Intersections) (ray_o ray_dir hit_point normal : vec3),
        ∃ r, KDTreeCPU.intersect I k ray_o ray_dir hit_point normal = .ok r) := by
  have hB := built_of_new hk
  refine ⟨(built_tri_indices hB).1, ?_, ?_⟩
  · intro nd hnd
    obtain ⟨h1, h2⟩ := built_nodes_sublist hB nd hnd
    refine ⟨h1, fun idx hidx => ?_⟩
    obtain ⟨i, hi, rfl⟩ := mem_rootIndices.mp (h2 idx hidx)
    refine ⟨Int.ofNat_nonneg i, by exact_mod_cast hi, by omega, _, readAt_natCast tris i hi⟩
  · intro hwf I o d hp nrm
    obtain ⟨st, _, htris, hverts, _⟩ := new_ok_inv hk
    have hv : ∀ idx ∈ rootIndices tris.length, ∃ vs, triVerts tris verts idx = .ok vs := by
      intro idx hidx
      obtain ⟨i, hi, rfl⟩ := mem_rootIndices.mp hidx
      exact wellFormedMesh_triVerts hwf i hi
    obtain ⟨s, hs⟩ := built_intersect_ok I o d hB hv .pinf nrm
    unfold KDTreeCPU.intersect
    dsimp only
    rw [htris, hverts, hs]
    obtain ⟨flag, t, n⟩ := s
    cases flag <;> exact ⟨_, rfl⟩

/-- Witness for C19: the build of the example mesh (3 triangles). -/
theorem indices_in_range_witness :
    ∃ k, KDTreeCPU.new exampleConfig 10 exampleTris exampleVerts = .ok k ∧
      k.root.tri_indices = [0, 1, 2] ∧
      ∀ nd ∈ k.root.nodes, nd.num_tris = nd.tri_indices.length ∧
        ∀ idx ∈ nd.tri_indices, 0 ≤ idx ∧ idx < (exampleTris.length : Int) ∧ idx ≠ -1 ∧
          ∃ tri, readAt exampleTris idx = .ok tri := by
  have hok : (KDTreeCPU.new exampleConfig 10 exampleTris exampleVerts).toBool = true := by
    decide!
  cases hr : KDTreeCPU.new exampleConfig 10 exampleTris exampleVerts with
  | error e => rw [hr] at hok; exact absurd hok (by simp [Except.toBool])
  | ok k =>
    obtain ⟨h1, h2, _⟩ := indices_in_range hr
    exact ⟨k, rfl, by rw [h1]; decide, h2⟩

/-! ## Bounds of the nodes -/

theorem triOverlapsBox_iff {tris verts : List vec3} {idx : Int} {b : boundingBox} :
    triOverlapsBox tris verts idx b = true ↔ ∀ axis : SplitAxis, ∃ a c,
      getMinTriValue tris verts idx axis = .ok a ∧
      getMaxTriValue tris verts idx axis = .ok c ∧
      Flt.le a (b.max.along axis) = true ∧ Flt.ge c (b.min.along axis) = true := by
  have key : ∀ axis : SplitAxis,
      ((match getMinTriValue tris verts idx axis, getMaxTriValue tris verts idx axis with
        | .ok a, .ok c => Flt.le a (b.max.along axis) && Flt.ge c (b.min.along axis)
        | _, _ => false) = true) ↔
      ∃ a c, getMinTriValue tris verts idx axis = .ok a ∧
        getMaxTriValue tris verts idx axis = .ok c ∧
        Flt.le a (b.max.along axis) = true ∧ Flt.ge c (b.min.along axis) = true := by
    intro axis
    cases h1 : getMinTriValue tris verts idx axis with
    | error e => simp
    | ok a =>
      cases h2 : getMaxTriValue tris verts idx axis with
      | error e => simp
      | ok c => simp
  simp only [triOverlapsBox, List.all_cons, List.all_nil, Bool.and_true, Bool.and_eq_true, key]
  constructor
  · rintro ⟨h1, h2, h3⟩ axis
    cases axis
    · exact h1
    · exact h2
    · exact h3
  · intro h
    exact ⟨h .X_AXIS, h .Y_AXIS, h .Z_AXIS⟩

theorem splitBounds_sub {b : boundingBox} (hbf : b.isFinite = true)
    (hle : vec3.le b.min b.max = true) (axis : SplitAxis) :
    vec3.le (splitBounds b axis).2.1.min (splitBounds b axis).2.1.max = true ∧
    vec3.le (splitBounds b axis).2.2.min (splitBounds b axis).2.2.max = true ∧
    b.contains (splitBounds b axis).2.1.min = true ∧
    b.contains (splitBounds b axis).2.1.max = true ∧
    b.contains (splitBounds b axis).2.2.min = true ∧
    b.contains (splitBounds b axis).2.2.max = true := by
  obtain ⟨bmin, bmax⟩ := b
  simp only [boundingBox.isFinite, Bool.and_eq_true] at hbf
  obtain ⟨a0, b0, c0, rfl⟩ := (vec3.isFinite_iff_ofRat bmin).mp hbf.1
  obtain ⟨a1, b1, c1, rfl⟩ := (vec3.isFinite_iff_ofRat bmax).mp hbf.2
  simp only [vec3.le, vec3.ofRat, Flt.le, Flt.ge, Bool.and_eq_true, decide_eq_true_eq] at hle
  obtain ⟨⟨h1, h2⟩, h3⟩ := hle
  cases axis <;>
    simp only [splitBounds, boundingBox.contains, vec3.le, vec3.ofRat, Flt.le, Flt.ge, Flt.add,
      Flt.sub, Flt.neg, Flt.div2, Bool.and_eq_true, decide_eq_true_eq] <;>
    refine ⟨⟨⟨?_, ?_⟩, ?_⟩, ⟨⟨?_, ?_⟩, ?_⟩, ⟨⟨⟨?_, ?_⟩, ?_⟩, ⟨?_, ?_⟩, ?_⟩,
      ⟨⟨⟨?_, ?_⟩, ?_⟩, ⟨?_, ?_⟩, ?_⟩, ⟨⟨⟨?_, ?_⟩, ?_⟩, ⟨?_, ?_⟩, ?_⟩,
      ⟨⟨⟨?_, ?_⟩, ?_⟩, ⟨?_, ?_⟩, ?_⟩⟩ <;>
    linarith

theorem overlap_left {tris verts : List vec3} {idx : Int} {b : boundingBox} {axis : SplitAxis}
    (ho : triOverlapsBox tris verts idx b = true)
    (hg : goesLeft tris verts axis (splitBounds b axis).1 idx = true) :
    triOverlapsBox tris verts idx (splitBounds b axis).2.1 = true := by
  rw [triOverlapsBox_iff] at ho ⊢
  obtain ⟨_, s2, s3, s4, _, _, _⟩ := splitBounds_spec b axis
  intro ax
  obtain ⟨a, c, ha, hc, h1, h2⟩ := ho ax
  refine ⟨a, c, ha, hc, ?_, by rw [s2]; exact h2⟩
  by_cases hax : ax = axis
  · subst hax
    rw [s3]
    simp only [goesLeft, ha] at hg
    exact Flt.le_of_lt hg
  · rw [s4 ax hax]; exact h1

theorem overlap_right {tris verts : List vec3} {idx : Int} {b : boundingBox}
    {axis : SplitAxis} (ho : triOverlapsBox tris verts idx b = true)
    (hg : goesRight tris verts axis (splitBounds b axis).1 idx = true) :
    triOverlapsBox tris verts idx (splitBounds b axis).2.2 = true := by
  rw [triOverlapsBox_iff] at ho ⊢
  obtain ⟨_, _, _, _, s5, s6, s7⟩ := splitBounds_spec b axis
  intro ax
  obtain ⟨a, c, ha, hc, h1, h2⟩ := ho ax
  refine ⟨a, c, ha, hc, by rw [s5]; exact h1, ?_⟩
  by_cases hax : ax = axis
  · subst hax
    rw [s6]
    simp only [goesRight, hc] at hg
    exact hg
  · rw [s7 ax hax]; exact h2

/-- With loose boxes, from finite bounds with `min <= max` that every listed
triangle overlaps: every node of the built tree has a finite box with
`min <= max`, an internal node's box contains the corners of its children's
boxes, and every triangle of a node's list overlaps the node's box. -/
theorem built_bounds_spec {cfg : Config} {tris verts : List vec3}
    (hloose : cfg.USE_TIGHT_FITTING_BOUNDING_BOXES = false)
    {l : List Int} {b : boundingBox} {nd : KDTreeNode} (hB : Built cfg tris verts l b nd) :
    b.isFinite = true → vec3.le b.min b.max = true →
    (∀ idx ∈ l, triOverlapsBox tris verts idx b = true) →
    ∀ x ∈ nd.nodes,
      vec3.le x.bbox.min x.bbox.max = true ∧
      (x.isLeaf = false →
        x.bbox.contains x.left.bbox.min = true ∧ x.bbox.contains x.left.bbox.max = true ∧
        x.bbox.contains x.right.bbox.min = true ∧ x.bbox.contains x.right.bbox.max = true) ∧
      (∀ idx ∈ x.tri_indices, triOverlapsBox tris verts idx x.bbox = true) := by
  induction hB with
  | leaf l b bbox hK hb =>
    intro _ hle ho x hx
    simp only [KDTreeNode.nodes, List.append_nil, List.mem_singleton] at hx
    subst hx
    have hbb := nodeBoundingBox_loose hloose hb
    subst hbb
    refine ⟨hle, fun hleaf => ?_, ho⟩
    simp [KDTreeNode.isLeaf, KDTreeNode.isNull] at hleaf
  | split l b bbox left right hK hb hv hL hR ihL ihR =>
    intro hbf hle ho x hx
    have hbb := nodeBoundingBox_loose hloose hb
    subst hbb
    obtain ⟨_, hlf, hrf⟩ := splitBounds_isFinite hbf
      (getLongestBoundingBoxSide bbox.min bbox.max)
    obtain ⟨u1, u2, u3, u4, u5, u6⟩ := splitBounds_sub hbf hle
      (getLongestBoundingBoxSide bbox.min bbox.max)
    simp only [KDTreeNode.nodes, List.mem_cons, List.mem_append] at hx
    rcases hx with rfl | hx | hx
    · refine ⟨hle, fun _ => ?_, ho⟩
      show bbox.contains left.bbox.min = true ∧ bbox.contains left.bbox.max = true ∧
        bbox.contains right.bbox.min = true ∧ bbox.contains right.bbox.max = true
      rw [built_bbox_loose hloose hL, built_bbox_loose hloose hR]
      exact ⟨u3, u4, u5, u6⟩
    · exact ihL hlf u1 (fun idx hidx =>
        overlap_left (ho idx (List.mem_of_mem_filter hidx)) (List.mem_filter.mp hidx).2) x hx
    · exact ihR hrf u2 (fun idx hidx =>
        overlap_right (ho idx (List.mem_of_mem_filter hidx)) (List.mem_filter.mp hidx).2) x hx

/-- Every triangle of a mesh with finite vertices overlaps every box that
contains the vertices of the mesh. -/
theorem triOverlapsBox_of_contains {tris verts : List vec3} {idx : Int} {b : boundingBox}
    {vs : vec3 × vec3 × vec3} (hvs : triVerts tris verts idx = .ok vs)
    (hb : ∀ v ∈ verts, b.contains v = true) :
    triOverlapsBox tris verts idx b = true := by
  obtain ⟨v0, v1, v2⟩ := vs
  obtain ⟨m0, m1, m2⟩ := triVerts_mem hvs
  rw [triOverlapsBox_iff]
  intro axis
  have c0 := (contains_iff_along b v0).mp (hb v0 m0) axis
  have c1 := (contains_iff_along b v1).mp (hb v1 m1) axis
  have c2 := (contains_iff_along b v2).mp (hb v2 m2) axis
  refine ⟨_, _, getMinTriValue_eq hvs axis, getMaxTriValue_eq hvs axis, ?_, ?_⟩
  · rcases min3_mem (v0.along axis) (v1.along axis) (v2.along axis) with h | h | h <;> rw [h]
    · exact c0.2
    · exact c1.2
    · exact c2.2
  · rcases max3_mem (v0.along axis) (v1.along axis) (v2.along axis) with h | h | h <;> rw [h]
    · exact c0.1
    · exact c1.1
    · exact c2.1

/-- C20 (as stated) fails: the empty mesh is well formed, its build with loose
boxes succeeds, and the box of the root node, the only node, is the sentinel
box, for which `min <= max` does not hold. -/
theorem empty_mesh_root_box_inverted :
    wellFormedMesh [] [] = true ∧
    exampleConfig.USE_TIGHT_FITTING_BOUNDING_BOXES = false ∧
    ∃ k, KDTreeCPU.new exampleConfig 1 [] [] = .ok k ∧ k.root ∈ k.root.nodes ∧
      k.root.bbox = sentinelBox ∧ vec3.le k.root.bbox.min k.root.bbox.max = false := by
  refine ⟨by decide, rfl, ⟨1, 1, [], [], .node sentinelBox 0 [] .null .null⟩, by decide!, ?_,
    rfl, by decide⟩
  simp [KDTreeNode.nodes]

/-- C20 (amended): with loose bounding boxes and a well-formed mesh that has at
least one vertex, every node of the built tree satisfies: its box has
`min <= max` componentwise; the boxes of its children (when it has children)
lie in its box; and every triangle of its index list has an axis-aligned extent
that overlaps its box on every axis (triangle min `<=` box max and triangle max
`>=` box min). -/
theorem node_bounds_invariant {cfg : Config} {fuel : Nat} {tris verts : List vec3}
    {k : KDTreeCPU} (hloose : cfg.USE_TIGHT_FITTING_BOUNDING_BOXES = false)
    (hwf : wellFormedMesh tris verts = true) (hne : verts ≠ [])
    (hk : KDTreeCPU.new cfg fuel tris verts = .ok k) :
    ∀ nd ∈ k.root.nodes,
      vec3.le nd.bbox.min nd.bbox.max = true ∧
      (nd.isLeaf = false →
        nd.bbox.contains nd.left.bbox.min = true ∧
        nd.bbox.contains nd.left.bbox.max = true ∧
        nd.bbox.contains nd.right.bbox.min = true ∧
        nd.bbox.contains nd.right.bbox.max = true) ∧
      (∀ idx ∈ nd.tri_indices, triOverlapsBox tris verts idx nd.bbox = true) := by
  obtain ⟨hbf, hc⟩ := computeTightFittingBoundingBox_contains hne
    (wellFormedMesh_verts_finite hwf)
  have hle : vec3.le (computeTightFittingBoundingBox verts).min
      (computeTightFittingBoundingBox verts).max = true := by
    cases hv : verts with
    | nil => exact absurd hv hne
    | cons x vs =>
      have hx : x ∈ verts := by rw [hv]; exact List.mem_cons_self _ _
      have hcx := (contains_iff_along _ x).mp (hc x hx)
      rw [← hv, vec3.le_iff_along]
      intro axis
      exact Flt.le_trans (hcx axis).1 (hcx axis).2
  refine built_bounds_spec hloose (built_of_new hk) hbf hle ?_
  intro idx hidx
  obtain ⟨i, hi, rfl⟩ := mem_rootIndices.mp hidx
  obtain ⟨vs, hvs⟩ := wellFormedMesh_triVerts hwf i hi
  exact triOverlapsBox_of_contains hvs hc

/-- Witness for C20 (amended): the build of the example mesh. -/
theorem node_bounds_invariant_witness :
    ∃ k, KDTreeCPU.new exampleConfig 10 exampleTris exampleVerts = .ok k ∧
      ∀ nd ∈ k.root.nodes,
        vec3.le nd.bbox.min nd.bbox.max = true ∧
        (nd.isLeaf = false →
          nd.bbox.contains nd.left.bbox.min = true ∧
          nd.bbox.contains nd.left.bbox.max = true ∧
          nd.bbox.contains nd.right.bbox.min = true ∧
          nd.bbox.contains nd.right.bbox.max = true) ∧
        (∀ idx ∈ nd.tri_indices,
          triOverlapsBox exampleTris exampleVerts idx nd.bbox = true) := by
  have hok : (KDTreeCPU.new exampleConfig 10 exampleTris exampleVerts).toBool = true := by
    decide!
  cases hr : KDTreeCPU.new exampleConfig 10 exampleTris exampleVerts with
  | error e => rw [hr] at hok; exact absurd hok (by simp [Except.toBool])
  | ok k => exact ⟨k, rfl, node_bounds_invariant rfl (by decide!) (by decide!) hr⟩

/-! ## Root box miss -/

/-- C3: for every tree (with a root node) and every ray for which the box
primitive reports a miss on the root node's bounding box, the public
`intersect` returns false with `t` at `+INFINITY` and with `hit_point` and
`normal` as the caller passed them; this holds whatever the triangle primitive
is, so no triangle test enters the result. -/
theorem intersect_root_box_miss (I : Intersections) (k : KDTreeCPU) (ray_o ray_dir : vec3)
    (hit_point normal : vec3) (hroot : k.root.isNull = false)
    (hmiss : I.aabbIntersect k.root.bbox ray_o ray_dir = false) :
    KDTreeCPU.intersect I k ray_o ray_dir hit_point normal
      = .ok (false, .pinf, hit_point, normal) := by
  obtain ⟨nl, nv, vs, ts, root⟩ := k
  cases root with
  | null => simp [KDTreeNode.isNull] at hroot
  | node bbox n l left right =>
    simp only [KDTreeNode.bbox] at hmiss
    simp [KDTreeCPU.intersect, intersectNode, hmiss, bind, Except.bind, pure, Except.pure]

/-- Witness for C3: a one-leaf tree and a box primitive that always reports a
miss. -/
theorem intersect_root_box_miss_witness :
    KDTreeCPU.intersect ⟨fun _ _ _ => false, fun _ _ _ _ _ => (true, .fin 1, vec3.ofRat 0 0 1)⟩
      ⟨1, 1, exampleVerts, exampleTris,
        .node (computeTightFittingBoundingBox exampleVerts) 1 [0] .null .null⟩
      (vec3.ofRat 0 0 5) (vec3.ofRat 0 0 (-1)) (vec3.ofRat 7 7 7) (vec3.ofRat 8 8 8)
      = .ok (false, .pinf, vec3.ofRat 7 7 7, vec3.ofRat 8 8 8) :=
  intersect_root_box_miss _ _ _ _ _ _ rfl rfl

/-! ## Longest side -/

/-- C8: for every box with finite corners and `min <= max` componentwise,
`getLongestBoundingBoxSide` returns an axis whose extent `max - min` is greater
than or equal to the extents of all three axes. -/
theorem getLongestBoundingBoxSide_extent_ge (min max : vec3)
    (hmin : min.isFinite = true) (hmax : max.isFinite = true)
    (_hle : vec3.le min max = true) (axis : SplitAxis) :
    Flt.ge (extent min max (getLongestBoundingBoxSide min max)) (extent min max axis)
      = true := by
  obtain ⟨⟨x0⟩ | _ | _ | _, ⟨y0⟩ | _ | _ | _, ⟨z0⟩ | _ | _ | _⟩ := min <;>
    simp [vec3.isFinite, Flt.isFinite] at hmin
  obtain ⟨⟨x1⟩ | _ | _ | _, ⟨y1⟩ | _ | _ | _, ⟨z1⟩ | _ | _ | _⟩ := max <;>
    simp [vec3.isFinite, Flt.isFinite] at hmax
  cases axis <;>
    simp only [getLongestBoundingBoxSide, extent, vec3.along, Flt.sub, Flt.neg, Flt.add,
      Flt.gt, Flt.lt, Bool.and_eq_true, decide_eq_true_eq] <;>
    split_ifs <;>
    simp only [vec3.along, Flt.ge, decide_eq_true_eq] <;>
    first
      | linarith
      | (rename_i h1 h2; by_contra hc; exact h1 ⟨by linarith, by linarith⟩)

/-- Witness for C8: the box from (0,0,0) to (1,3,2) and the X axis. -/
theorem getLongestBoundingBoxSide_extent_ge_witness :
    Flt.ge (extent (vec3.ofRat 0 0 0) (vec3.ofRat 1 3 2)
        (getLongestBoundingBoxSide (vec3.ofRat 0 0 0) (vec3.ofRat 1 3 2)))
      (extent (vec3.ofRat 0 0 0) (vec3.ofRat 1 3 2) .X_AXIS) = true :=
  getLongestBoundingBoxSide_extent_ge (vec3.ofRat 0 0 0) (vec3.ofRat 1 3 2)
    (by decide!) (by decide!) (by decide!) .X_AXIS

/-- C9 (as stated) fails: for the zero-extent box at the origin, where all
three extents tie, the function returns the Z axis and not the X axis. -/
theorem getLongestBoundingBoxSide_zero_extent_not_X :
    getLongestBoundingBoxSide (vec3.ofRat 0 0 0) (vec3.ofRat 0 0 0) = .Z_AXIS ∧
      getLongestBoundingBoxSide (vec3.ofRat 0 0 0) (vec3.ofRat 0 0 0) ≠ .X_AXIS := by
  decide!

/-- C9 (amended): on a box with finite corners ties are broken in the order
Z before Y before X. The function returns Z whenever the Z extent is among the
greatest, otherwise Y whenever the Y extent is among the greatest, and X only
when the X extent is strictly greater than both others; for a zero-extent box
(`min = max`) it returns Z. -/
theorem getLongestBoundingBoxSide_tie_break (min max : vec3)
    (hmin : min.isFinite = true) (hmax : max.isFinite = true) :
    (Flt.ge (extent min max .Z_AXIS) (extent min max .X_AXIS) = true →
      Flt.ge (extent min max .Z_AXIS) (extent min max .Y_AXIS) = true →
      getLongestBoundingBoxSide min max = .Z_AXIS) ∧
    (Flt.gt (extent min max .Y_AXIS) (extent min max .Z_AXIS) = true →
      Flt.ge (extent min max .Y_AXIS) (extent min max .X_AXIS) = true →
      getLongestBoundingBoxSide min max = .Y_AXIS) ∧
    (getLongestBoundingBoxSide min max = .X_AXIS ↔
      (Flt.gt (extent min max .X_AXIS) (extent min max .Y_AXIS) = true ∧
        Flt.gt (extent min max .X_AXIS) (extent min max .Z_AXIS) = true)) ∧
    (min = max → getLongestBoundingBoxSide min max = .Z_AXIS) := by
  obtain ⟨⟨x0⟩ | _ | _ | _, ⟨y0⟩ | _ | _ | _, ⟨z0⟩ | _ | _ | _⟩ := min <;>
    simp [vec3.isFinite, Flt.isFinite] at hmin
  obtain ⟨⟨x1⟩ | _ | _ | _, ⟨y1⟩ | _ | _ | _, ⟨z1⟩ | _ | _ | _⟩ := max <;>
    simp [vec3.isFinite, Flt.isFinite] at hmax
  simp only [getLongestBoundingBoxSide, extent, vec3.along, Flt.sub, Flt.neg, Flt.add,
    Flt.gt, Flt.lt, Flt.ge, Bool.and_eq_true, decide_eq_true_eq]
  refine ⟨fun h1 h2 => ?_, fun h1 h2 => ?_, ?_, fun h => ?_⟩
  · rw [if_neg (by intro h; linarith [h.2]), if_neg (by linarith)]
  · rw [if_neg (by intro h; linarith [h.1]), if_pos h1]
  · constructor
    · intro h
      by_contra hc
      rw [if_neg hc] at h
      split_ifs at h
    · intro h
      rw [if_pos h]
  · simp only [vec3.mk.injEq, Flt.fin.injEq] at h
    obtain ⟨rfl, rfl, rfl⟩ := h
    simp

/-- Witness for C9 (amended): the box from (0,0,0) to (2,2,2), all extents
equal, is split along Z. -/
theorem getLongestBoundingBoxSide_tie_break_witness :
    getLongestBoundingBoxSide (vec3.ofRat 0 0 0) (vec3.ofRat 2 2 2) = .Z_AXIS :=
  (getLongestBoundingBoxSide_tie_break (vec3.ofRat 0 0 0) (vec3.ofRat 2 2 2)
    (by decide!) (by decide!)).1 (by decide!) (by decide!)

end Accel
